import Mathlib

/-!
# go-mcc: wire codec, level grid and level stream

A shallow embedding of `gomcc/level.go` and `gomcc/packet.go`.

Conventions of the embedding

* Go `uint` and `int` are 64 bit wide. A `uint` value is a `Nat`, every `uint`
  operation is followed by `% 2 ^ 64`. An `int` value is an `Int`.
* A `byte` is a `Nat` below 256; a Go `string` or `[]byte` is the `List Nat` of
  its bytes; a fixed array `[n]T` is a list of length `n`.
* A finite `float64` is the rational number it denotes. Every floating point
  operation rounds its exact result to the nearest binary64 value, ties to even
  (`F64.round`); overflow to infinity is not modelled, the exponent is unbounded
  above. A conversion of a `float64` to an integer type truncates toward zero
  when the truncated value fits the type, and is implementation dependent
  otherwise (`Conv.oor`).
* A run-time panic and an exhausted loop budget are values of `Outcome`.
* A `bytes.Buffer` is the list of bytes written so far; an encoder appends.
-/

set_option autoImplicit false

namespace gomcc

/-! ## Machine arithmetic -/

/-- Number of values of a Go `uint` (64 bit target). -/
def UINT : Nat := 2 ^ 64

/-- Number of non-negative values of a Go `int` (64 bit target): a `uint` at or
above it converts to a negative `int`. -/
def MAXINT : Nat := 2 ^ 63

/-- Go `a * b` on `uint`. -/
def umul (a b : Nat) : Nat := (a * b) % UINT

/-- Go `a + b` on `uint`. -/
def uadd (a b : Nat) : Nat := (a + b) % UINT

/-- Result of a call: a value, a run-time panic, or an exhausted loop budget. -/
inductive Outcome (α : Type) where
  | ok (v : α)
  | panic
  | timeout
  deriving DecidableEq, Repr

/-! ## binary64 arithmetic on finite values -/

namespace F64

/-- Nearest integer, ties to the even one. -/
def rne (t : ℚ) : ℤ :=
  let f : ℤ := ⌊t⌋
  let r : ℚ := t - f
  if r < 1 / 2 then f
  else if 1 / 2 < r then f + 1
  else if f % 2 = 0 then f else f + 1

/-- Exponent of the binade of `q`, not below the subnormal range. -/
def expo (q : ℚ) : ℤ := max (Int.log 2 |q|) (-1022)

/-- Spacing of binary64 values in the binade of `q`. -/
def ulp (q : ℚ) : ℚ := (2 : ℚ) ^ (expo q - 52)

/-- Rounding of an exact result to binary64, nearest, ties to even. -/
def round (q : ℚ) : ℚ := (rne (q / ulp q) : ℚ) * ulp q

/-- The rational `q` is a binary64 value. -/
def isF64 (q : ℚ) : Prop := round q = q

instance (q : ℚ) : Decidable (isF64 q) := by unfold isF64; infer_instance

/-- Go `float64(n)` for an unsigned integer. -/
def ofNat (n : Nat) : ℚ := round (n : ℚ)

/-- Go `x * y` on `float64`. -/
def mul (x y : ℚ) : ℚ := round (x * y)

/-- Go `x / y` on `float64` (`y` nonzero). -/
def div (x y : ℚ) : ℚ := round (x / y)

/-- Go `x - y` on `float64`. -/
def sub (x y : ℚ) : ℚ := round (x - y)

end F64

/-! ## Level -/

/-- Modelled from the spec: the type `Location` is declared outside the given
sources; its fields are the ones `level.go` and `packet.go` read. -/
structure Location where
  X : ℚ
  Y : ℚ
  Z : ℚ
  Yaw : ℚ
  Pitch : ℚ
  deriving DecidableEq

/-- Modelled from the spec: the block code constants are declared outside the
given sources. `BlockAir` is the empty code, the zero value of `BlockID` that
`make` fills a new block array with. -/
def BlockAir : Nat := 0

/-- Modelled from the spec: the block codes `BlockBedrock` and
`BlockActiveWater` are declared outside the given sources and are taken as
parameters. -/
structure BlockCodes where
  BlockBedrock : Nat
  BlockActiveWater : Nat
  deriving DecidableEq

def WeatherSunny : Nat := 0
def WeatherRaining : Nat := 1
def WeatherSnowing : Nat := 2

structure LevelAppearance where
  TexturePackURL : List Nat
  SideBlock : Nat
  EdgeBlock : Nat
  SideLevel : Nat
  CloudLevel : Nat
  MaxViewDistance : Nat
  deriving DecidableEq

/-- The struct `Level`. `Server` is `none` for a nil pointer and `some a` for a
pointer to the server at address `a`. -/
structure Level where
  Server : Option Nat
  Name : List Nat
  Width : Nat
  Height : Nat
  Length : Nat
  Blocks : List Nat
  Spawn : Location
  Appearance : LevelAppearance
  Weather : Nat
  deriving DecidableEq

/-- Modelled from the spec: what a client was sent through `sendBlockChange`
and `sendWeather`, which are declared outside the given sources. -/
inductive Notice where
  | blockChange (x y z block : Nat)
  | weather (w : Nat)
  deriving DecidableEq

/-- Modelled from the spec: a connected session (`Client` is declared outside
the given sources): the address of the level its entity is on
(`client.Entity.level`) and the notices pushed to it, oldest first. -/
structure Client where
  level : Nat
  sent : List Notice
  deriving DecidableEq

/-- Modelled from the spec: the server registry (`Server` is declared outside
the given sources), reduced to its list of clients. -/
structure Server where
  clients : List Client
  deriving DecidableEq

/-- Modelled from the spec: `Server.ForEachClient` (declared outside the given
sources) visits every registered client once, in order. -/
def Server.ForEachClient (srv : Server) (fn : Client → Client) : Server :=
  { srv with clients := srv.clients.map fn }

/-- The constructor `NewLevel`. Whether `make([]BlockID, n)` returns depends on
the target: `makeLimit` is the largest length for which it does, which is at
most the allocation limit of the runtime (2^48 bytes on 64 bit Linux) and less
when memory is short. For a longer array, and for a length that converts to a
negative `int`, the call ends in the run-time panic of `make` or in the fatal
error of the runtime for lack of memory; both are `.panic` here. -/
def NewLevel (makeLimit : Nat) (codes : BlockCodes) (name : List Nat)
    (width height length : Nat) : Outcome (Option Level) :=
  if name.length = 0 then .ok none
  else
    let n := umul (umul width height) length
    if MAXINT ≤ n ∨ makeLimit < n then .panic
    else .ok (some {
      Server := none
      Name := name
      Width := width
      Height := height
      Length := length
      Blocks := List.replicate n 0
      Spawn := {
        X := F64.div (F64.ofNat width) 2
        Y := F64.div (F64.mul (F64.ofNat height) 3) 4
        Z := F64.div (F64.ofNat length) 2
        Yaw := 0
        Pitch := 0 }
      Appearance := {
        TexturePackURL := []
        SideBlock := codes.BlockBedrock
        EdgeBlock := codes.BlockActiveWater
        SideLevel := height / 2
        CloudLevel := uadd height 2
        MaxViewDistance := 0 }
      Weather := WeatherSunny })

def Level.Volume (level : Level) : Nat :=
  umul (umul level.Width level.Height) level.Length

def Level.Index (level : Level) (x y z : Nat) : Nat :=
  uadd x (umul level.Width (uadd z (umul level.Length y)))

def Level.GetBlock (level : Level) (x y z : Nat) : Outcome Nat :=
  if x < level.Width ∧ y < level.Height ∧ z < level.Length then
    match level.Blocks[level.Index x y z]? with
    | some b => .ok b
    | none => .panic
  else .ok BlockAir

/-- The method `Level.ForEachClient`: `self` is the address of the receiver,
`srv` the server `level.Server` points to when it is not nil. -/
def Level.ForEachClient (level : Level) (self : Nat) (srv : gomcc.Server)
    (fn : Client → Client) : gomcc.Server :=
  if level.Server = none then srv
  else srv.ForEachClient (fun client => if client.level = self then fn client else client)

/-- Modelled from the spec: `Client.sendBlockChange` is declared outside the
given sources; the client is pushed one block change. -/
def Client.sendBlockChange (client : Client) (x y z block : Nat) : Client :=
  { client with sent := client.sent ++ [Notice.blockChange x y z block] }

/-- Modelled from the spec: `Client.sendWeather` is declared outside the given
sources; the client is pushed one weather change. -/
def Client.sendWeather (client : Client) (weather : Nat) : Client :=
  { client with sent := client.sent ++ [Notice.weather weather] }

def Level.SetBlock (level : Level) (self : Nat) (srv : gomcc.Server) (x y z block : Nat)
    (broadcast : Bool) : Outcome (Level × gomcc.Server) :=
  if x < level.Width ∧ y < level.Height ∧ z < level.Length then
    if level.Index x y z < level.Blocks.length then
      let level1 := { level with Blocks := level.Blocks.set (level.Index x y z) block }
      if broadcast then
        .ok (level1, level1.ForEachClient self srv (fun client => client.sendBlockChange x y z block))
      else .ok (level1, srv)
    else .panic
  else .ok (level, srv)

/-! ## Wire codec -/

/-- Two's complement value of the low `bits` bits of `v`: conversion of an
integer to a signed integer type of that width. -/
def wrap (bits : Nat) (v : ℤ) : ℤ :=
  (v + 2 ^ (bits - 1)) % 2 ^ bits - 2 ^ (bits - 1)

/-- Big-endian bytes of an `int16`, as `binary.Write` emits them. -/
def be16 (v : ℤ) : List Nat :=
  let u := (v % 65536).toNat
  [u / 256, u % 256]

/-- Big-endian bytes of an `int32`, as `binary.Write` emits them. -/
def be32 (v : ℤ) : List Nat :=
  let u := (v % 4294967296).toNat
  [u / 16777216, u / 65536 % 256, u / 256 % 256, u % 256]

/-- Truncation toward zero. -/
def trunc (q : ℚ) : ℤ := if 0 ≤ q then ⌊q⌋ else ⌈q⌉

/-- The implementation dependent part of the conversions from `float64`: the
integer a target produces when the truncated value does not fit the result
type (`oor` for the signed types of a given width, `oorByte` for `byte`). -/
structure Conv where
  oor : Nat → ℚ → ℤ
  oorByte : ℚ → ℤ

/-- Go `intN(f)` for a `float64` and a signed type of width `bits`. -/
def Conv.toInt (cv : Conv) (bits : Nat) (f : ℚ) : ℤ :=
  let t := trunc f
  if -(2 ^ (bits - 1)) ≤ t ∧ t < 2 ^ (bits - 1) then t else wrap bits (cv.oor bits f)

/-- Go `byte(f)` for a `float64`. -/
def Conv.toByte (cv : Conv) (f : ℚ) : Nat :=
  let t := trunc f
  if 0 ≤ t ∧ t < 256 then t.toNat else (cv.oorByte f % 256).toNat

/-- Go `copy(dst, src)`: the new contents of `dst`. -/
def copy {α : Type} (dst src : List α) : List α :=
  src.take dst.length ++ dst.drop src.length

/-- Go `copy(dst[i:], src)` for `i` within `dst`: the new contents of `dst`. -/
def copyAt {α : Type} (dst : List α) (i : Nat) (src : List α) : List α :=
  dst.take i ++ copy (dst.drop i) src

def padString (str : List Nat) : List Nat :=
  let result := copy (List.replicate 64 0) str
  if str.length < 64 then
    copyAt result str.length (List.replicate (64 - str.length) 32)
  else result

def trimString (str : List Nat) : List Nat :=
  str.rdropWhile (fun c => c == 32)

/-- Modelled from the spec: the type `Entity` is declared outside the given
sources; its fields are the ones the encoders of `packet.go` read. -/
structure Entity where
  id : Nat
  name : List Nat
  DisplayName : List Nat
  ListName : List Nat
  GroupName : List Nat
  GroupRank : Nat
  SkinName : List Nat
  Model : List Nat
  location : Location
  lastLocation : Location
  deriving DecidableEq

structure Packet where
  buf : List Nat
  deriving DecidableEq

/-- Go `byte(angle * 256 / 360)`, the expression of every yaw and pitch field. -/
def angleByte (cv : Conv) (angle : ℚ) : Nat :=
  cv.toByte (F64.div (F64.mul angle 256) 360)

/-- Go `byte((a - b) * 32)`, the expression of every delta field. -/
def deltaByte (cv : Conv) (a b : ℚ) : Nat :=
  cv.toByte (F64.mul (F64.sub a b) 32)

def Packet.position (cv : Conv) (packet : Packet) (location : Location) (extPos : Bool) :
    Packet :=
  if extPos then
    ⟨packet.buf
      ++ be32 (cv.toInt 32 (F64.mul location.X 32))
      ++ be32 (cv.toInt 32 (F64.mul location.Y 32))
      ++ be32 (cv.toInt 32 (F64.mul location.Z 32))⟩
  else
    ⟨packet.buf
      ++ be16 (cv.toInt 16 (F64.mul location.X 32))
      ++ be16 (cv.toInt 16 (F64.mul location.Y 32))
      ++ be16 (cv.toInt 16 (F64.mul location.Z 32))⟩

def Packet.levelDataChunk (packet : Packet) (blocks : List Nat) (percent : Nat) : Packet :=
  let ChunkLength := wrap 16 blocks.length
  let ChunkData := copy (List.replicate 1024 0) blocks
  ⟨packet.buf ++ [0x03] ++ be16 ChunkLength ++ ChunkData ++ [percent]⟩

def Packet.addEntity (cv : Conv) (packet : Packet) (entity : Entity) (self extPos : Bool) :
    Packet :=
  let id := if self then 0xff else entity.id
  let location := entity.location
  let packet : Packet := ⟨packet.buf ++ [0x07, id] ++ padString entity.DisplayName⟩
  let packet := packet.position cv location extPos
  ⟨packet.buf ++ [angleByte cv location.Yaw, angleByte cv location.Pitch]⟩

def Packet.teleport (cv : Conv) (packet : Packet) (entity : Entity) (self extPos : Bool) :
    Packet :=
  let id := if self then 0xff else entity.id
  let location := entity.location
  let packet : Packet := ⟨packet.buf ++ [0x08, id]⟩
  let packet := packet.position cv location extPos
  ⟨packet.buf ++ [angleByte cv location.Yaw, angleByte cv location.Pitch]⟩

def Packet.positionOrientationUpdate (cv : Conv) (packet : Packet) (entity : Entity) :
    Packet :=
  let location := entity.location
  let lastLocation := entity.lastLocation
  ⟨packet.buf ++ [0x09, entity.id,
    deltaByte cv location.X lastLocation.X,
    deltaByte cv location.Y lastLocation.Y,
    deltaByte cv location.Z lastLocation.Z,
    angleByte cv location.Yaw,
    angleByte cv location.Pitch]⟩

def Packet.positionUpdate (cv : Conv) (packet : Packet) (entity : Entity) : Packet :=
  let location := entity.location
  let lastLocation := entity.lastLocation
  ⟨packet.buf ++ [0x0a, entity.id,
    deltaByte cv location.X lastLocation.X,
    deltaByte cv location.Y lastLocation.Y,
    deltaByte cv location.Z lastLocation.Z]⟩

def Packet.orientationUpdate (cv : Conv) (packet : Packet) (entity : Entity) : Packet :=
  let location := entity.location
  ⟨packet.buf ++ [0x0b, entity.id,
    angleByte cv location.Yaw,
    angleByte cv location.Pitch]⟩

def Packet.removeEntity (packet : Packet) (entity : Entity) (self : Bool) : Packet :=
  let id := if self then 0xff else entity.id
  ⟨packet.buf ++ [0x0c, id]⟩

def Packet.extAddPlayerName (packet : Packet) (entity : Entity) (self : Bool) : Packet :=
  let id : ℤ := if self then 0xff else wrap 16 entity.id
  ⟨packet.buf ++ [0x16] ++ be16 id
    ++ padString entity.name
    ++ padString entity.ListName
    ++ padString entity.GroupName
    ++ [entity.GroupRank]⟩

def Packet.extRemovePlayerName (packet : Packet) (entity : Entity) (self : Bool) : Packet :=
  let id : ℤ := if self then 0xff else wrap 16 entity.id
  ⟨packet.buf ++ [0x18] ++ be16 id⟩

def Packet.changeModel (packet : Packet) (entity : Entity) (self : Bool) : Packet :=
  let id := if self then 0xff else entity.id
  ⟨packet.buf ++ [0x1d, id] ++ padString entity.Model⟩

def Packet.extAddEntity2 (cv : Conv) (packet : Packet) (entity : Entity) (self extPos : Bool) :
    Packet :=
  let id := if self then 0xff else entity.id
  let location := entity.location
  let packet : Packet :=
    ⟨packet.buf ++ [0x21, id] ++ padString entity.DisplayName ++ padString entity.SkinName⟩
  let packet := packet.position cv location extPos
  ⟨packet.buf ++ [angleByte cv location.Yaw, angleByte cv location.Pitch]⟩

def Packet.bulkBlockUpdate (packet : Packet) (indices : List ℤ) (blocks : List Nat) : Packet :=
  let Count := indices.length % 256
  let Indices := copy (List.replicate 256 (0 : ℤ)) indices
  let Blocks := copy (List.replicate 256 0) blocks
  ⟨packet.buf ++ [0x26, Count] ++ Indices.flatMap be32 ++ Blocks⟩

def Packet.entityProperty (packet : Packet) (entity : Entity) (self : Bool) (prop : Nat)
    (value : ℤ) : Packet :=
  let id := if self then 0xff else entity.id
  ⟨packet.buf ++ [0x2a, id, prop] ++ be32 value⟩

/-! ## Level stream -/

/-- Modelled from the spec: the type `Player` is declared outside the given
sources; here it is the record of the packets handed to `sendPacket`, in the
order they were sent. -/
structure Player where
  sent : List Packet
  deriving DecidableEq

/-- Modelled from the spec: `Player.sendPacket` is declared outside the given
sources; the packet joins the outbound queue of the player. -/
def Player.sendPacket (player : Player) (packet : Packet) : Player :=
  { player with sent := player.sent ++ [packet] }

structure levelStream where
  player : Player
  buf : List Nat
  index : ℤ
  percent : Nat
  deriving DecidableEq

/-- The method `send`; the slice `stream.buf[:stream.index]` panics outside the
array. -/
def levelStream.send (stream : levelStream) : Outcome levelStream :=
  if 0 ≤ stream.index ∧ stream.index ≤ stream.buf.length then
    let packet := Packet.levelDataChunk ⟨[]⟩ (stream.buf.take stream.index.toNat) stream.percent
    .ok { stream with player := stream.player.sendPacket packet, index := 0 }
  else .panic

def levelStream.Close (stream : levelStream) : Outcome levelStream :=
  if stream.index > 0 then stream.send else .ok stream

/-- The loop of `Write`, with a budget of iterations. The slices
`stream.buf[stream.index:]` and `p[offset:offset+size]` panic out of range. -/
def levelStream.writeLoop : Nat → levelStream → List Nat → ℤ → ℤ → Outcome levelStream
  | 0, stream, _, _, count => if count > 0 then .timeout else .ok stream
  | fuel + 1, stream, p, offset, count =>
    if count > 0 then
      let size := min (1024 - stream.index) count
      if 0 ≤ stream.index ∧ stream.index ≤ stream.buf.length
          ∧ 0 ≤ offset ∧ offset ≤ offset + size ∧ offset + size ≤ p.length then
        let src := (p.drop offset.toNat).take size.toNat
        let stream1 : levelStream :=
          { stream with
            buf := copyAt stream.buf stream.index.toNat src
            index := stream.index + size }
        let offset1 := offset + size
        let count1 := count - size
        if stream1.index = 1024 then
          match stream1.send with
          | .ok stream2 => levelStream.writeLoop fuel stream2 p offset1 count1
          | .panic => .panic
          | .timeout => .timeout
        else levelStream.writeLoop fuel stream1 p offset1 count1
      else .panic
    else .ok stream

/-- The method `Write`: the stream afterwards and the returned count (the
returned error is always nil). -/
def levelStream.Write (stream : levelStream) (p : List Nat) : Outcome (levelStream × ℤ) :=
  match levelStream.writeLoop (p.length + 1) stream p 0 p.length with
  | .ok stream1 => .ok (stream1, p.length)
  | .panic => .panic
  | .timeout => .timeout

/-! ## Reading packets and driving a stream -/

/-- The bytes of a packet from offset `off`, `len` of them. -/
def field (p : Packet) (off len : Nat) : List Nat := (p.buf.drop off).take len

/-- The `ChunkData` field of a `LevelDataChunk` packet. -/
def chunkData (p : Packet) : List Nat := field p 3 1024

/-- Reading of a big-endian signed 16-bit field. -/
def readInt16 (b : List Nat) : ℤ :=
  match b with
  | [h, l] => if h < 128 then ((h * 256 + l : Nat) : ℤ) else ((h * 256 + l : Nat) : ℤ) - 65536
  | _ => 0

/-- Reading of a big-endian signed 32-bit field. -/
def readInt32 (b : List Nat) : ℤ :=
  match b with
  | [a, h, m, l] =>
    if a < 128 then ((a * 16777216 + h * 65536 + m * 256 + l : Nat) : ℤ)
    else ((a * 16777216 + h * 65536 + m * 256 + l : Nat) : ℤ) - 4294967296
  | _ => 0

/-- Sign extension of a big-endian 16-bit field to 32 bits. -/
def signExtend (b : List Nat) : List Nat :=
  match b with
  | [h, l] => if h < 128 then [0, 0, h, l] else [255, 255, h, l]
  | _ => b

/-- A sequence of `Write` calls on a stream; before each call the caller sets
the `percent` field. -/
def levelStream.writeAll : levelStream → List (Nat × List Nat) → Outcome levelStream
  | stream, [] => .ok stream
  | stream, (percent, p) :: rest =>
    match ({ stream with percent := percent }).Write p with
    | .ok (stream1, _) => levelStream.writeAll stream1 rest
    | .panic => .panic
    | .timeout => .timeout

/-- Invariant of a level stream between calls: the bytes `D` written so far are
the payloads of the chunks emitted since `sent0`, each the chunk packet of
1024 bytes, followed by the buffered bytes `buf[:index]`. -/
def StreamInv (sent0 : List Packet) (D : List Nat) (s : levelStream) : Prop :=
  s.buf.length = 1024 ∧ 0 ≤ s.index ∧ s.index < 1024 ∧
  ∃ out, s.player.sent = sent0 ++ out
    ∧ (∀ p ∈ out, ∃ c percent, c.length = 1024 ∧ p = Packet.levelDataChunk ⟨[]⟩ c percent)
    ∧ D = (out.map chunkData).flatten ++ s.buf.take s.index.toNat

/-! ## Level: clone, weather, block arrays held by reference -/

def Level.Clone (level : Level) (name : List Nat) : Option Level :=
  if name.length = 0 then none
  else
    let blocks := copy (List.replicate level.Blocks.length 0) level.Blocks
    some {
      Server := none
      Name := name
      Width := level.Width
      Height := level.Height
      Length := level.Length
      Blocks := blocks
      Spawn := level.Spawn
      Appearance := level.Appearance
      Weather := level.Weather }

/-- The states the method `SetWeather` passes through, one per statement of its
body: after the broadcast, then after the assignment; none when the guard
fails. -/
def Level.SetWeatherTrace (level : Level) (self : Nat) (srv : gomcc.Server) (weather : Nat) :
    List (Level × gomcc.Server) :=
  if weather ≠ level.Weather then
    let srv1 := level.ForEachClient self srv (fun client => client.sendWeather weather)
    [(level, srv1), ({ level with Weather := weather }, srv1)]
  else []

/-- The method `SetWeather`: the state on return. -/
def Level.SetWeather (level : Level) (self : Nat) (srv : gomcc.Server) (weather : Nat) :
    Level × gomcc.Server :=
  (level.SetWeatherTrace self srv weather).getLastD (level, srv)

/-- The heap of block arrays: `mem[a]?` is the backing array at address `a`;
`make` allocates at the next free address. -/
abbrev Mem := List (List Nat)

/-- A level whose `Blocks` slice is held by reference, as in Go: `blocks` is
the address of the backing array in the heap. The field `Blocks` of `fields`
is not read, the contents are `mem[blocks]`. -/
structure LevelRef where
  fields : Level
  blocks : Nat
  deriving DecidableEq

/-- The level a reference denotes in a heap; `none` for a dangling address. -/
def LevelRef.deref (r : LevelRef) (mem : Mem) : Option Level :=
  match mem[r.blocks]? with
  | some arr => some { r.fields with Blocks := arr }
  | none => none

/-- The method `GetBlock` on a level held by reference. -/
def LevelRef.GetBlock (r : LevelRef) (mem : Mem) (x y z : Nat) : Outcome Nat :=
  match r.deref mem with
  | some level => level.GetBlock x y z
  | none => .panic

/-- The method `SetBlock` on a level held by reference: the assignment
`level.Blocks[i] = block` writes into the backing array. -/
def LevelRef.SetBlock (r : LevelRef) (mem : Mem) (self : Nat) (srv : Server) (x y z block : Nat)
    (broadcast : Bool) : Outcome (Mem × Server) :=
  match r.deref mem with
  | some level =>
    match level.SetBlock self srv x y z block broadcast with
    | .ok (level1, srv1) => .ok (mem.set r.blocks level1.Blocks, srv1)
    | .panic => .panic
    | .timeout => .timeout
  | none => .panic

/-- The method `Clone` on a level held by reference: `make` allocates a new
backing array, `copy` fills it, and the new level refers to it. -/
def LevelRef.Clone (r : LevelRef) (mem : Mem) (name : List Nat) :
    Outcome (Mem × Option LevelRef) :=
  if name.length = 0 then .ok (mem, none)
  else
    match r.deref mem with
    | some level =>
      let blocks := mem.length
      let mem1 := mem ++ [List.replicate level.Blocks.length 0]
      let mem2 := mem1.set blocks (copy (List.replicate level.Blocks.length 0) level.Blocks)
      .ok (mem2, some {
        fields := {
          Server := none
          Name := name
          Width := level.Width
          Height := level.Height
          Length := level.Length
          Blocks := []
          Spawn := level.Spawn
          Appearance := level.Appearance
          Weather := level.Weather }
        blocks := blocks })
    | none => .panic

/-! ## Wire codec: level finalize, set block, moved entities -/

def Packet.levelFinalize (packet : Packet) (x y z : Nat) : Packet :=
  ⟨packet.buf ++ [0x04] ++ be16 (wrap 16 x) ++ be16 (wrap 16 y) ++ be16 (wrap 16 z)⟩

def Packet.setBlock (packet : Packet) (x y z : Nat) (block : Nat) : Packet :=
  ⟨packet.buf ++ [0x06] ++ be16 (wrap 16 x) ++ be16 (wrap 16 y) ++ be16 (wrap 16 z) ++ [block]⟩

def CpeClickDistance : Nat := 0
def CpeCustomBlocks : Nat := 1
def CpeHeldBlock : Nat := 2
def CpeExtPlayerList : Nat := 3
def CpeLongerMessages : Nat := 4
def CpeSelectionCuboid : Nat := 5
def CpeChangeModel : Nat := 6
def CpeEnvWeatherType : Nat := 7
def CpeHackControl : Nat := 8
def CpeMessageTypes : Nat := 9
def CpePlayerClick : Nat := 10
def CpeBulkBlockUpdate : Nat := 11
def CpeEnvMapAspect : Nat := 12
def CpeEntityProperty : Nat := 13
def CpeExtEntityPositions : Nat := 14
def CpeTwoWayPing : Nat := 15
def CpeInstantMOTD : Nat := 16
def CpeFastMap : Nat := 17
def CpeMax : Nat := CpeFastMap
def CpeCount : Nat := CpeMax + 1

structure ExtEntry where
  Name : List Nat
  Version : ℤ
  deriving DecidableEq

/-- The bytes of an ASCII string literal. -/
def ascii (s : String) : List Nat := s.toList.map Char.toNat

/-- The array `Extensions`, of `CpeCount` entries. -/
def Extensions : List ExtEntry :=
  [⟨ascii "ClickDistance", 1⟩,
   ⟨ascii "CustomBlocks", 1⟩,
   ⟨ascii "HeldBlock", 1⟩,
   ⟨ascii "ExtPlayerList", 2⟩,
   ⟨ascii "LongerMessages", 1⟩,
   ⟨ascii "SelectionCuboid", 1⟩,
   ⟨ascii "ChangeModel", 1⟩,
   ⟨ascii "EnvWeatherType", 1⟩,
   ⟨ascii "HackControl", 1⟩,
   ⟨ascii "MessageTypes", 1⟩,
   ⟨ascii "PlayerClick", 1⟩,
   ⟨ascii "BulkBlockUpdate", 1⟩,
   ⟨ascii "EnvMapAspect", 1⟩,
   ⟨ascii "EntityProperty", 1⟩,
   ⟨ascii "ExtEntityPositions", 1⟩,
   ⟨ascii "TwoWayPing", 1⟩,
   ⟨ascii "InstantMOTD", 1⟩,
   ⟨ascii "FastMap", 1⟩]

def packetTypeIdentification : Nat := 0x00
def packetTypePing : Nat := 0x01
def packetTypeLevelInitialize : Nat := 0x02
def packetTypeLevelDataChunk : Nat := 0x03
def packetTypeLevelFinalize : Nat := 0x04
def packetTypeSetBlockClient : Nat := 0x05
def packetTypeSetBlock : Nat := 0x06
def packetTypeAddEntity : Nat := 0x07
def packetTypePlayerTeleport : Nat := 0x08
def packetTypePositionOrientationUpdate : Nat := 0x09
def packetTypePositionUpdate : Nat := 0x0a
def packetTypeOrientationUpdate : Nat := 0x0b
def packetTypeRemoveEntity : Nat := 0x0c
def packetTypeMessage : Nat := 0x0d
def packetTypeKick : Nat := 0x0e
def packetTypeSetPermission : Nat := 0x0f
def packetTypeExtInfo : Nat := 0x10
def packetTypeExtEntry : Nat := 0x11
def packetTypeSetClickDistance : Nat := 0x12
def packetTypeCustomBlockSupportLevel : Nat := 0x13
def packetTypeHoldThis : Nat := 0x14
def packetTypeExtAddPlayerName : Nat := 0x16
def packetTypeExtRemovePlayerName : Nat := 0x18
def packetTypeMakeSelection : Nat := 0x1a
def packetTypeRemoveSelection : Nat := 0x1b
def packetTypeChangeModel : Nat := 0x1d
def packetTypeEnvSetWeatherType : Nat := 0x1f
def packetTypeHackControl : Nat := 0x20
def packetTypeExtAddEntity2 : Nat := 0x21
def packetTypePlayerClicked : Nat := 0x22
def packetTypeBulkBlockUpdate : Nat := 0x26
def packetTypeSetMapEnvUrl : Nat := 0x28
def packetTypeSetMapEnvProperty : Nat := 0x29
def packetTypeSetEntityProperty : Nat := 0x2a
def packetTypeTwoWayPing : Nat := 0x2b

/-- The declared tag constants, in the order of their declaration. -/
def packetTypes : List Nat :=
  [packetTypeIdentification, packetTypePing, packetTypeLevelInitialize,
   packetTypeLevelDataChunk, packetTypeLevelFinalize, packetTypeSetBlockClient,
   packetTypeSetBlock, packetTypeAddEntity, packetTypePlayerTeleport,
   packetTypePositionOrientationUpdate, packetTypePositionUpdate,
   packetTypeOrientationUpdate, packetTypeRemoveEntity, packetTypeMessage, packetTypeKick,
   packetTypeSetPermission, packetTypeExtInfo, packetTypeExtEntry,
   packetTypeSetClickDistance, packetTypeCustomBlockSupportLevel, packetTypeHoldThis,
   packetTypeExtAddPlayerName, packetTypeExtRemovePlayerName, packetTypeMakeSelection,
   packetTypeRemoveSelection, packetTypeChangeModel, packetTypeEnvSetWeatherType,
   packetTypeHackControl, packetTypeExtAddEntity2, packetTypePlayerClicked,
   packetTypeBulkBlockUpdate, packetTypeSetMapEnvUrl, packetTypeSetMapEnvProperty,
   packetTypeSetEntityProperty, packetTypeTwoWayPing]

/-- The method `motd`. The fields `player.operator` and
`player.server.Config.Name` are declared outside the given sources and are
taken as the parameters `operator` and `serverName`. -/
def Packet.motd (packet : Packet) (operator : Bool) (serverName : List Nat) (motd : List Nat) :
    Packet :=
  let userType := if operator then 0x64 else 0x00
  ⟨packet.buf ++ [packetTypeIdentification, 0x07] ++ padString serverName ++ padString motd
    ++ [userType]⟩

def Packet.ping (packet : Packet) : Packet :=
  ⟨packet.buf ++ [packetTypePing]⟩

def Packet.levelInitialize (packet : Packet) : Packet :=
  ⟨packet.buf ++ [packetTypeLevelInitialize]⟩

def Packet.levelInitializeExt (packet : Packet) (size : Nat) : Packet :=
  ⟨packet.buf ++ [packetTypeLevelInitialize] ++ be32 (wrap 32 size)⟩

def Packet.message (packet : Packet) (msgType : ℤ) (message : List Nat) : Packet :=
  ⟨packet.buf ++ [packetTypeMessage, (msgType % 256).toNat] ++ padString message⟩

def Packet.kick (packet : Packet) (reason : List Nat) : Packet :=
  ⟨packet.buf ++ [packetTypeKick] ++ padString reason⟩

/-- The method `userType`. The field `player.operator` is declared outside the
given sources and is taken as a parameter. -/
def Packet.userType (packet : Packet) (operator : Bool) : Packet :=
  let userType := if operator then 0x64 else 0x00
  ⟨packet.buf ++ [packetTypeSetPermission, userType]⟩

/-- The method `extInfo`. The constant `ServerSoftware` is declared outside the
given sources and is taken as a parameter. -/
def Packet.extInfo (packet : Packet) (ServerSoftware : List Nat) : Packet :=
  ⟨packet.buf ++ [packetTypeExtInfo] ++ padString ServerSoftware
    ++ be16 (wrap 16 Extensions.length)⟩

def Packet.extEntry (packet : Packet) (entry : ExtEntry) : Packet :=
  ⟨packet.buf ++ [packetTypeExtEntry] ++ padString entry.Name ++ be32 (wrap 32 entry.Version)⟩

/-- The method `clickDistance`. The field `player.clickDistance` is declared
outside the given sources; `distance` is the value of
`int16(player.clickDistance * 32)`. -/
def Packet.clickDistance (packet : Packet) (distance : ℤ) : Packet :=
  ⟨packet.buf ++ [packetTypeSetClickDistance] ++ be16 distance⟩

def Packet.customBlockSupportLevel (packet : Packet) (level : Nat) : Packet :=
  ⟨packet.buf ++ [packetTypeCustomBlockSupportLevel, level]⟩

def Packet.holdThis (packet : Packet) (block : Nat) (lock : Bool) : Packet :=
  let preventChange := if lock then 1 else 0
  ⟨packet.buf ++ [packetTypeHoldThis, block, preventChange]⟩

/-- The type `color.RGBA` of the Go standard library: four bytes. -/
structure RGBA where
  R : Nat
  G : Nat
  B : Nat
  A : Nat
  deriving DecidableEq

/-- Modelled from the spec: the type `AABB` is declared outside the given
sources; a box is given by the six values `int16(box.Min.X)` ..
`int16(box.Max.Z)` the encoder writes. -/
structure AABB where
  MinX : ℤ
  MinY : ℤ
  MinZ : ℤ
  MaxX : ℤ
  MaxY : ℤ
  MaxZ : ℤ
  deriving DecidableEq

def Packet.makeSelection (packet : Packet) (id : ℤ) (label : List Nat) (box : AABB)
    (color : RGBA) : Packet :=
  ⟨packet.buf ++ [packetTypeMakeSelection, (id % 256).toNat] ++ padString label
    ++ be16 box.MinX ++ be16 box.MinY ++ be16 box.MinZ
    ++ be16 box.MaxX ++ be16 box.MaxY ++ be16 box.MaxZ
    ++ be16 color.R ++ be16 color.G ++ be16 color.B ++ be16 color.A⟩

def Packet.removeSelection (packet : Packet) (id : ℤ) : Packet :=
  ⟨packet.buf ++ [packetTypeRemoveSelection, (id % 256).toNat]⟩

def Packet.envWeatherType (packet : Packet) (level : Level) : Packet :=
  ⟨packet.buf ++ [packetTypeEnvSetWeatherType, level.Weather]⟩

/-- Modelled from the spec: the type `HackConfig` is declared outside the given
sources; `JumpHeight` is the value of `int16(config.JumpHeight)`. -/
structure HackConfig where
  Flying : Bool
  NoClip : Bool
  Speeding : Bool
  SpawnControl : Bool
  ThirdPersonView : Bool
  JumpHeight : ℤ
  deriving DecidableEq

def Packet.hackControl (packet : Packet) (config : HackConfig) : Packet :=
  ⟨packet.buf ++ [packetTypeHackControl,
      if config.Flying then 1 else 0,
      if config.NoClip then 1 else 0,
      if config.Speeding then 1 else 0,
      if config.SpawnControl then 1 else 0,
      if config.ThirdPersonView then 1 else 0]
    ++ be16 config.JumpHeight⟩

/-- The method `mapEnvUrl`. The field `level.TexturePack` it reads is not among
the fields of `Level` in the given sources and is taken as a parameter. -/
def Packet.mapEnvUrl (packet : Packet) (TexturePack : List Nat) : Packet :=
  ⟨packet.buf ++ [packetTypeSetMapEnvUrl] ++ padString TexturePack⟩

def Packet.mapEnvProperty (packet : Packet) (id : Nat) (value : ℤ) : Packet :=
  ⟨packet.buf ++ [packetTypeSetMapEnvProperty, id] ++ be32 value⟩

def Packet.twoWayPing (packet : Packet) (dir : Nat) (data : ℤ) : Packet :=
  ⟨packet.buf ++ [packetTypeTwoWayPing, dir] ++ be16 data⟩

/-! ## Concrete inputs -/

/-- The level "flat" of 16 x 16 x 16 blocks, as `NewLevel` builds it. -/
def flat16 (codes : BlockCodes) : Level :=
  { Server := none
    Name := [102, 108, 97, 116]
    Width := 16
    Height := 16
    Length := 16
    Blocks := List.replicate 4096 0
    Spawn := {
      X := F64.div (F64.ofNat 16) 2
      Y := F64.div (F64.mul (F64.ofNat 16) 3) 4
      Z := F64.div (F64.ofNat 16) 2
      Yaw := 0
      Pitch := 0 }
    Appearance := {
      TexturePackURL := []
      SideBlock := codes.BlockBedrock
      EdgeBlock := codes.BlockActiveWater
      SideLevel := 8
      CloudLevel := 18
      MaxViewDistance := 0 }
    Weather := 0 }

/-- A stream whose buffer holds the 3 bytes 1, 2, 3 before stale bytes 9. -/
def stream3 : levelStream :=
  { player := ⟨[]⟩, buf := [1, 2, 3] ++ List.replicate 1021 9, index := 3, percent := 50 }

/-- A fresh stream: zeroed buffer, index 0, nothing sent yet. -/
def freshStream : levelStream :=
  { player := ⟨[]⟩, buf := List.replicate 1024 0, index := 0, percent := 0 }

/-- A target whose out-of-range conversions give 0. -/
def conv0 : Conv := ⟨fun _ _ => 0, fun _ => 0⟩

/-- An entity with id 5 at (1.5, -2, 1000), yaw 90, pitch 180. -/
def entity0 : Entity :=
  { id := 5
    name := [97]
    DisplayName := [97]
    ListName := [97]
    GroupName := []
    GroupRank := 0
    SkinName := [97]
    Model := []
    location := ⟨3 / 2, -2, 1000, 90, 180⟩
    lastLocation := ⟨1, -2, 1000, 0, 0⟩ }

/-- The level "flat" held by reference at address 0. -/
def flatRef : LevelRef := ⟨flat16 ⟨7, 8⟩, 0⟩

/-- A heap holding the block array of `flatRef`. -/
def flatMem : Mem := [List.replicate 4096 0]

/-- The level "flat" attached to the server at address 0. -/
def flatAttached : Level := { flat16 ⟨7, 8⟩ with Server := some 0 }

/-- A server with one client on the level at address 0 and one on the level at
address 1. -/
def twoClients : Server := ⟨[⟨0, []⟩, ⟨1, []⟩]⟩

/-- An entity whose stored id is the byte 255. -/
def entity255 : Entity := { entity0 with id := 255 }

/-- The well-formedness predicate `len(Blocks) == Width*Height*Length`, the
product taken in `uint` arithmetic as `Volume()` does. -/
def Level.wellFormed (level : Level) : Prop :=
  level.Blocks.length = umul (umul level.Width level.Height) level.Length

instance (level : Level) : Decidable level.wellFormed := by
  unfold Level.wellFormed; infer_instance

/-- A string of 65 bytes, the letter a. -/
def string65 : List Nat := List.replicate 65 97

/-- The stream fed one byte: the byte is stored at `index`, and a buffer that
became full is sent as one chunk. The byte-at-a-time behaviour `Write` is
compared with. -/
def levelStream.put (stream : levelStream) (x : Nat) : levelStream :=
  let stream1 : levelStream :=
    { stream with buf := stream.buf.set stream.index.toNat x, index := stream.index + 1 }
  if stream1.index = 1024 then
    { stream1 with
      player := stream1.player.sendPacket
        (Packet.levelDataChunk ⟨[]⟩ (stream1.buf.take stream1.index.toNat) stream1.percent)
      index := 0 }
  else stream1

/-- The stream fed the bytes of `p` one after the other. -/
def levelStream.feed (stream : levelStream) (p : List Nat) : levelStream :=
  p.foldl levelStream.put stream

/-! ## Level commands -/

/-- Modelled from the spec: the level registry of the server, consumed through
`FindLevel(name)`, `AddLevel`, `UnloadLevel` and the field `MainLevel`, which
are declared outside the sources and treated as given operations on a registry
state `R`. `FindLevel` hands out the address of the level found together with
the level it points to, or nothing; `AddLevel` takes the pointer that `Clone`
returned, which may be nil; `MainLevel` is a pointer too. -/
structure LevelRegistry (R : Type) where
  FindLevel : R → List Nat → Option (Nat × Level)
  AddLevel : R → Option Level → R
  UnloadLevel : R → Nat → R
  MainLevel : R → Option Nat

/-- Modelled from the spec: a command, of which the handlers read `Name`. -/
structure Command where
  Name : List Nat

/-- Modelled from the spec: a command sender, with the state of the server that
`Server()` returns and the messages it has been sent. -/
structure CommandSender (R : Type) where
  server : R
  messages : List (List Nat)

def CommandSender.SendMessage {R : Type} (sender : CommandSender R) (message : List Nat) :
    CommandSender R :=
  { sender with messages := sender.messages ++ [message] }

/-- The handler `handleCopyLvl`. `Fields` stands for `strings.Fields` of the Go
library; `args[0]` and `args[1]` are in range after the test of `len(args)`. -/
def handleCopyLvl {R : Type} (ops : LevelRegistry R) (Fields : List Nat → List (List Nat))
    (sender : CommandSender R) (command : Command) (message : List Nat) : CommandSender R :=
  let args := Fields message
  if args.length ≠ 2 then
    sender.SendMessage (ascii "Usage: " ++ command.Name ++ ascii " <src> <dest>")
  else
    let arg0 := args.getD 0 []
    let arg1 := args.getD 1 []
    match ops.FindLevel sender.server arg0 with
    | none => sender.SendMessage (ascii "Level " ++ arg0 ++ ascii " not found")
    | some (_, src) =>
      match ops.FindLevel sender.server arg1 with
      | some _ => sender.SendMessage (ascii "Level " ++ arg1 ++ ascii " already exists")
      | none =>
        let dest := src.Clone arg1
        let sender1 : CommandSender R :=
          { sender with server := ops.AddLevel sender.server dest }
        sender1.SendMessage
          (ascii "Level " ++ arg0 ++ ascii " has been copied to " ++ arg1)

/-- The handler `handleUnload`; `level == sender.Server().MainLevel` compares
pointers. -/
def handleUnload {R : Type} (ops : LevelRegistry R) (Fields : List Nat → List (List Nat))
    (sender : CommandSender R) (command : Command) (message : List Nat) : CommandSender R :=
  let args := Fields message
  if args.length ≠ 1 then
    sender.SendMessage (ascii "Usage: " ++ command.Name ++ ascii " <level>")
  else
    let arg0 := args.getD 0 []
    match ops.FindLevel sender.server arg0 with
    | none => sender.SendMessage (ascii "Level " ++ arg0 ++ ascii " not found")
    | some (level, _) =>
      if some level = ops.MainLevel sender.server then
        sender.SendMessage (ascii "Level " ++ arg0 ++ ascii " is the main level")
      else
        let sender1 : CommandSender R :=
          { sender with server := ops.UnloadLevel sender.server level }
        sender1.SendMessage (ascii "Level " ++ arg0 ++ ascii " unloaded")

/-- A registry kept as a list of addressed levels whose first entry is the main
level: `FindLevel` returns the first level of that name, `AddLevel` appends a
level that is not nil at the next address, `UnloadLevel` drops an address. -/
def listRegistry : LevelRegistry (List (Nat × Level)) :=
  { FindLevel := fun reg name => reg.find? (fun e => e.2.Name == name)
    AddLevel := fun reg dest =>
      match dest with
      | none => reg
      | some level => reg ++ [(reg.length, level)]
    UnloadLevel := fun reg level => reg.filter (fun e => e.1 != level)
    MainLevel := fun reg => reg.head?.map Prod.fst }

/-- The fields of a message separated by spaces, `cur` being the field read so
far. -/
def spaceFields : List Nat → List Nat → List (List Nat)
  | cur, [] => if cur = [] then [] else [cur]
  | cur, c :: rest =>
    if c = 32 then
      if cur = [] then spaceFields [] rest else cur :: spaceFields [] rest
    else spaceFields (cur ++ [c]) rest

/-- A sender on a server whose registry holds the level "flat" at address 0 and
a level "b" at address 1. -/
def sender0 : CommandSender (List (Nat × Level)) :=
  { server := [(0, flat16 ⟨7, 8⟩), (1, { flat16 ⟨7, 8⟩ with Name := [98] })], messages := [] }

/-! ## Level: lemmas -/

theorem flat_index_lt (w h l x y z : Nat) (hx : x < w) (hy : y < h) (hz : z < l) :
    x + w * (z + l * y) < w * h * l := by
  have h1 : z + l * y + 1 ≤ l * h := by
    calc z + l * y + 1 ≤ l + l * y := by omega
      _ = l * (y + 1) := by ring
      _ ≤ l * h := Nat.mul_le_mul_left l hy
  calc x + w * (z + l * y) < w + w * (z + l * y) := by omega
    _ = w * (z + l * y + 1) := by ring
    _ ≤ w * (l * h) := Nat.mul_le_mul_left w h1
    _ = w * h * l := by ring

theorem Index_eq (L : Level) (x y z : Nat) (hx : x < L.Width) (hy : y < L.Height)
    (hz : z < L.Length) (hvol : L.Width * L.Height * L.Length < UINT) :
    L.Index x y z = x + L.Width * (z + L.Length * y) := by
  have hlt := flat_index_lt L.Width L.Height L.Length x y z hx hy hz
  have hw : 1 ≤ L.Width := by omega
  have h1 : L.Length * y ≤ z + L.Length * y := by omega
  have h2 : z + L.Length * y ≤ L.Width * (z + L.Length * y) := Nat.le_mul_of_pos_left _ hw
  have h3 : L.Width * (z + L.Length * y) ≤ x + L.Width * (z + L.Length * y) := by omega
  unfold Level.Index uadd umul
  rw [Nat.mod_eq_of_lt (a := L.Length * y) (by omega),
    Nat.mod_eq_of_lt (a := z + L.Length * y) (by omega),
    Nat.mod_eq_of_lt (a := L.Width * (z + L.Length * y)) (by omega),
    Nat.mod_eq_of_lt (by omega)]

theorem umul3_eq (w h l : Nat) (hvol : w * h * l < UINT) : umul (umul w h) l = w * h * l := by
  unfold umul
  rcases Nat.eq_zero_or_pos l with hl | hl
  · subst hl; simp
  · have h1 : w * h ≤ w * h * l := Nat.le_mul_of_pos_right _ hl
    rw [Nat.mod_eq_of_lt (a := w * h) (by omega), Nat.mod_eq_of_lt hvol]

theorem NewLevel_some {makeLimit : Nat} (codes : BlockCodes) (name : List Nat) (w h l : Nat)
    (L : Level) (hnew : NewLevel makeLimit codes name w h l = .ok (some L)) :
    name ≠ [] ∧ L.Width = w ∧ L.Height = h ∧ L.Length = l
      ∧ L.Blocks = List.replicate (umul (umul w h) l) 0 := by
  unfold NewLevel at hnew
  split at hnew
  · simp at hnew
  · rename_i hname
    simp only at hnew
    split at hnew
    · simp at hnew
    · simp only [Outcome.ok.injEq, Option.some.injEq] at hnew
      subst hnew
      refine ⟨?_, rfl, rfl, rfl, rfl⟩
      intro h0; exact hname (by simp [h0])

/-! ## Level: claims -/

/-- C1: on a level returned by `NewLevel` whose volume `w*h*l` does not overflow,
`SetBlock` at an in-range coordinate with `broadcast = false` succeeds and
`GetBlock` at the same coordinate then returns the block that was set. -/
theorem setBlock_then_getBlock (makeLimit : Nat) (codes : BlockCodes) (name : List Nat)
    (w h l : Nat) (L : Level) (self : Nat) (srv : Server) (x y z b : Nat)
    (hnew : NewLevel makeLimit codes name w h l = .ok (some L))
    (hvol : w * h * l < UINT)
    (hx : x < L.Width) (hy : y < L.Height) (hz : z < L.Length) :
    ∃ L1, L.SetBlock self srv x y z b false = .ok (L1, srv) ∧ L1.GetBlock x y z = .ok b := by
  obtain ⟨_, hW, hH, hLn, hB⟩ := NewLevel_some codes name w h l L hnew
  have hvol1 : L.Width * L.Height * L.Length < UINT := by rw [hW, hH, hLn]; exact hvol
  have hidx := Index_eq L x y z hx hy hz hvol1
  have hlt := flat_index_lt L.Width L.Height L.Length x y z hx hy hz
  have hlen : L.Index x y z < L.Blocks.length := by
    rw [hB, List.length_replicate, umul3_eq w h l hvol, hidx, ← hW, ← hH, ← hLn]; exact hlt
  refine ⟨{ L with Blocks := L.Blocks.set (L.Index x y z) b }, ?_, ?_⟩
  · simp [Level.SetBlock, hx, hy, hz, hlen]
  · have hi : Level.Index { L with Blocks := L.Blocks.set (L.Index x y z) b } x y z
        = L.Index x y z := rfl
    simp only [Level.GetBlock, hx, hy, hz, and_self, if_true, hi]
    rw [List.getElem?_set_self hlen]

/-- Witness of C1: the level "flat" 16x16x16, `SetBlock(0,0,0,1,false)` gives
`GetBlock(0,0,0) == 1`. -/
theorem setBlock_then_getBlock_witness :
    NewLevel 2147483648 ⟨7, 8⟩ [102, 108, 97, 116] 16 16 16 = .ok (some (flat16 ⟨7, 8⟩))
    ∧ ∃ L1, (flat16 ⟨7, 8⟩).SetBlock 0 ⟨[]⟩ 0 0 0 1 false = .ok (L1, ⟨[]⟩)
        ∧ L1.GetBlock 0 0 0 = .ok 1 :=
  ⟨rfl,
    setBlock_then_getBlock 2147483648 ⟨7, 8⟩ [102, 108, 97, 116] 16 16 16 (flat16 ⟨7, 8⟩) 0 ⟨[]⟩
    0 0 0 1 rfl (by norm_num [UINT]) (by decide) (by decide) (by decide)⟩

/-- C2: at an out-of-range coordinate `GetBlock` returns the air code 0 without
failing, and `SetBlock` returns with the level (all its fields, `Blocks`
included) and the server unchanged, for every block and broadcast flag. -/
theorem out_of_range_get_set (L : Level) (self : Nat) (srv : Server) (x y z b : Nat)
    (broadcast : Bool) (hout : L.Width ≤ x ∨ L.Height ≤ y ∨ L.Length ≤ z) :
    L.GetBlock x y z = .ok 0 ∧ L.SetBlock self srv x y z b broadcast = .ok (L, srv) := by
  have hn : ¬ (x < L.Width ∧ y < L.Height ∧ z < L.Length) := by omega
  constructor
  · simp only [Level.GetBlock, hn, if_false, BlockAir]
  · simp only [Level.SetBlock, hn, if_false]

/-- Witness of C2: on the 16x16x16 level `GetBlock(16,0,0) == 0`. -/
theorem out_of_range_get_set_witness :
    (flat16 ⟨7, 8⟩).GetBlock 16 0 0 = .ok 0
    ∧ (flat16 ⟨7, 8⟩).SetBlock 0 ⟨[]⟩ 16 0 0 1 true = .ok (flat16 ⟨7, 8⟩, ⟨[]⟩) :=
  out_of_range_get_set (flat16 ⟨7, 8⟩) 0 ⟨[]⟩ 16 0 0 1 true (Or.inl (by decide))

/-- C4: for a non-empty name, `NewLevel` returns a level exactly when `make`
returns the block array, that is when the wrapped volume fits a Go `int` and
is within what the target allocates (a volume of 0 always is); otherwise it
does not return. Every level `L` it returns has `L.Volume() == w*h*l` in
`uint` arithmetic (the plain product when that does not overflow) and
`len(L.Blocks) == L.Volume()`. -/
theorem NewLevel_volume (makeLimit : Nat) (codes : BlockCodes) (name : List Nat) (w h l : Nat)
    (hname : name ≠ []) :
    (umul (umul w h) l < MAXINT → umul (umul w h) l ≤ makeLimit →
        ∃ L, NewLevel makeLimit codes name w h l = .ok (some L))
    ∧ (umul (umul w h) l = 0 → ∃ L, NewLevel makeLimit codes name w h l = .ok (some L))
    ∧ (MAXINT ≤ umul (umul w h) l ∨ makeLimit < umul (umul w h) l →
        NewLevel makeLimit codes name w h l = .panic)
    ∧ ∀ L, NewLevel makeLimit codes name w h l = .ok (some L) →
        L.Volume = umul (umul w h) l
        ∧ L.Blocks.length = L.Volume
        ∧ (w * h * l < UINT → L.Volume = w * h * l) := by
  have h0 : ¬ name.length = 0 := by
    intro h; exact hname (List.length_eq_zero.mp h)
  have hret : umul (umul w h) l < MAXINT → umul (umul w h) l ≤ makeLimit →
      ∃ L, NewLevel makeLimit codes name w h l = .ok (some L) := by
    intro hfit hlim
    have h1 : ¬ (MAXINT ≤ umul (umul w h) l ∨ makeLimit < umul (umul w h) l) := by omega
    simp only [NewLevel, h0, h1, if_false]
    exact ⟨_, rfl⟩
  refine ⟨hret, ?_, ?_, ?_⟩
  · intro hzero
    exact hret (by rw [hzero]; decide) (by rw [hzero]; exact Nat.zero_le _)
  · intro hbig
    simp only [NewLevel, h0, hbig, if_false, if_true]
  · intro L hnew
    obtain ⟨_, hW, hH, hLn, hB⟩ := NewLevel_some codes name w h l L hnew
    have hV : L.Volume = umul (umul w h) l := by
      simp only [Level.Volume, hW, hH, hLn]
    refine ⟨hV, ?_, ?_⟩
    · rw [hB, List.length_replicate, hV]
    · intro hvol
      rw [hV, umul3_eq w h l hvol]

/-- Witness of C4: `NewLevel("flat", 16, 16, 16).Volume() == 4096`. -/
theorem NewLevel_volume_witness :
    NewLevel 2147483648 ⟨7, 8⟩ [102, 108, 97, 116] 16 16 16 = .ok (some (flat16 ⟨7, 8⟩))
    ∧ (flat16 ⟨7, 8⟩).Volume = 4096
    ∧ (flat16 ⟨7, 8⟩).Blocks.length = (flat16 ⟨7, 8⟩).Volume
    ∧ NewLevel (2 ^ 48) ⟨7, 8⟩ [97] (2 ^ 62) 1 1 = .panic :=
  ⟨rfl,
    ((NewLevel_volume 2147483648 ⟨7, 8⟩ [102, 108, 97, 116] 16 16 16 (by decide)).2.2.2
      (flat16 ⟨7, 8⟩) rfl).2.2 (by norm_num [UINT]),
    ((NewLevel_volume 2147483648 ⟨7, 8⟩ [102, 108, 97, 116] 16 16 16 (by decide)).2.2.2
      (flat16 ⟨7, 8⟩) rfl).2.1,
    (NewLevel_volume (2 ^ 48) ⟨7, 8⟩ [97] (2 ^ 62) 1 1 (by decide)).2.2.1
      (Or.inr (by norm_num [umul, UINT]))⟩

/-! ## Wire codec: strings -/

theorem copy_of_le {α : Type} (dst src : List α) (h : src.length ≤ dst.length) :
    copy dst src = src ++ dst.drop src.length := by
  unfold copy
  rw [List.take_of_length_le h]

theorem copy_same_length {α : Type} (dst src : List α) (h : src.length = dst.length) :
    copy dst src = src := by
  rw [copy_of_le dst src (by omega), List.drop_of_length_le (by omega), List.append_nil]

theorem padString_of_le (s : List Nat) (hlen : s.length ≤ 64) :
    padString s = s ++ List.replicate (64 - s.length) 32 := by
  unfold padString
  have h1 : copy (List.replicate 64 0) s = s ++ List.replicate (64 - s.length) 0 := by
    rw [copy_of_le _ _ (by rw [List.length_replicate]; exact hlen), List.drop_replicate]
  simp only [h1]
  split
  · unfold copyAt
    rw [List.take_left' rfl, List.drop_left' rfl, copy_same_length _ _ (by simp)]
  · have : 64 - s.length = 0 := by omega
    simp [this]

theorem rdropWhile_append_replicate (p : Nat → Bool) (a : Nat) (ha : p a = true)
    (l : List Nat) (k : Nat) :
    (l ++ List.replicate k a).rdropWhile p = l.rdropWhile p := by
  induction k with
  | zero => simp
  | succ k ih =>
    rw [List.replicate_succ', ← List.append_assoc, List.rdropWhile_concat_pos _ _ _ ha, ih]

theorem rdropWhile_decomp (p : Nat → Bool) (a : Nat) (ha : ∀ c, p c = true → c = a)
    (l : List Nat) : ∃ k, l = l.rdropWhile p ++ List.replicate k a := by
  induction l using List.reverseRecOn with
  | nil => exact ⟨0, by simp⟩
  | append_singleton l c ih =>
    by_cases hc : p c = true
    · obtain ⟨k, hk⟩ := ih
      refine ⟨k + 1, ?_⟩
      rw [List.rdropWhile_concat_pos _ _ _ hc, List.replicate_succ', ← List.append_assoc, ← hk,
        ha c hc]
    · refine ⟨0, ?_⟩
      rw [List.rdropWhile_concat_neg _ _ _ hc]; simp

/-- C6: for a string of at most 64 bytes, `padString` is the string followed by
spaces up to 64 bytes, and `trimString` of it is the string with its trailing
spaces removed: the string is the result followed only by spaces, the result
does not end in a space, and it is the string itself when that does not end in
a space. -/
theorem padString_trimString (s : List Nat) (hlen : s.length ≤ 64) :
    padString s = s ++ List.replicate (64 - s.length) 32
    ∧ (padString s).length = 64
    ∧ (∃ k, s = trimString (padString s) ++ List.replicate k 32)
    ∧ (∀ h : trimString (padString s) ≠ [], (trimString (padString s)).getLast h ≠ 32)
    ∧ ((∀ h : s ≠ [], s.getLast h ≠ 32) → trimString (padString s) = s) := by
  have hpad := padString_of_le s hlen
  have htrim : trimString (padString s) = s.rdropWhile (fun c => c == 32) := by
    rw [hpad]; unfold trimString
    exact rdropWhile_append_replicate _ 32 (by simp) s _
  refine ⟨hpad, ?_, ?_, ?_, ?_⟩
  · rw [hpad, List.length_append, List.length_replicate]; omega
  · rw [htrim]
    exact rdropWhile_decomp _ 32 (by intro c hc; simpa using hc) s
  · intro h
    have h1 : (s.rdropWhile (fun c => c == 32)) ≠ [] := by rw [← htrim]; exact h
    have := List.rdropWhile_last_not (fun c => c == 32) s h1
    simp only [htrim]
    simpa using this
  · intro hs
    rw [htrim, List.rdropWhile_eq_self_iff]
    intro hl
    simpa using hs hl

/-- Witness of C6: the string "flat". -/
theorem padString_trimString_witness :
    padString [102, 108, 97, 116] = [102, 108, 97, 116] ++ List.replicate 60 32
    ∧ trimString (padString [102, 108, 97, 116]) = [102, 108, 97, 116] :=
  ⟨(padString_trimString [102, 108, 97, 116] (by decide)).1,
   (padString_trimString [102, 108, 97, 116] (by decide)).2.2.2.2 (by decide)⟩

/-! ## Wire codec: layout of the encoders -/

theorem position_buf (cv : Conv) (p : Packet) (loc : Location) (ext : Bool) :
    (p.position cv loc ext).buf = p.buf ++ (Packet.position cv ⟨[]⟩ loc ext).buf := by
  cases ext <;> simp [Packet.position, List.append_assoc]

theorem addEntity_buf (cv : Conv) (p : Packet) (e : Entity) (self ext : Bool) :
    (p.addEntity cv e self ext).buf
      = p.buf ++ ([0x07, if self then 0xff else e.id] ++ (padString e.DisplayName
        ++ ((Packet.position cv ⟨[]⟩ e.location ext).buf
        ++ [angleByte cv e.location.Yaw, angleByte cv e.location.Pitch]))) := by
  simp only [Packet.addEntity]
  rw [position_buf]
  simp only [List.append_assoc]

theorem teleport_buf (cv : Conv) (p : Packet) (e : Entity) (self ext : Bool) :
    (p.teleport cv e self ext).buf
      = p.buf ++ ([0x08, if self then 0xff else e.id]
        ++ ((Packet.position cv ⟨[]⟩ e.location ext).buf
        ++ [angleByte cv e.location.Yaw, angleByte cv e.location.Pitch])) := by
  simp only [Packet.teleport]
  rw [position_buf]
  simp only [List.append_assoc]

theorem extAddEntity2_buf (cv : Conv) (p : Packet) (e : Entity) (self ext : Bool) :
    (p.extAddEntity2 cv e self ext).buf
      = p.buf ++ ([0x21, if self then 0xff else e.id] ++ (padString e.DisplayName
        ++ (padString e.SkinName
        ++ ((Packet.position cv ⟨[]⟩ e.location ext).buf
        ++ [angleByte cv e.location.Yaw, angleByte cv e.location.Pitch])))) := by
  simp only [Packet.extAddEntity2]
  rw [position_buf]
  simp only [List.append_assoc]

theorem field_append (buf rest : List Nat) (off len : Nat) :
    field ⟨buf ++ rest⟩ (buf.length + off) len = (rest.drop off).take len := by
  unfold field
  rw [List.drop_append]

/-- C5: the byte right after the tag of `addEntity`, `teleport`, `removeEntity`,
`changeModel`, `extAddEntity2` and `entityProperty` is 0xFF when `self` is
true, whatever the stored id, and the stored id when `self` is false;
`extAddPlayerName` and `extRemovePlayerName` with `self` true carry 0x00FF in
the two bytes of `NameID`. -/
theorem self_id_override (cv : Conv) (p : Packet) (e : Entity) (extPos : Bool) (prop : Nat)
    (value : ℤ) :
    (field (p.addEntity cv e true extPos) (p.buf.length + 1) 1 = [0xff]
      ∧ field (p.addEntity cv e false extPos) (p.buf.length + 1) 1 = [e.id])
    ∧ (field (p.teleport cv e true extPos) (p.buf.length + 1) 1 = [0xff]
      ∧ field (p.teleport cv e false extPos) (p.buf.length + 1) 1 = [e.id])
    ∧ (field (p.removeEntity e true) (p.buf.length + 1) 1 = [0xff]
      ∧ field (p.removeEntity e false) (p.buf.length + 1) 1 = [e.id])
    ∧ (field (p.changeModel e true) (p.buf.length + 1) 1 = [0xff]
      ∧ field (p.changeModel e false) (p.buf.length + 1) 1 = [e.id])
    ∧ (field (p.extAddEntity2 cv e true extPos) (p.buf.length + 1) 1 = [0xff]
      ∧ field (p.extAddEntity2 cv e false extPos) (p.buf.length + 1) 1 = [e.id])
    ∧ (field (p.entityProperty e true prop value) (p.buf.length + 1) 1 = [0xff]
      ∧ field (p.entityProperty e false prop value) (p.buf.length + 1) 1 = [e.id])
    ∧ field (p.extAddPlayerName e true) (p.buf.length + 1) 2 = [0x00, 0xff]
    ∧ field (p.extRemovePlayerName e true) (p.buf.length + 1) 2 = [0x00, 0xff] := by
  refine ⟨⟨?_, ?_⟩, ⟨?_, ?_⟩, ⟨?_, ?_⟩, ⟨?_, ?_⟩, ⟨?_, ?_⟩, ⟨?_, ?_⟩, ?_, ?_⟩
  · rw [show p.addEntity cv e true extPos = ⟨(p.addEntity cv e true extPos).buf⟩ from rfl,
      addEntity_buf, field_append]; rfl
  · rw [show p.addEntity cv e false extPos = ⟨(p.addEntity cv e false extPos).buf⟩ from rfl,
      addEntity_buf, field_append]; rfl
  · rw [show p.teleport cv e true extPos = ⟨(p.teleport cv e true extPos).buf⟩ from rfl,
      teleport_buf, field_append]; rfl
  · rw [show p.teleport cv e false extPos = ⟨(p.teleport cv e false extPos).buf⟩ from rfl,
      teleport_buf, field_append]; rfl
  · show field ⟨p.buf ++ [0x0c, 0xff]⟩ _ _ = _
    rw [field_append]; rfl
  · show field ⟨p.buf ++ [0x0c, e.id]⟩ _ _ = _
    rw [field_append]; rfl
  · show field ⟨p.buf ++ [0x1d, 0xff] ++ padString e.Model⟩ _ _ = _
    rw [List.append_assoc, field_append]; rfl
  · show field ⟨p.buf ++ [0x1d, e.id] ++ padString e.Model⟩ _ _ = _
    rw [List.append_assoc, field_append]; rfl
  · rw [show p.extAddEntity2 cv e true extPos = ⟨(p.extAddEntity2 cv e true extPos).buf⟩ from rfl,
      extAddEntity2_buf, field_append]; rfl
  · rw [show p.extAddEntity2 cv e false extPos
        = ⟨(p.extAddEntity2 cv e false extPos).buf⟩ from rfl,
      extAddEntity2_buf, field_append]; rfl
  · show field ⟨p.buf ++ [0x2a, 0xff, prop] ++ be32 value⟩ _ _ = _
    rw [List.append_assoc, field_append]; rfl
  · show field ⟨p.buf ++ [0x2a, e.id, prop] ++ be32 value⟩ _ _ = _
    rw [List.append_assoc, field_append]; rfl
  · show field ⟨p.buf ++ [0x16] ++ be16 0xff ++ padString e.name ++ padString e.ListName
      ++ padString e.GroupName ++ [e.GroupRank]⟩ _ _ = _
    simp only [List.append_assoc]
    rw [field_append]; rfl
  · show field ⟨p.buf ++ [0x18] ++ be16 0xff⟩ _ _ = _
    rw [List.append_assoc, field_append]; rfl

/-! ## Wire codec: level chunks and bulk updates -/

theorem be16_wrap_small (n : Nat) (hn : n < 32768) :
    be16 (wrap 16 (n : ℤ)) = [n / 256, n % 256] := by
  have h : wrap 16 (n : ℤ) = n := by
    unfold wrap
    norm_num
    omega
  rw [h]
  unfold be16
  have h2 : ((n : ℤ) % 65536).toNat = n := by omega
  simp only [h2]

theorem levelDataChunk_buf (packet : Packet) (blocks : List Nat) (percent : Nat)
    (hn : blocks.length ≤ 1024) :
    (packet.levelDataChunk blocks percent).buf
      = packet.buf ++ [0x03, blocks.length / 256, blocks.length % 256] ++ blocks
        ++ List.replicate (1024 - blocks.length) 0 ++ [percent] := by
  unfold Packet.levelDataChunk
  simp only
  rw [be16_wrap_small _ (by omega), copy_of_le _ _ (by rw [List.length_replicate]; exact hn),
    List.drop_replicate]
  simp only [List.append_assoc, List.singleton_append, List.cons_append, List.nil_append]

/-- C7: for at most 1024 bytes `levelDataChunk` appends exactly 1028 bytes: the
tag 0x03, the length as a big-endian 16-bit integer, the bytes followed by
zeros up to 1024, and the percent byte; the chunk `send` emits is that packet
for `buf[:index]`, so its padding is zero whatever the buffer holds beyond
`index`. -/
theorem levelDataChunk_layout (packet : Packet) (blocks : List Nat) (percent : Nat)
    (hn : blocks.length ≤ 1024) :
    (packet.levelDataChunk blocks percent).buf
      = packet.buf ++ [0x03, blocks.length / 256, blocks.length % 256] ++ blocks
        ++ List.replicate (1024 - blocks.length) 0 ++ [percent]
    ∧ (packet.levelDataChunk blocks percent).buf.length = packet.buf.length + 1028
    ∧ ∀ stream : levelStream, stream.buf.length = 1024 → 0 ≤ stream.index →
        stream.index ≤ 1024 →
        stream.send = .ok { stream with
          player := stream.player.sendPacket
            ⟨[0x03, stream.index.toNat / 256, stream.index.toNat % 256]
              ++ stream.buf.take stream.index.toNat
              ++ List.replicate (1024 - stream.index.toNat) 0 ++ [stream.percent]⟩
          index := 0 } := by
  have hbuf := levelDataChunk_buf packet blocks percent hn
  refine ⟨hbuf, ?_, ?_⟩
  · rw [hbuf]
    simp only [List.length_append, List.length_replicate, List.length_cons, List.length_nil]
    omega
  · intro stream hlen h0 h1
    have hi : stream.index.toNat ≤ 1024 := by omega
    have htake : (stream.buf.take stream.index.toNat).length = stream.index.toNat := by
      rw [List.length_take]; omega
    have hcond : 0 ≤ stream.index ∧ stream.index ≤ (stream.buf.length : ℤ) := by
      rw [hlen]; exact ⟨h0, by exact_mod_cast h1⟩
    unfold levelStream.send
    rw [if_pos hcond]
    have := levelDataChunk_buf ⟨[]⟩ (stream.buf.take stream.index.toNat) stream.percent
      (by rw [htake]; exact hi)
    rw [htake] at this
    simp only [List.nil_append] at this
    rw [show Packet.levelDataChunk ⟨[]⟩ (stream.buf.take stream.index.toNat) stream.percent
      = ⟨(Packet.levelDataChunk ⟨[]⟩ (stream.buf.take stream.index.toNat) stream.percent).buf⟩
      from rfl, this]

/-- Witness of C7: the chunk of the bytes 1, 2, 3 at 50 percent, and `send` on a
stream whose buffer holds stale bytes beyond its index 3. -/
theorem levelDataChunk_layout_witness :
    (Packet.levelDataChunk ⟨[]⟩ [1, 2, 3] 50).buf
      = [0x03, 0, 3] ++ [1, 2, 3] ++ List.replicate 1021 0 ++ [50]
    ∧ stream3.send = .ok { stream3 with
        player := ⟨[⟨[0x03, 0, 3] ++ [1, 2, 3] ++ List.replicate 1021 0 ++ [50]⟩]⟩
        index := 0 } :=
  ⟨(levelDataChunk_layout ⟨[]⟩ [1, 2, 3] 50 (by decide)).1,
   (levelDataChunk_layout ⟨[]⟩ [1, 2, 3] 50 (by decide)).2.2 stream3
     (by
       show ([1, 2, 3] ++ List.replicate 1021 9).length = 1024
       rw [List.length_append, List.length_replicate]; rfl)
     (by decide) (by decide)⟩

theorem bulkBlockUpdate_count (p : Packet) (indices : List ℤ) (blocks : List Nat) :
    field (p.bulkBlockUpdate indices blocks) (p.buf.length + 1) 1 = [indices.length % 256] := by
  unfold Packet.bulkBlockUpdate
  simp only [List.append_assoc]
  rw [field_append]
  rfl

/-- C9 fails on the code: 256 pairs and no pair at all give the same count
byte 0, so the count byte does not represent 256. -/
theorem bulkBlockUpdate_count_256 :
    (List.replicate 256 (0 : ℤ)).length = 256
    ∧ field (Packet.bulkBlockUpdate ⟨[]⟩ (List.replicate 256 0) (List.replicate 256 0)) 1 1 = [0]
    ∧ field (Packet.bulkBlockUpdate ⟨[]⟩ [] []) 1 1 = [0] := by
  refine ⟨List.length_replicate _ _, ?_, ?_⟩
  · have h := bulkBlockUpdate_count ⟨[]⟩ (List.replicate 256 0) (List.replicate 256 0)
    rw [List.length_replicate] at h
    exact h
  · exact bulkBlockUpdate_count ⟨[]⟩ [] []

/-! ## Level stream: lemmas -/

theorem copyAt_eq {α : Type} (dst src : List α) (i : Nat) (hi : i + src.length ≤ dst.length) :
    copyAt dst i src = dst.take i ++ src ++ dst.drop (i + src.length) := by
  unfold copyAt
  rw [copy_of_le _ _ (by rw [List.length_drop]; omega), List.drop_drop, List.append_assoc]

theorem length_copyAt {α : Type} (dst src : List α) (i : Nat)
    (hi : i + src.length ≤ dst.length) : (copyAt dst i src).length = dst.length := by
  rw [copyAt_eq dst src i hi]
  simp only [List.length_append, List.length_take, List.length_drop]
  omega

theorem take_copyAt {α : Type} (dst src : List α) (i : Nat) (hi : i + src.length ≤ dst.length) :
    (copyAt dst i src).take (i + src.length) = dst.take i ++ src := by
  rw [copyAt_eq dst src i hi]
  apply List.take_left'
  simp only [List.length_append, List.length_take]
  omega

theorem chunkData_levelDataChunk (blocks : List Nat) (percent : Nat)
    (hn : blocks.length ≤ 1024) :
    chunkData (Packet.levelDataChunk ⟨[]⟩ blocks percent)
      = blocks ++ List.replicate (1024 - blocks.length) 0 := by
  have h := levelDataChunk_buf ⟨[]⟩ blocks percent hn
  unfold chunkData field
  rw [h]
  simp only [List.nil_append, List.append_assoc]
  show List.take 1024 (blocks ++ (List.replicate (1024 - blocks.length) 0 ++ [percent])) = _
  rw [← List.append_assoc]
  apply List.take_left'
  simp only [List.length_append, List.length_replicate]
  omega

theorem send_ok (stream : levelStream) (h0 : 0 ≤ stream.index)
    (h1 : stream.index ≤ (stream.buf.length : ℤ)) :
    stream.send = .ok { stream with
      player := stream.player.sendPacket
        (Packet.levelDataChunk ⟨[]⟩ (stream.buf.take stream.index.toNat) stream.percent)
      index := 0 } := by
  unfold levelStream.send
  rw [if_pos ⟨h0, h1⟩]

theorem chunkData_full (blocks : List Nat) (percent : Nat) (hn : blocks.length = 1024) :
    chunkData (Packet.levelDataChunk ⟨[]⟩ blocks percent) = blocks := by
  rw [chunkData_levelDataChunk blocks percent (by omega), hn]
  simp

theorem writeLoop_inv (sent0 : List Packet) (p : List Nat) :
    ∀ (fuel : Nat) (s : levelStream) (D : List Nat) (o c : Nat),
      StreamInv sent0 D s → o + c = p.length → c < fuel →
      ∃ s1, levelStream.writeLoop fuel s p (o : ℤ) (c : ℤ) = .ok s1
        ∧ StreamInv sent0 (D ++ p.drop o) s1 := by
  intro fuel
  induction fuel with
  | zero => intro s D o c _ _ hc; omega
  | succ fuel ih =>
    intro s D o c hinv hoc hc
    obtain ⟨hlen, hi0, hi1, out, hsent, hout, hD⟩ := hinv
    rcases Nat.eq_zero_or_pos c with hc0 | hcpos
    · subst hc0
      refine ⟨s, ?_, ?_⟩
      · simp [levelStream.writeLoop]
      · have : p.drop o = [] := List.drop_of_length_le (by omega)
        rw [this, List.append_nil]
        exact ⟨hlen, hi0, hi1, out, hsent, hout, hD⟩
    · obtain ⟨i, hi⟩ : ∃ i : Nat, s.index = (i : ℤ) := ⟨s.index.toNat, by omega⟩
      have hi1n : i < 1024 := by omega
      obtain ⟨sz, hsz⟩ : ∃ sz : Nat, sz = min (1024 - i) c := ⟨_, rfl⟩
      have hsize : min (1024 - s.index) (c : ℤ) = (sz : ℤ) := by omega
      have hszpos : 0 < sz := by omega
      have hszle : sz ≤ c := by omega
      have hcount : (c : ℤ) > 0 := by omega
      have hcond : 0 ≤ s.index ∧ s.index ≤ (s.buf.length : ℤ) ∧ 0 ≤ (o : ℤ)
          ∧ (o : ℤ) ≤ (o : ℤ) + (sz : ℤ) ∧ (o : ℤ) + (sz : ℤ) ≤ (p.length : ℤ) := by
        rw [hlen]; omega
      unfold levelStream.writeLoop
      rw [if_pos hcount]
      simp only [hsize]
      rw [if_pos hcond]
      have hosz : (o : ℤ) + (sz : ℤ) = ((o + sz : Nat) : ℤ) := by push_cast; rfl
      have hcsz : (c : ℤ) - (sz : ℤ) = ((c - sz : Nat) : ℤ) := by omega
      have hosz2 : (i : ℤ) + (sz : ℤ) = ((i + sz : Nat) : ℤ) := by push_cast; rfl
      rw [hosz, hcsz, hi]
      simp only [Int.toNat_ofNat]
      have hsrc : ((p.drop o).take sz).length = sz := by
        rw [List.length_take, List.length_drop]; omega
      have hfit : i + ((p.drop o).take sz).length ≤ s.buf.length := by rw [hsrc, hlen]; omega
      have hblen := length_copyAt s.buf ((p.drop o).take sz) i hfit
      have htake := take_copyAt s.buf ((p.drop o).take sz) i hfit
      rw [hsrc] at htake
      have hD1 : D ++ (p.drop o).take sz
          = (out.map chunkData).flatten ++ (copyAt s.buf i ((p.drop o).take sz)).take (i + sz) := by
        rw [htake, hD, hi, Int.toNat_ofNat, List.append_assoc]
      have hrest : D ++ (p.drop o).take sz ++ p.drop (o + sz) = D ++ p.drop o := by
        rw [List.append_assoc, ← List.drop_drop, List.take_append_drop]
      by_cases hfull : i + sz = 1024
      · have hfullz : (i : ℤ) + (sz : ℤ) = 1024 := by omega
        rw [if_pos hfullz]
        have hsend := send_ok
          { player := s.player, buf := copyAt s.buf i ((p.drop o).take sz),
            index := (i : ℤ) + (sz : ℤ), percent := s.percent }
          (by show (0 : ℤ) ≤ (i : ℤ) + (sz : ℤ); omega)
          (by show (i : ℤ) + (sz : ℤ) ≤ ((copyAt s.buf i ((p.drop o).take sz)).length : ℤ)
              rw [hblen, hlen]; omega)
        rw [hsend]
        simp only [hosz2, Int.toNat_ofNat]
        have hblk : ((copyAt s.buf i ((p.drop o).take sz)).take (i + sz)).length = 1024 := by
          rw [List.length_take, hblen, hlen]; omega
        have hinv2 : StreamInv sent0 (D ++ (p.drop o).take sz)
            { player := s.player.sendPacket (Packet.levelDataChunk ⟨[]⟩
                ((copyAt s.buf i ((p.drop o).take sz)).take (i + sz)) s.percent),
              buf := copyAt s.buf i ((p.drop o).take sz),
              index := 0, percent := s.percent } := by
          refine ⟨by rw [hblen, hlen], by show (0 : ℤ) ≤ 0; omega,
            by show (0 : ℤ) < 1024; omega,
            out ++ [Packet.levelDataChunk ⟨[]⟩
                ((copyAt s.buf i ((p.drop o).take sz)).take (i + sz)) s.percent], ?_, ?_, ?_⟩
          · show s.player.sent ++ _ = _
            rw [hsent, List.append_assoc]
          · intro q hq
            rcases List.mem_append.mp hq with hq | hq
            · exact hout q hq
            · exact ⟨_, _, hblk, List.mem_singleton.mp hq⟩
          · rw [hD1, List.map_append, List.flatten_append]
            show _ = _ ++ List.take (0 : ℤ).toNat _
            simp only [List.map_cons, List.map_nil, List.flatten_cons, List.flatten_nil,
              List.append_nil, Int.toNat_zero, List.take_zero, chunkData_full _ _ hblk]
        obtain ⟨s1, h1, h2⟩ := ih _ _ (o + sz) (c - sz) hinv2 (by omega) (by omega)
        rw [hrest] at h2
        exact ⟨s1, h1, h2⟩
      · have hfullz : ¬ ((i : ℤ) + (sz : ℤ) = 1024) := by omega
        rw [if_neg hfullz]
        have hinv1 : StreamInv sent0 (D ++ (p.drop o).take sz)
            { player := s.player, buf := copyAt s.buf i ((p.drop o).take sz),
              index := (i : ℤ) + (sz : ℤ), percent := s.percent } := by
          refine ⟨by rw [hblen, hlen], by show (0 : ℤ) ≤ (i : ℤ) + (sz : ℤ); omega,
            by show (i : ℤ) + (sz : ℤ) < 1024; omega, out, hsent, hout, ?_⟩
          rw [hD1]
          show _ = _ ++ List.take ((i : ℤ) + (sz : ℤ)).toNat _
          rw [hosz2, Int.toNat_ofNat]
        obtain ⟨s1, h1, h2⟩ := ih _ _ (o + sz) (c - sz) hinv1 (by omega) (by omega)
        rw [hrest] at h2
        exact ⟨s1, h1, h2⟩

theorem Write_inv (sent0 : List Packet) (p : List Nat) (s : levelStream) (D : List Nat)
    (hinv : StreamInv sent0 D s) :
    ∃ s1, s.Write p = .ok (s1, (p.length : ℤ)) ∧ StreamInv sent0 (D ++ p) s1 := by
  obtain ⟨s1, h1, h2⟩ := writeLoop_inv sent0 p (p.length + 1) s D 0 p.length hinv
    (by omega) (by omega)
  refine ⟨s1, ?_, by simpa using h2⟩
  unfold levelStream.Write
  have h0 : ((0 : Nat) : ℤ) = 0 := rfl
  rw [h0] at h1
  rw [h1]

theorem writeAll_inv (sent0 : List Packet) (writes : List (Nat × List Nat)) :
    ∀ (s : levelStream) (D : List Nat), StreamInv sent0 D s →
      ∃ s1, s.writeAll writes = .ok s1
        ∧ StreamInv sent0 (D ++ (writes.map Prod.snd).flatten) s1 := by
  induction writes with
  | nil =>
    intro s D hinv
    exact ⟨s, rfl, by simpa using hinv⟩
  | cons w rest ih =>
    intro s D hinv
    obtain ⟨percent, p⟩ := w
    have hinv0 : StreamInv sent0 D { s with percent := percent } := hinv
    obtain ⟨s1, h1, h2⟩ := Write_inv sent0 p _ D hinv0
    obtain ⟨s2, h3, h4⟩ := ih s1 (D ++ p) h2
    refine ⟨s2, ?_, ?_⟩
    · simp only [levelStream.writeAll, h1, h3]
    · simpa [List.append_assoc] using h4

theorem length_flatten_uniform (n : Nat) (cs : List (List Nat)) (h : ∀ c ∈ cs, c.length = n) :
    cs.flatten.length = n * cs.length := by
  induction cs with
  | nil => simp
  | cons c cs ih =>
    rw [List.flatten_cons, List.length_append, h c (List.mem_cons_self _ _),
      ih (fun d hd => h d (List.mem_cons_of_mem _ hd)), List.length_cons]
    ring

theorem chunk_at (n : Nat) (cs : List (List Nat)) (h : ∀ c ∈ cs, c.length = n)
    (tail : List Nat) :
    ∀ j, j < cs.length → cs[j]? = some (((cs.flatten ++ tail).drop (n * j)).take n) := by
  induction cs with
  | nil => intro j hj; simp at hj
  | cons c cs ih =>
    intro j hj
    have hc : c.length = n := h c (List.mem_cons_self _ _)
    cases j with
    | zero =>
      simp only [List.getElem?_cons_zero, Nat.mul_zero, List.drop_zero, List.flatten_cons,
        List.append_assoc]
      rw [List.take_left' hc]
    | succ j =>
      have hj1 : j < cs.length := by simpa using hj
      rw [List.getElem?_cons_succ, ih (fun d hd => h d (List.mem_cons_of_mem _ hd)) j hj1,
        List.flatten_cons, List.append_assoc]
      have : n * (j + 1) = c.length + n * j := by rw [hc]; ring
      rw [this, ← List.drop_drop, List.drop_left' rfl]

/-- C3: on a fresh stream (index 0) every sequence of `Write` calls followed by
`Close` succeeds, and the 1024-byte payloads of the chunks it emits, in
order, concatenate to the N input bytes followed by zero bytes, fewer than
1024 of them; every chunk but the last carries the next 1024 input bytes, so
the zeros all lie in the last chunk. -/
theorem levelStream_payloads (s0 : levelStream) (writes : List (Nat × List Nat))
    (hidx : s0.index = 0) (hbuf : s0.buf.length = 1024) :
    ∃ s1 s2 out, s0.writeAll writes = .ok s1 ∧ s1.Close = .ok s2
      ∧ s2.player.sent = s0.player.sent ++ out
      ∧ (out.map chunkData).flatten = (writes.map Prod.snd).flatten
          ++ List.replicate ((1024 - (writes.map Prod.snd).flatten.length % 1024) % 1024) 0
      ∧ (∀ q ∈ out, (chunkData q).length = 1024)
      ∧ (∀ j, j + 1 < out.length → (out.map chunkData)[j]?
          = some (((writes.map Prod.snd).flatten.drop (1024 * j)).take 1024)) := by
  have hinv0 : StreamInv s0.player.sent [] s0 :=
    ⟨hbuf, by omega, by omega, [], by simp, by simp, by simp [hidx]⟩
  obtain ⟨s1, hw, hlen, hi0, hi1, out, hsent, hfull, hD⟩ :=
    writeAll_inv s0.player.sent writes s0 [] hinv0
  rw [List.nil_append] at hD
  have hout : ∀ q ∈ out, (chunkData q).length = 1024 := by
    intro q hq
    obtain ⟨c, percent, hc, rfl⟩ := hfull q hq
    rw [chunkData_full _ _ hc]
    exact hc
  have hmap : ∀ c ∈ out.map chunkData, c.length = 1024 := by
    intro c hc
    obtain ⟨q, hq, rfl⟩ := List.mem_map.mp hc
    exact hout q hq
  have hflat := length_flatten_uniform 1024 (out.map chunkData) hmap
  rw [List.length_map] at hflat
  have htk : (s1.buf.take s1.index.toNat).length = s1.index.toNat := by
    rw [List.length_take]; omega
  have hN : (writes.map Prod.snd).flatten.length = 1024 * out.length + s1.index.toNat := by
    rw [hD, List.length_append, hflat, htk]
  by_cases hpos : s1.index > 0
  · have hsend := send_ok s1 hi0 (by rw [hlen]; omega)
    refine ⟨s1, { s1 with
        player := s1.player.sendPacket
          (Packet.levelDataChunk ⟨[]⟩ (s1.buf.take s1.index.toNat) s1.percent)
        index := 0 },
      out ++ [Packet.levelDataChunk ⟨[]⟩ (s1.buf.take s1.index.toNat) s1.percent],
      hw, ?_, ?_, ?_, ?_, ?_⟩
    · unfold levelStream.Close
      rw [if_pos hpos, hsend]
    · show s1.player.sent ++ _ = _
      rw [hsent, List.append_assoc]
    · have hpad : (1024 - (writes.map Prod.snd).flatten.length % 1024) % 1024
          = 1024 - s1.index.toNat := by
        rw [hN]; omega
      rw [hpad, List.map_append, List.flatten_append, hD]
      simp only [List.map_cons, List.map_nil, List.flatten_cons, List.flatten_nil,
        List.append_nil]
      rw [chunkData_levelDataChunk _ _ (by rw [htk]; omega), htk, List.append_assoc]
    · intro q hq
      rcases List.mem_append.mp hq with hq | hq
      · exact hout q hq
      · rw [List.mem_singleton.mp hq, chunkData_levelDataChunk _ _ (by rw [htk]; omega),
          List.length_append, List.length_replicate, htk]
        omega
    · intro j hj
      have hj1 : j < out.length := by
        rw [List.length_append] at hj; simpa using hj
      rw [List.map_append, List.getElem?_append_left (by rw [List.length_map]; exact hj1), hD]
      exact chunk_at 1024 (out.map chunkData) hmap _ j (by rw [List.length_map]; exact hj1)
  · have hz : s1.index.toNat = 0 := by omega
    refine ⟨s1, s1, out, hw, ?_, hsent, ?_, hout, ?_⟩
    · unfold levelStream.Close
      rw [if_neg hpos]
    · have hpad : (1024 - (writes.map Prod.snd).flatten.length % 1024) % 1024 = 0 := by
        rw [hN]; omega
      rw [hpad, hD, hz]
      simp
    · intro j hj
      have hj1 : j < out.length := by omega
      rw [hD]
      exact chunk_at 1024 (out.map chunkData) hmap _ j (by rw [List.length_map]; exact hj1)

/-- Witness of C3: the bytes 1, 2, 3 and then 4 written to a fresh stream. -/
theorem levelStream_payloads_witness :
    ∃ s1 s2 out, freshStream.writeAll [(10, [1, 2, 3]), (20, [4])] = .ok s1
      ∧ s1.Close = .ok s2
      ∧ s2.player.sent = freshStream.player.sent ++ out
      ∧ (out.map chunkData).flatten = ([(10, [1, 2, 3]), (20, [4])].map Prod.snd).flatten
          ++ List.replicate
            ((1024 - ([(10, [1, 2, 3]), (20, [4])].map Prod.snd).flatten.length % 1024) % 1024) 0
      ∧ (∀ q ∈ out, (chunkData q).length = 1024)
      ∧ (∀ j, j + 1 < out.length → (out.map chunkData)[j]?
          = some ((([(10, [1, 2, 3]), (20, [4])].map Prod.snd).flatten.drop (1024 * j)).take
              1024)) :=
  levelStream_payloads freshStream [(10, [1, 2, 3]), (20, [4])] rfl
    (List.length_replicate _ _)

/-! ## binary64: rounding lemmas -/

namespace F64

theorem rne_intCast (m : ℤ) : rne (m : ℚ) = m := by
  unfold rne
  simp

theorem rne_le_of_le (t : ℚ) (N : ℤ) (h : t ≤ N) : rne t ≤ N := by
  rcases eq_or_lt_of_le h with h | h
  · rw [h, rne_intCast]
  · have hf : ⌊t⌋ < N := Int.floor_lt.mpr h
    unfold rne
    simp only
    split
    · omega
    · split
      · omega
      · split <;> omega

theorem le_rne_of_le (t : ℚ) (N : ℤ) (h : (N : ℚ) ≤ t) : N ≤ rne t := by
  have hf : N ≤ ⌊t⌋ := Int.le_floor.mpr h
  unfold rne
  simp only
  split
  · omega
  · split
    · omega
    · split <;> omega

theorem rne_sub_le (t : ℚ) : (rne t : ℚ) - t ≤ 1 / 2 := by
  have h1 : (⌊t⌋ : ℚ) ≤ t := Int.floor_le t
  have h2 : t < ⌊t⌋ + 1 := Int.lt_floor_add_one t
  unfold rne
  simp only
  split
  · linarith
  · rename_i h3
    split
    · push_cast; linarith
    · split
      · linarith
      · push_cast; linarith

theorem sub_rne_le (t : ℚ) : t - (rne t : ℚ) ≤ 1 / 2 := by
  have h1 : (⌊t⌋ : ℚ) ≤ t := Int.floor_le t
  have h2 : t < ⌊t⌋ + 1 := Int.lt_floor_add_one t
  unfold rne
  simp only
  split
  · linarith
  · rename_i h3
    split
    · push_cast; linarith
    · rename_i h4
      split
      · linarith
      · push_cast; linarith

theorem ulp_pos (q : ℚ) : 0 < ulp q := by
  unfold ulp
  positivity

theorem expo_ge (q : ℚ) : -1022 ≤ expo q := le_max_right _ _

/-- An integer multiple of a power of two at least the spacing is on the grid. -/
theorem two_zpow_eq_int_mul (j k : ℤ) (h : k ≤ j) :
    ∃ m : ℤ, 0 < m ∧ (2 : ℚ) ^ j = (m : ℚ) * (2 : ℚ) ^ k := by
  refine ⟨2 ^ (j - k).toNat, by positivity, ?_⟩
  have hjk : j = ((j - k).toNat : ℤ) + k := by omega
  conv_lhs => rw [hjk]
  rw [zpow_add₀ (by norm_num : (2 : ℚ) ≠ 0), zpow_natCast]
  push_cast
  rfl

theorem round_of_grid (q : ℚ) (m : ℤ) (h : q = (m : ℚ) * ulp q) : round q = q := by
  unfold round
  have hu := ulp_pos q
  have : q / ulp q = (m : ℚ) := by
    rw [div_eq_iff (ne_of_gt hu)]; exact h
  rw [this, rne_intCast]
  exact h.symm

theorem grid_of_isF64 (q : ℚ) (h : isF64 q) : ∃ m : ℤ, q = (m : ℚ) * ulp q :=
  ⟨rne (q / ulp q), h.symm⟩

theorem expo_le_of_lt (q : ℚ) (e : ℤ) (hq : q ≠ 0) (he : -1022 ≤ e)
    (h : |q| < (2 : ℚ) ^ (e + 1)) : expo q ≤ e := by
  unfold expo
  apply max_le _ he
  have hpos : 0 < |q| := abs_pos.mpr hq
  have := (Int.lt_zpow_iff_log_lt (b := 2) (by norm_num) hpos (x := e + 1)).mp
    (by simpa using h)
  omega

theorem expo_mono (q a : ℚ) (hq : q ≠ 0) (h : |q| ≤ |a|) : expo q ≤ expo a := by
  unfold expo
  exact max_le_max (Int.log_mono_right (abs_pos.mpr hq) h) le_rfl

/-- A multiple of `2 ^ k` is a multiple of the spacing `ulp q` when
`expo q - 52 ≤ k`. -/
theorem grid_of_mul_zpow (q x : ℚ) (m k : ℤ) (hk : expo q - 52 ≤ k)
    (hx : x = (m : ℚ) * (2 : ℚ) ^ k) : ∃ n : ℤ, x = (n : ℚ) * ulp q := by
  obtain ⟨c, _, hc⟩ := two_zpow_eq_int_mul k (expo q - 52) hk
  refine ⟨m * c, ?_⟩
  rw [hx, hc]
  unfold ulp
  push_cast
  ring

theorem isF64_of_int_mul_zpow (q : ℚ) (m k : ℤ) (hm : |m| < 2 ^ 53) (hk : -1074 ≤ k)
    (hq : q = (m : ℚ) * (2 : ℚ) ^ k) : isF64 q := by
  unfold isF64
  by_cases h0 : q = 0
  · rw [h0]
    apply round_of_grid 0 0
    simp
  · have hpow : (0 : ℚ) < (2 : ℚ) ^ k := by positivity
    have habs : |q| < (2 : ℚ) ^ (52 + k + 1) := by
      rw [hq, abs_mul, abs_of_pos hpow, show 52 + k + 1 = 53 + k by ring,
        zpow_add₀ (by norm_num : (2 : ℚ) ≠ 0)]
      apply mul_lt_mul_of_pos_right _ hpow
      have : |(m : ℚ)| = ((|m| : ℤ) : ℚ) := by push_cast; rfl
      rw [this]
      have h53 : ((2 : ℚ) ^ (53 : ℤ)) = (((2 : ℤ) ^ 53 : ℤ) : ℚ) := by norm_num
      rw [h53]
      exact_mod_cast hm
    have he := expo_le_of_lt q (52 + k) h0 (by omega) habs
    obtain ⟨n, hn⟩ := grid_of_mul_zpow q q m k (by omega) hq
    exact round_of_grid q n hn

theorem abs_lt_zpow_expo (q : ℚ) : |q| < (2 : ℚ) ^ (expo q + 1) := by
  have h1 : |q| < ((2 : ℕ) : ℚ) ^ (Int.log 2 |q| + 1) :=
    Int.lt_zpow_succ_log_self (by norm_num) _
  have h2 : ((2 : ℕ) : ℚ) ^ (Int.log 2 |q| + 1) ≤ (2 : ℚ) ^ (expo q + 1) := by
    rw [Nat.cast_ofNat]
    apply zpow_le_zpow_right₀ (by norm_num)
    unfold expo
    have := le_max_left (Int.log 2 |q|) (-1022)
    omega
  exact lt_of_lt_of_le h1 h2

/-- Scaling a binary64 value by a power of two is exact. -/
theorem round_mul_two_pow (a : ℚ) (k : ℕ) (ha : isF64 a) :
    round (a * (2 : ℚ) ^ k) = a * (2 : ℚ) ^ k := by
  obtain ⟨m, hm⟩ := grid_of_isF64 a ha
  by_cases h0 : a * (2 : ℚ) ^ k = 0
  · rw [h0]
    apply round_of_grid 0 0
    simp
  · have hpow : (0 : ℚ) < (2 : ℚ) ^ k := by positivity
    have habs : |a * (2 : ℚ) ^ k| < (2 : ℚ) ^ (expo a + k + 1) := by
      rw [abs_mul, abs_of_pos hpow, show expo a + (k : ℤ) + 1 = (expo a + 1) + (k : ℤ) by ring,
        zpow_add₀ (by norm_num : (2 : ℚ) ≠ 0), zpow_natCast]
      exact mul_lt_mul_of_pos_right (abs_lt_zpow_expo a) hpow
    have he := expo_le_of_lt _ (expo a + k) h0 (by have := expo_ge a; omega) habs
    have hx : a * (2 : ℚ) ^ k = (m : ℚ) * (2 : ℚ) ^ (expo a - 52 + (k : ℤ)) := by
      rw [zpow_add₀ (by norm_num : (2 : ℚ) ≠ 0), zpow_natCast, ← mul_assoc]
      congr 1
    obtain ⟨n, hn⟩ := grid_of_mul_zpow (a * (2 : ℚ) ^ k) (a * (2 : ℚ) ^ k) m
      (expo a - 52 + (k : ℤ)) (by omega) hx
    exact round_of_grid _ n hn

/-- Rounding `a * 256 / 360` never reaches the next integer: the byte of an
angle in `[0, 360)` is the floor of the exact quotient. -/
theorem floor_round_angle (a : ℚ) (ha : isF64 a) (h0 : 0 ≤ a) (h1 : a < 360) :
    ⌊round (a * 256 / 360)⌋ = ⌊a * 256 / 360⌋ := by
  rcases eq_or_lt_of_le h0 with hz | hpos
  · rw [← hz]
    have : round ((0 : ℚ) * 256 / 360) = (0 : ℚ) * 256 / 360 := by
      apply round_of_grid _ 0
      simp
    rw [this]
  · set q : ℚ := a * 256 / 360 with hq
    have hq0 : 0 < q := by rw [hq]; positivity
    have hq1 : q < 256 := by rw [hq]; linarith
    have hqa : q ≤ a := by rw [hq]; linarith
    have hu := ulp_pos q
    have he : expo q ≤ 7 := by
      apply expo_le_of_lt q 7 (ne_of_gt hq0) (by norm_num)
      rw [abs_of_pos hq0]
      norm_num
      exact hq1
    have hn0 : (0 : ℤ) ≤ ⌊q⌋ := Int.floor_nonneg.mpr (le_of_lt hq0)
    have hfl : (⌊q⌋ : ℚ) ≤ q := Int.floor_le q
    have hfl1 : q < ⌊q⌋ + 1 := Int.lt_floor_add_one q
    -- the integers below 257 are on the grid of `q`
    obtain ⟨N, hN⟩ := grid_of_mul_zpow q (⌊q⌋ : ℚ) ⌊q⌋ 0 (by omega) (by simp)
    obtain ⟨N1, hN1⟩ := grid_of_mul_zpow q ((⌊q⌋ + 1 : ℤ) : ℚ) (⌊q⌋ + 1) 0 (by omega) (by simp)
    have hlow : N ≤ rne (q / ulp q) := by
      apply le_rne_of_le
      rw [le_div_iff₀ hu, ← hN]
      exact hfl
    have hupp : rne (q / ulp q) ≤ N1 := by
      apply rne_le_of_le
      rw [div_le_iff₀ hu, ← hN1]
      push_cast
      linarith
    have hne : rne (q / ulp q) ≠ N1 := by
      intro heq
      have hhalf := rne_sub_le (q / ulp q)
      rw [heq] at hhalf
      have hgap : ((⌊q⌋ + 1 : ℤ) : ℚ) - q ≤ ulp q / 2 := by
        have : (N1 : ℚ) * ulp q - q / ulp q * ulp q ≤ 1 / 2 * ulp q := by
          rw [← sub_mul]
          exact mul_le_mul_of_nonneg_right hhalf (le_of_lt hu)
        rw [div_mul_cancel₀ _ (ne_of_gt hu), ← hN1] at this
        linarith
      -- `a` and `(⌊q⌋ + 1) * 45 / 32` are both on the grid of `q`
      obtain ⟨ma, hma⟩ := grid_of_isF64 a ha
      have hexp : expo q ≤ expo a :=
        expo_mono q a (ne_of_gt hq0) (by rw [abs_of_pos hq0, abs_of_pos hpos]; exact hqa)
      obtain ⟨Ma, hMa⟩ := grid_of_mul_zpow q a ma (expo a - 52) (by omega) hma
      obtain ⟨MA, hMA⟩ := grid_of_mul_zpow q (((⌊q⌋ + 1) * 45 : ℤ) * (2 : ℚ) ^ (-5 : ℤ))
        ((⌊q⌋ + 1) * 45) (-5) (by omega) rfl
      have hA : (((⌊q⌋ + 1) * 45 : ℤ) : ℚ) * (2 : ℚ) ^ (-5 : ℤ) - a
          = (((⌊q⌋ + 1 : ℤ) : ℚ) - q) * (45 / 32) := by
        rw [hq]; push_cast; norm_num; ring
      have hdiff : ((MA - Ma : ℤ) : ℚ) * ulp q = (((⌊q⌋ + 1 : ℤ) : ℚ) - q) * (45 / 32) := by
        rw [← hA, hMA]
        conv_rhs => rw [hMa]
        push_cast; ring
      have hgap0 : 0 < ((⌊q⌋ + 1 : ℤ) : ℚ) - q := by push_cast; linarith
      have hd0 : (0 : ℚ) < ((MA - Ma : ℤ) : ℚ) * ulp q := by rw [hdiff]; positivity
      have hd1 : ((MA - Ma : ℤ) : ℚ) * ulp q < 1 * ulp q := by rw [hdiff]; linarith
      have hp : (0 : ℚ) < ((MA - Ma : ℤ) : ℚ) := by
        by_contra hcon
        have : ((MA - Ma : ℤ) : ℚ) * ulp q ≤ 0 :=
          mul_nonpos_of_nonpos_of_nonneg (not_lt.mp hcon) (le_of_lt hu)
        linarith
      have hl : ((MA - Ma : ℤ) : ℚ) < 1 := lt_of_mul_lt_mul_right hd1 (le_of_lt hu)
      have hp' : 0 < MA - Ma := by exact_mod_cast hp
      have hl' : MA - Ma < 1 := by exact_mod_cast hl
      omega
    have hlt : rne (q / ulp q) ≤ N1 - 1 := by omega
    rw [Int.floor_eq_iff]
    unfold round
    constructor
    · calc (⌊q⌋ : ℚ) = (N : ℚ) * ulp q := hN
        _ ≤ (rne (q / ulp q) : ℚ) * ulp q :=
          mul_le_mul_of_nonneg_right (by exact_mod_cast hlow) (le_of_lt hu)
    · calc (rne (q / ulp q) : ℚ) * ulp q ≤ ((N1 - 1 : ℤ) : ℚ) * ulp q :=
          mul_le_mul_of_nonneg_right (by exact_mod_cast hlt) (le_of_lt hu)
        _ = ((⌊q⌋ + 1 : ℤ) : ℚ) - ulp q := by rw [hN1]; push_cast; ring
        _ < (⌊q⌋ : ℚ) + 1 := by push_cast; linarith

theorem rne_eq_of_abs_lt (t : ℚ) (m : ℤ) (h1 : t - m < 1 / 2) (h2 : (m : ℚ) - t < 1 / 2) :
    rne t = m := by
  have ha : m ≤ rne t := by
    by_contra hcon
    have hle : rne t ≤ m - 1 := by omega
    have := sub_rne_le t
    have hc : (rne t : ℚ) ≤ (m : ℚ) - 1 := by exact_mod_cast hle
    linarith
  have hb : rne t ≤ m := by
    by_contra hcon
    have hle : m + 1 ≤ rne t := by omega
    have := rne_sub_le t
    have hc : (m : ℚ) + 1 ≤ (rne t : ℚ) := by exact_mod_cast hle
    linarith
  omega

theorem expo_eq_of_bounds (q : ℚ) (e : ℤ) (he : -1022 ≤ e) (h1 : (2 : ℚ) ^ e ≤ |q|)
    (h2 : |q| < (2 : ℚ) ^ (e + 1)) : expo q = e := by
  have hpos : 0 < |q| := lt_of_lt_of_le (by positivity) h1
  have hq : q ≠ 0 := abs_pos.mp hpos
  have hle := expo_le_of_lt q e hq he h2
  have hge : e ≤ Int.log 2 |q| :=
    (Int.zpow_le_iff_le_log (b := 2) (by norm_num) hpos (x := e)).mp (by simpa using h1)
  have : Int.log 2 |q| ≤ expo q := le_max_left _ _
  omega

theorem round_eq_of_bounds (q : ℚ) (e m : ℤ) (he : -1022 ≤ e) (h1 : (2 : ℚ) ^ e ≤ |q|)
    (h2 : |q| < (2 : ℚ) ^ (e + 1)) (h3 : q / (2 : ℚ) ^ (e - 52) - m < 1 / 2)
    (h4 : (m : ℚ) - q / (2 : ℚ) ^ (e - 52) < 1 / 2) :
    round q = (m : ℚ) * (2 : ℚ) ^ (e - 52) := by
  unfold round ulp
  rw [expo_eq_of_bounds q e he h1 h2, rne_eq_of_abs_lt _ m h3 h4]

end F64

theorem trunc_of_nonneg (q : ℚ) (h : 0 ≤ q) : trunc q = ⌊q⌋ := by
  unfold trunc
  rw [if_pos h]

theorem round_3599 : F64.round (3599 / 10) = (6331427757385318 : ℤ) * (2 : ℚ) ^ (-44 : ℤ) := by
  have := F64.round_eq_of_bounds (3599 / 10) 8 6331427757385318 (by norm_num)
    (by rw [abs_of_pos (by norm_num)]; norm_num)
    (by rw [abs_of_pos (by norm_num)]; norm_num)
    (by norm_num) (by norm_num)
  simpa using this

theorem angleByte_floor (cv : Conv) (a : ℚ) (ha : F64.isF64 a) (h0 : 0 ≤ a) (h1 : a < 360) :
    angleByte cv a = ⌊a * 256 / 360⌋.toNat := by
  unfold angleByte F64.div F64.mul
  have hmul : F64.round (a * 256) = a * 256 := by
    have := F64.round_mul_two_pow a 8 ha
    norm_num at this
    exact this
  rw [hmul]
  have hfl := F64.floor_round_angle a ha h0 h1
  have hq0 : (0 : ℚ) ≤ a * 256 / 360 := by positivity
  have hq1 : a * 256 / 360 < 256 := by linarith
  have hn0 : (0 : ℤ) ≤ ⌊a * 256 / 360⌋ := Int.floor_nonneg.mpr hq0
  have hn1 : ⌊a * 256 / 360⌋ < 256 := Int.floor_lt.mpr (by exact_mod_cast hq1)
  have hr0 : (0 : ℚ) ≤ F64.round (a * 256 / 360) := by
    have : (0 : ℤ) ≤ ⌊F64.round (a * 256 / 360)⌋ := by rw [hfl]; exact hn0
    exact Int.floor_nonneg.mp this
  unfold Conv.toByte
  simp only [trunc_of_nonneg _ hr0, hfl]
  rw [if_pos ⟨hn0, hn1⟩]

/-! ## Wire codec: positions and angles -/

theorem length_copy {α : Type} (dst src : List α) : (copy dst src).length = dst.length := by
  unfold copy
  simp only [List.length_append, List.length_take, List.length_drop]
  omega

theorem padString_length (s : List Nat) : (padString s).length = 64 := by
  unfold padString
  simp only
  split
  · rw [length_copyAt _ _ _ (by
      rw [length_copy, List.length_replicate, List.length_replicate]; omega),
      length_copy, List.length_replicate]
  · rw [length_copy, List.length_replicate]

theorem position_length (cv : Conv) (p : Packet) (loc : Location) (ext : Bool) :
    (p.position cv loc ext).buf.length = p.buf.length + (if ext then 12 else 6) := by
  cases ext <;> simp [Packet.position, be16, be32]

theorem readInt16_be16 (v : ℤ) (h0 : -32768 ≤ v) (h1 : v < 32768) : readInt16 (be16 v) = v := by
  unfold be16 readInt16
  simp only
  split <;> omega

theorem readInt32_be32 (v : ℤ) (h0 : -2147483648 ≤ v) (h1 : v < 2147483648) :
    readInt32 (be32 v) = v := by
  unfold be32 readInt32
  simp only
  split <;> omega

theorem be32_signExtend (v : ℤ) (h0 : -32768 ≤ v) (h1 : v < 32768) :
    be32 v = signExtend (be16 v) := by
  unfold be32 be16 signExtend
  simp only
  split
  · rename_i h
    have hv : 0 ≤ v := by omega
    congr 1
    · omega
    · congr 1
      · omega
      · congr 1
        · omega
        · congr 1
          omega
  · rename_i h
    have hv : v < 0 := by omega
    congr 1
    · omega
    · congr 1
      · omega
      · congr 1
        · omega
        · congr 1
          omega

theorem toInt_of_fits (cv : Conv) (bits : Nat) (f : ℚ) (h0 : -(2 ^ (bits - 1)) ≤ trunc f)
    (h1 : trunc f < 2 ^ (bits - 1)) : cv.toInt bits f = trunc f := by
  unfold Conv.toInt
  simp only
  rw [if_pos ⟨h0, h1⟩]

theorem mul32_exact (x : ℚ) (hx : F64.isF64 x) : F64.mul x 32 = x * 32 := by
  unfold F64.mul
  have := F64.round_mul_two_pow x 5 hx
  norm_num at this
  exact this

theorem field_at_end (front tail : List Nat) (off : Nat) (h : front.length = off) :
    field ⟨front ++ tail⟩ off tail.length = tail := by
  unfold field
  rw [List.drop_left' h, List.take_length]

/-- C8: `position` appends 6 bytes without `extPos` and 12 bytes with it, three
big-endian signed 16-bit resp. 32-bit fields; for a binary64 coordinate whose
scaled value fits the field, the field reads as the coordinate times 32
truncated toward zero, and when it fits 16 bits the 32-bit field is the sign
extension of the 16-bit field; `addEntity`, `teleport` and `extAddEntity2`
with `extPos = false` carry the 6-byte form. -/
theorem position_encoding (cv : Conv) (p : Packet) (loc : Location) (e : Entity) (self : Bool) :
    ((p.position cv loc false).buf = p.buf
        ++ be16 (cv.toInt 16 (F64.mul loc.X 32))
        ++ be16 (cv.toInt 16 (F64.mul loc.Y 32))
        ++ be16 (cv.toInt 16 (F64.mul loc.Z 32))
      ∧ (p.position cv loc false).buf.length = p.buf.length + 6)
    ∧ ((p.position cv loc true).buf = p.buf
        ++ be32 (cv.toInt 32 (F64.mul loc.X 32))
        ++ be32 (cv.toInt 32 (F64.mul loc.Y 32))
        ++ be32 (cv.toInt 32 (F64.mul loc.Z 32))
      ∧ (p.position cv loc true).buf.length = p.buf.length + 12)
    ∧ (∀ x : ℚ, F64.isF64 x → -32768 ≤ trunc (x * 32) → trunc (x * 32) < 32768 →
        readInt16 (be16 (cv.toInt 16 (F64.mul x 32))) = trunc (x * 32)
        ∧ be32 (cv.toInt 32 (F64.mul x 32)) = signExtend (be16 (cv.toInt 16 (F64.mul x 32))))
    ∧ (∀ x : ℚ, F64.isF64 x → -2147483648 ≤ trunc (x * 32) → trunc (x * 32) < 2147483648 →
        readInt32 (be32 (cv.toInt 32 (F64.mul x 32))) = trunc (x * 32))
    ∧ ((p.addEntity cv e self false).buf = p.buf ++ ([0x07, if self then 0xff else e.id]
          ++ (padString e.DisplayName ++ ((Packet.position cv ⟨[]⟩ e.location false).buf
          ++ [angleByte cv e.location.Yaw, angleByte cv e.location.Pitch])))
      ∧ (p.addEntity cv e self false).buf.length = p.buf.length + 74)
    ∧ ((p.teleport cv e self false).buf = p.buf ++ ([0x08, if self then 0xff else e.id]
          ++ ((Packet.position cv ⟨[]⟩ e.location false).buf
          ++ [angleByte cv e.location.Yaw, angleByte cv e.location.Pitch]))
      ∧ (p.teleport cv e self false).buf.length = p.buf.length + 10)
    ∧ ((p.extAddEntity2 cv e self false).buf = p.buf ++ ([0x21, if self then 0xff else e.id]
          ++ (padString e.DisplayName ++ (padString e.SkinName
          ++ ((Packet.position cv ⟨[]⟩ e.location false).buf
          ++ [angleByte cv e.location.Yaw, angleByte cv e.location.Pitch]))))
      ∧ (p.extAddEntity2 cv e self false).buf.length = p.buf.length + 138) := by
  have hpos := position_length cv ⟨[]⟩ e.location false
  simp only [List.length_nil, Nat.zero_add, Bool.false_eq_true, if_false] at hpos
  refine ⟨⟨rfl, position_length cv p loc false⟩, ⟨rfl, position_length cv p loc true⟩,
    ?_, ?_, ⟨addEntity_buf cv p e self false, ?_⟩, ⟨teleport_buf cv p e self false, ?_⟩,
    ⟨extAddEntity2_buf cv p e self false, ?_⟩⟩
  · intro x hx h0 h1
    rw [mul32_exact x hx, toInt_of_fits cv 16 _ (by norm_num; exact h0) (by norm_num; exact h1),
      toInt_of_fits cv 32 _ (by norm_num; omega) (by norm_num; omega)]
    exact ⟨readInt16_be16 _ h0 h1, be32_signExtend _ h0 h1⟩
  · intro x hx h0 h1
    rw [mul32_exact x hx, toInt_of_fits cv 32 _ (by norm_num; exact h0) (by norm_num; exact h1)]
    exact readInt32_be32 _ h0 h1
  · rw [addEntity_buf]
    simp only [List.length_append, List.length_cons, List.length_nil, padString_length, hpos]
  · rw [teleport_buf]
    simp only [List.length_append, List.length_cons, List.length_nil, hpos]
  · rw [extAddEntity2_buf]
    simp only [List.length_append, List.length_cons, List.length_nil, padString_length, hpos]

theorem isF64_1000 : F64.isF64 1000 :=
  F64.isF64_of_int_mul_zpow 1000 1000 0 (by norm_num) (by norm_num) (by norm_num)

theorem trunc_32000 : trunc ((1000 : ℚ) * 32) = 32000 := by
  rw [trunc_of_nonneg _ (by norm_num)]
  norm_num [Int.floor_eq_iff]

/-- Witness of C8: the coordinate 1000, scaled to 32000. -/
theorem position_encoding_witness :
    readInt16 (be16 (conv0.toInt 16 (F64.mul 1000 32))) = trunc ((1000 : ℚ) * 32)
    ∧ be32 (conv0.toInt 32 (F64.mul 1000 32))
      = signExtend (be16 (conv0.toInt 16 (F64.mul 1000 32))) :=
  (position_encoding conv0 ⟨[]⟩ entity0.location entity0 false).2.2.1 1000 isF64_1000
    (by rw [trunc_32000]; norm_num) (by rw [trunc_32000]; norm_num)

/-- C10: every yaw and pitch byte is `byte(angle * 256 / 360)`; for a binary64
angle in `[0, 360)` that byte is the floor of `angle * 256 / 360` (truncation,
no rounding up); 180 gives 128 and 359.9 gives 255; the encoders `addEntity`,
`teleport`, `extAddEntity2`, `positionOrientationUpdate` and
`orientationUpdate` end in the yaw byte and the pitch byte. -/
theorem angle_bytes (cv : Conv) (p : Packet) (e : Entity) (self extPos : Bool) :
    (∀ a : ℚ, F64.isF64 a → 0 ≤ a → a < 360 → angleByte cv a = ⌊a * 256 / 360⌋.toNat)
    ∧ angleByte cv 180 = 128
    ∧ angleByte cv (F64.round (3599 / 10)) = 255
    ∧ field (p.addEntity cv e self extPos) (p.buf.length + 66 + (if extPos then 12 else 6)) 2
        = [angleByte cv e.location.Yaw, angleByte cv e.location.Pitch]
    ∧ field (p.teleport cv e self extPos) (p.buf.length + 2 + (if extPos then 12 else 6)) 2
        = [angleByte cv e.location.Yaw, angleByte cv e.location.Pitch]
    ∧ field (p.extAddEntity2 cv e self extPos) (p.buf.length + 130 + (if extPos then 12 else 6)) 2
        = [angleByte cv e.location.Yaw, angleByte cv e.location.Pitch]
    ∧ field (p.positionOrientationUpdate cv e) (p.buf.length + 5) 2
        = [angleByte cv e.location.Yaw, angleByte cv e.location.Pitch]
    ∧ field (p.orientationUpdate cv e) (p.buf.length + 2) 2
        = [angleByte cv e.location.Yaw, angleByte cv e.location.Pitch] := by
  have hpos := position_length cv ⟨[]⟩ e.location extPos
  simp only [List.length_nil, Nat.zero_add] at hpos
  refine ⟨fun a ha h0 h1 => angleByte_floor cv a ha h0 h1, ?_, ?_, ?_, ?_, ?_, ?_, ?_⟩
  · rw [angleByte_floor cv 180
      (F64.isF64_of_int_mul_zpow 180 180 0 (by norm_num) (by norm_num) (by norm_num))
      (by norm_num) (by norm_num)]
    norm_num
    rfl
  · rw [round_3599, angleByte_floor cv _
      (F64.isF64_of_int_mul_zpow _ 6331427757385318 (-44) (by norm_num) (by norm_num) rfl)
      (by norm_num) (by norm_num)]
    have : ⌊((6331427757385318 : ℤ) : ℚ) * (2 : ℚ) ^ (-44 : ℤ) * 256 / 360⌋ = 255 := by
      rw [Int.floor_eq_iff]
      norm_num
    rw [this]
    rfl
  · rw [show p.addEntity cv e self extPos = ⟨(p.addEntity cv e self extPos).buf⟩ from rfl,
      addEntity_buf]
    simp only [← List.append_assoc]
    apply field_at_end
    simp only [List.length_append, List.length_cons, List.length_nil, padString_length, hpos]
  · rw [show p.teleport cv e self extPos = ⟨(p.teleport cv e self extPos).buf⟩ from rfl,
      teleport_buf]
    simp only [← List.append_assoc]
    apply field_at_end
    simp only [List.length_append, List.length_cons, List.length_nil, hpos]
  · rw [show p.extAddEntity2 cv e self extPos = ⟨(p.extAddEntity2 cv e self extPos).buf⟩ from rfl,
      extAddEntity2_buf]
    simp only [← List.append_assoc]
    apply field_at_end
    simp only [List.length_append, List.length_cons, List.length_nil, padString_length, hpos]
  · show field ⟨p.buf ++ [0x09, e.id,
      deltaByte cv e.location.X e.lastLocation.X,
      deltaByte cv e.location.Y e.lastLocation.Y,
      deltaByte cv e.location.Z e.lastLocation.Z,
      angleByte cv e.location.Yaw, angleByte cv e.location.Pitch]⟩ _ _ = _
    rw [field_append]; rfl
  · show field ⟨p.buf ++ [0x0b, e.id,
      angleByte cv e.location.Yaw, angleByte cv e.location.Pitch]⟩ _ _ = _
    rw [field_append]; rfl

/-- Witness of C10: the angle 90 gives the byte 64. -/
theorem angle_bytes_witness :
    angleByte conv0 90 = ⌊(90 : ℚ) * 256 / 360⌋.toNat
    ∧ angleByte conv0 180 = 128
    ∧ angleByte conv0 (F64.round (3599 / 10)) = 255 :=
  ⟨(angle_bytes conv0 ⟨[]⟩ entity0 false false).1 90
      (F64.isF64_of_int_mul_zpow 90 90 0 (by norm_num) (by norm_num) (by norm_num))
      (by norm_num) (by norm_num),
    (angle_bytes conv0 ⟨[]⟩ entity0 false false).2.1,
    (angle_bytes conv0 ⟨[]⟩ entity0 false false).2.2.1⟩

theorem readInt16_be16_range (v : ℤ) :
    -32768 ≤ readInt16 (be16 v) ∧ readInt16 (be16 v) < 32768 := by
  unfold be16 readInt16
  simp only
  split <;> omega

/-- C8 fails as stated: at the coordinate 1024 the scaled value 32768 is not
what the 16-bit field holds, on any target. -/
theorem position_16bit_overflow :
    ¬ ∃ cv : Conv, readInt16 (field (Packet.position cv ⟨[]⟩ ⟨1024, 0, 0, 0, 0⟩ false) 0 2)
        = trunc ((1024 : ℚ) * 32) := by
  rintro ⟨cv, h⟩
  have ht : trunc ((1024 : ℚ) * 32) = 32768 := by
    rw [trunc_of_nonneg _ (by norm_num)]
    norm_num [Int.floor_eq_iff]
  have hf : field (Packet.position cv ⟨[]⟩ ⟨1024, 0, 0, 0, 0⟩ false) 0 2
      = be16 (cv.toInt 16 (F64.mul 1024 32)) := rfl
  rw [hf, ht] at h
  have := readInt16_be16_range (cv.toInt 16 (F64.mul 1024 32))
  omega

/-! ## Level: index, clone, weather -/

theorem Index_inj (W Len x y z x1 y1 z1 : Nat) (hx : x < W) (hx1 : x1 < W) (hz : z < Len)
    (hz1 : z1 < Len) (h : x + W * (z + Len * y) = x1 + W * (z1 + Len * y1)) :
    x = x1 ∧ y = y1 ∧ z = z1 := by
  have hW : 0 < W := by omega
  have hL : 0 < Len := by omega
  have h1 : x = x1 := by
    have := congrArg (fun n => n % W) h
    simp only [Nat.add_mul_mod_self_left, Nat.mod_eq_of_lt hx, Nat.mod_eq_of_lt hx1] at this
    exact this
  have h2 : z + Len * y = z1 + Len * y1 := by
    have := congrArg (fun n => n / W) h
    simp only [Nat.add_mul_div_left _ _ hW, Nat.div_eq_of_lt hx, Nat.div_eq_of_lt hx1,
      Nat.zero_add] at this
    exact this
  have h3 : z = z1 := by
    have := congrArg (fun n => n % Len) h2
    simp only [Nat.add_mul_mod_self_left, Nat.mod_eq_of_lt hz, Nat.mod_eq_of_lt hz1] at this
    exact this
  have h4 : y = y1 := by
    have := congrArg (fun n => n / Len) h2
    simp only [Nat.add_mul_div_left _ _ hL, Nat.div_eq_of_lt hz, Nat.div_eq_of_lt hz1,
      Nat.zero_add] at this
    exact this
  exact ⟨h1, h4, h3⟩

/-- C20: on a level with `len(Blocks) == Width*Height*Length` and no overflow,
`Index` of an in-range coordinate is below `Volume()` and differs for different
in-range coordinates; so `GetBlock` and `SetBlock` never index out of bounds,
and `SetBlock(x, y, z, b, false)` leaves `GetBlock` unchanged at every other
coordinate. -/
theorem Index_in_bounds_injective (L : Level) (self : Nat) (srv : Server)
    (hlen : L.Blocks.length = L.Width * L.Height * L.Length)
    (hvol : L.Width * L.Height * L.Length < UINT) :
    (∀ x y z, x < L.Width → y < L.Height → z < L.Length → L.Index x y z < L.Volume)
    ∧ (∀ x y z x1 y1 z1, x < L.Width → y < L.Height → z < L.Length →
        x1 < L.Width → y1 < L.Height → z1 < L.Length →
        L.Index x y z = L.Index x1 y1 z1 → x = x1 ∧ y = y1 ∧ z = z1)
    ∧ (∀ x y z, ∃ b, L.GetBlock x y z = .ok b)
    ∧ (∀ x y z b broadcast, ∃ L1 srv1, L.SetBlock self srv x y z b broadcast = .ok (L1, srv1))
    ∧ (∀ x y z b L1 srv1, L.SetBlock self srv x y z b false = .ok (L1, srv1) →
        ∀ x1 y1 z1, (x1, y1, z1) ≠ (x, y, z) → L1.GetBlock x1 y1 z1 = L.GetBlock x1 y1 z1) := by
  have hV : L.Volume = L.Width * L.Height * L.Length := umul3_eq _ _ _ hvol
  have hidx : ∀ x y z, x < L.Width → y < L.Height → z < L.Length →
      L.Index x y z < L.Blocks.length := by
    intro x y z hx hy hz
    rw [Index_eq L x y z hx hy hz hvol, hlen]
    exact flat_index_lt _ _ _ x y z hx hy hz
  have hinj : ∀ x y z x1 y1 z1, x < L.Width → y < L.Height → z < L.Length →
      x1 < L.Width → y1 < L.Height → z1 < L.Length →
      L.Index x y z = L.Index x1 y1 z1 → x = x1 ∧ y = y1 ∧ z = z1 := by
    intro x y z x1 y1 z1 hx hy hz hx1 hy1 hz1 h
    rw [Index_eq L x y z hx hy hz hvol, Index_eq L x1 y1 z1 hx1 hy1 hz1 hvol] at h
    exact Index_inj _ _ x y z x1 y1 z1 hx hx1 hz hz1 h
  refine ⟨?_, hinj, ?_, ?_, ?_⟩
  · intro x y z hx hy hz
    rw [hV, ← hlen]
    exact hidx x y z hx hy hz
  · intro x y z
    unfold Level.GetBlock
    split
    · rename_i h
      have := hidx x y z h.1 h.2.1 h.2.2
      rw [List.getElem?_eq_getElem this]
      exact ⟨_, rfl⟩
    · exact ⟨_, rfl⟩
  · intro x y z b broadcast
    unfold Level.SetBlock
    split
    · rename_i h
      rw [if_pos (hidx x y z h.1 h.2.1 h.2.2)]
      cases broadcast
      · exact ⟨_, _, rfl⟩
      · exact ⟨_, _, rfl⟩
    · exact ⟨_, _, rfl⟩
  · intro x y z b L1 srv1 hset x1 y1 z1 hne
    unfold Level.SetBlock at hset
    split at hset
    · rename_i h
      rw [if_pos (hidx x y z h.1 h.2.1 h.2.2)] at hset
      simp only [Bool.false_eq_true, if_false, Outcome.ok.injEq, Prod.mk.injEq] at hset
      obtain ⟨hL1, _⟩ := hset
      subst hL1
      unfold Level.GetBlock
      by_cases h1 : x1 < L.Width ∧ y1 < L.Height ∧ z1 < L.Length
      · have hi : Level.Index { L with Blocks := L.Blocks.set (L.Index x y z) b } x1 y1 z1
            = L.Index x1 y1 z1 := rfl
        have hne2 : L.Index x y z ≠ L.Index x1 y1 z1 := by
          intro heq
          obtain ⟨e1, e2, e3⟩ := hinj x y z x1 y1 z1 h.1 h.2.1 h.2.2 h1.1 h1.2.1 h1.2.2 heq
          exact hne (by rw [e1, e2, e3])
        simp only [h1, and_self, if_true, hi]
        rw [List.getElem?_set_ne hne2]
      · simp only [h1, if_false]
    · simp only [Outcome.ok.injEq, Prod.mk.injEq] at hset
      rw [← hset.1]

/-- Witness of C20: the 16x16x16 level. -/
theorem Index_in_bounds_injective_witness :
    (flat16 ⟨7, 8⟩).Index 1 2 3 < (flat16 ⟨7, 8⟩).Volume
    ∧ ∃ b, (flat16 ⟨7, 8⟩).GetBlock 1 2 3 = .ok b :=
  ⟨(Index_in_bounds_injective (flat16 ⟨7, 8⟩) 0 ⟨[]⟩ (List.length_replicate _ _)
      (by norm_num [flat16, UINT])).1 1 2 3 (by decide) (by decide) (by decide),
    (Index_in_bounds_injective (flat16 ⟨7, 8⟩) 0 ⟨[]⟩ (List.length_replicate _ _)
      (by norm_num [flat16, UINT])).2.2.1 1 2 3⟩

theorem copy_replicate_self {α : Type} (a : α) (src : List α) :
    copy (List.replicate src.length a) src = src := by
  rw [copy_of_le _ _ (by rw [List.length_replicate]), List.drop_replicate, Nat.sub_self]
  simp

theorem deref_set_ne (r c : LevelRef) (mem : Mem) (arr : List Nat) (hne : c.blocks ≠ r.blocks) :
    r.deref (mem.set c.blocks arr) = r.deref mem := by
  unfold LevelRef.deref
  rw [List.getElem?_set_ne hne]

theorem SetBlock_other_ref (r c : LevelRef) (hne : c.blocks ≠ r.blocks) (mem mem2 : Mem)
    (self : Nat) (srv srv2 : Server) (x y z b : Nat) (broadcast : Bool)
    (hset : c.SetBlock mem self srv x y z b broadcast = .ok (mem2, srv2)) (x1 y1 z1 : Nat) :
    r.GetBlock mem2 x1 y1 z1 = r.GetBlock mem x1 y1 z1 := by
  unfold LevelRef.SetBlock at hset
  split at hset
  · split at hset
    · simp only [Outcome.ok.injEq, Prod.mk.injEq] at hset
      rw [← hset.1]
      unfold LevelRef.GetBlock
      rw [deref_set_ne r c mem _ hne]
    · simp at hset
    · simp at hset
  · simp at hset

/-- C11: `Clone` with the empty name returns nil; with a non-empty name it
returns a level with that name, no server, the width, height, length, spawn,
appearance and weather of the source and blocks equal to the blocks of the
source, in a new backing array, leaving the source as it was; a later
`SetBlock` on the clone changes no `GetBlock` result of the source, and a later
`SetBlock` on the source none of the clone. -/
theorem Clone_independent (r : LevelRef) (mem : Mem) (L : Level) (name : List Nat)
    (hL : r.deref mem = some L) :
    (name = [] → r.Clone mem name = .ok (mem, none) ∧ L.Clone name = none)
    ∧ (name ≠ [] → ∃ c mem1 C, r.Clone mem name = .ok (mem1, some c)
        ∧ c.deref mem1 = some C ∧ L.Clone name = some C
        ∧ C.Name = name ∧ C.Server = none
        ∧ C.Width = L.Width ∧ C.Height = L.Height ∧ C.Length = L.Length
        ∧ C.Spawn = L.Spawn ∧ C.Appearance = L.Appearance ∧ C.Weather = L.Weather
        ∧ C.Blocks = L.Blocks
        ∧ r.deref mem1 = some L
        ∧ (∀ m m2 self srv srv2 x y z b broadcast,
            c.SetBlock m self srv x y z b broadcast = .ok (m2, srv2) →
            ∀ x1 y1 z1, r.GetBlock m2 x1 y1 z1 = r.GetBlock m x1 y1 z1)
        ∧ (∀ m m2 self srv srv2 x y z b broadcast,
            r.SetBlock m self srv x y z b broadcast = .ok (m2, srv2) →
            ∀ x1 y1 z1, c.GetBlock m2 x1 y1 z1 = c.GetBlock m x1 y1 z1)) := by
  have hlt : r.blocks < mem.length := by
    unfold LevelRef.deref at hL
    split at hL
    · rename_i arr harr
      exact (List.getElem?_eq_some_iff.mp harr).1
    · simp at hL
  constructor
  · intro hname
    subst hname
    exact ⟨rfl, rfl⟩
  · intro hname
    have h0 : ¬ name.length = 0 := fun h => hname (List.length_eq_zero.mp h)
    have hne : mem.length ≠ r.blocks := by omega
    refine ⟨⟨Level.mk none name L.Width L.Height L.Length [] L.Spawn L.Appearance L.Weather,
        mem.length⟩,
      (mem ++ [List.replicate L.Blocks.length 0]).set mem.length
        (copy (List.replicate L.Blocks.length 0) L.Blocks),
      Level.mk none name L.Width L.Height L.Length L.Blocks L.Spawn L.Appearance L.Weather,
      ?_, ?_, ?_, rfl, rfl, rfl, rfl, rfl, rfl, rfl, rfl, rfl, ?_, ?_, ?_⟩
    · unfold LevelRef.Clone
      rw [if_neg h0, hL]
    · unfold LevelRef.deref
      simp only [List.length_append, List.length_cons, List.length_nil, List.length_set,
        Nat.lt_add_one, List.getElem?_eq_getElem, List.getElem_set_self, copy_replicate_self]
    · unfold Level.Clone
      rw [if_neg h0]
      simp only [copy_replicate_self]
    · have h1 : r.deref ((mem ++ [List.replicate L.Blocks.length 0]).set mem.length
          (copy (List.replicate L.Blocks.length 0) L.Blocks)) = r.deref mem := by
        unfold LevelRef.deref
        rw [List.getElem?_set_ne hne, List.getElem?_append_left hlt]
      rw [h1, hL]
    · intro m m2 self srv srv2 x y z b broadcast hset x1 y1 z1
      exact SetBlock_other_ref r _ hne m m2 self srv srv2 x y z b broadcast hset x1 y1 z1
    · intro m m2 self srv srv2 x y z b broadcast hset x1 y1 z1
      exact SetBlock_other_ref _ r (Ne.symm hne) m m2 self srv srv2 x y z b broadcast hset
        x1 y1 z1
/-- Witness of C11: the level "flat" cloned under the name "b", and under the
empty name. -/
theorem Clone_independent_witness :
    (flatRef.Clone flatMem [] = .ok (flatMem, none) ∧ (flat16 ⟨7, 8⟩).Clone [] = none)
    ∧ ∃ c mem1 C, flatRef.Clone flatMem [98] = .ok (mem1, some c)
        ∧ c.deref mem1 = some C ∧ C.Name = [98] ∧ C.Blocks = (flat16 ⟨7, 8⟩).Blocks
        ∧ flatRef.deref mem1 = some (flat16 ⟨7, 8⟩) :=
  ⟨(Clone_independent flatRef flatMem (flat16 ⟨7, 8⟩) [] rfl).1 rfl,
    match (Clone_independent flatRef flatMem (flat16 ⟨7, 8⟩) [98] rfl).2 (by decide) with
    | ⟨c, mem1, C, h1, h2, _, h3, _, _, _, _, _, _, _, h4, h5, _⟩ =>
      ⟨c, mem1, C, h1, h2, h3, h4, h5⟩⟩

/-! ## Level: construction -/

theorem NewLevel_some_eq {makeLimit : Nat} (codes : BlockCodes) (name : List Nat) (w h l : Nat)
    (L : Level) (hnew : NewLevel makeLimit codes name w h l = .ok (some L)) :
    L = Level.mk none name w h l (List.replicate (umul (umul w h) l) 0)
      ⟨F64.div (F64.ofNat w) 2, F64.div (F64.mul (F64.ofNat h) 3) 4, F64.div (F64.ofNat l) 2,
        0, 0⟩
      ⟨[], codes.BlockBedrock, codes.BlockActiveWater, h / 2, uadd h 2, 0⟩ WeatherSunny := by
  unfold NewLevel at hnew
  split at hnew
  · simp at hnew
  · simp only at hnew
    split at hnew
    · simp at hnew
    · simp only [Outcome.ok.injEq, Option.some.injEq] at hnew
      exact hnew.symm

theorem NewLevel_returns (makeLimit : Nat) (codes : BlockCodes) (name : List Nat) (w h l : Nat)
    (hname : name ≠ []) (hfit : umul (umul w h) l < MAXINT)
    (hlim : umul (umul w h) l ≤ makeLimit) :
    NewLevel makeLimit codes name w h l
      = .ok (some (Level.mk none name w h l (List.replicate (umul (umul w h) l) 0)
          ⟨F64.div (F64.ofNat w) 2, F64.div (F64.mul (F64.ofNat h) 3) 4,
            F64.div (F64.ofNat l) 2, 0, 0⟩
          ⟨[], codes.BlockBedrock, codes.BlockActiveWater, h / 2, uadd h 2, 0⟩
          WeatherSunny)) := by
  have h0 : ¬ name.length = 0 := fun h => hname (List.length_eq_zero.mp h)
  have h1 : ¬ (MAXINT ≤ umul (umul w h) l ∨ makeLimit < umul (umul w h) l) := by omega
  simp only [NewLevel, h0, h1, if_false]

theorem ofNat_exact (n : Nat) (hn : n < 2 ^ 53) : F64.ofNat n = (n : ℚ) := by
  unfold F64.ofNat
  exact F64.isF64_of_int_mul_zpow (n : ℚ) (n : ℤ) 0
    (by rw [abs_of_nonneg (by positivity)]; exact_mod_cast hn) (by norm_num) (by simp)

theorem div_pow2_exact (n : Nat) (k : Nat) (hn : n < 2 ^ 53) (hk : k ≤ 1074) :
    F64.round ((n : ℚ) / (2 : ℚ) ^ k) = (n : ℚ) / (2 : ℚ) ^ k := by
  exact F64.isF64_of_int_mul_zpow _ (n : ℤ) (-(k : ℤ))
    (by rw [abs_of_nonneg (by positivity)]; exact_mod_cast hn) (by omega)
    (by rw [zpow_neg, zpow_natCast, div_eq_mul_inv]; simp)

theorem spawn_half (n : Nat) (hn : n < 2 ^ 53) : F64.div (F64.ofNat n) 2 = (n : ℚ) / 2 := by
  rw [ofNat_exact n hn]
  unfold F64.div
  have := div_pow2_exact n 1 hn (by norm_num)
  simpa using this

theorem spawn_three_quarters (n : Nat) (hn : 3 * n < 2 ^ 53) :
    F64.div (F64.mul (F64.ofNat n) 3) 4 = (n : ℚ) * 3 / 4 := by
  rw [ofNat_exact n (by omega)]
  unfold F64.div F64.mul
  have h3 : F64.round ((n : ℚ) * 3) = ((3 * n : Nat) : ℚ) := by
    have := ofNat_exact (3 * n) hn
    unfold F64.ofNat at this
    rw [show (n : ℚ) * 3 = ((3 * n : Nat) : ℚ) by push_cast; ring]
    exact this
  rw [h3]
  rw [show ((3 * n : Nat) : ℚ) / 4 = ((3 * n : Nat) : ℚ) / (2 : ℚ) ^ 2 by norm_num,
    div_pow2_exact (3 * n) 2 hn (by norm_num)]
  push_cast
  ring

/-- C12: `NewLevel` returns nil exactly when the name is empty; for a name that
is not empty it returns a level exactly when `make` returns the block array,
that is when the wrapped volume fits a Go `int` and is within what the target
allocates, and does not return otherwise; every level it returns has all blocks 0, spawn
`(float64(w)/2, float64(h)*3/4, float64(l)/2)` with yaw and pitch 0, equal to
`(w/2, h*3/4, l/2)` for arguments below 2^53 resp. 2^53/3, side level `h/2`,
cloud level `h + 2` in `uint` arithmetic, sunny weather and no server; when
`w*h*l` does not overflow `GetBlock` returns 0 at every coordinate. -/
theorem NewLevel_fields (makeLimit : Nat) (codes : BlockCodes) (name : List Nat)
    (w h l : Nat) :
    (NewLevel makeLimit codes name w h l = .ok none ↔ name = [])
    ∧ (name ≠ [] → umul (umul w h) l < MAXINT → umul (umul w h) l ≤ makeLimit →
        ∃ L, NewLevel makeLimit codes name w h l = .ok (some L))
    ∧ (name ≠ [] → (MAXINT ≤ umul (umul w h) l ∨ makeLimit < umul (umul w h) l) →
        NewLevel makeLimit codes name w h l = .panic)
    ∧ ∀ L, NewLevel makeLimit codes name w h l = .ok (some L) →
        (∀ b ∈ L.Blocks, b = BlockAir)
        ∧ (w * h * l < UINT → ∀ x y z, L.GetBlock x y z = .ok BlockAir)
        ∧ L.Spawn = ⟨F64.div (F64.ofNat w) 2, F64.div (F64.mul (F64.ofNat h) 3) 4,
            F64.div (F64.ofNat l) 2, 0, 0⟩
        ∧ (w < 2 ^ 53 → L.Spawn.X = (w : ℚ) / 2)
        ∧ (3 * h < 2 ^ 53 → L.Spawn.Y = (h : ℚ) * 3 / 4)
        ∧ (l < 2 ^ 53 → L.Spawn.Z = (l : ℚ) / 2)
        ∧ L.Appearance.SideLevel = h / 2
        ∧ L.Appearance.CloudLevel = uadd h 2
        ∧ (h + 2 < UINT → L.Appearance.CloudLevel = h + 2)
        ∧ L.Weather = WeatherSunny
        ∧ L.Server = none := by
  refine ⟨?_, ?_, ?_, ?_⟩
  · constructor
    · intro hnil
      by_contra hname
      have h0 : ¬ name.length = 0 := fun h => hname (List.length_eq_zero.mp h)
      unfold NewLevel at hnil
      rw [if_neg h0] at hnil
      simp only at hnil
      split at hnil <;> simp at hnil
    · intro hname
      subst hname
      rfl
  · intro hname hfit hlim
    have h0 : ¬ name.length = 0 := fun h => hname (List.length_eq_zero.mp h)
    have h1 : ¬ (MAXINT ≤ umul (umul w h) l ∨ makeLimit < umul (umul w h) l) := by omega
    simp only [NewLevel, h0, h1, if_false]
    exact ⟨_, rfl⟩
  · intro hname hbig
    have h0 : ¬ name.length = 0 := fun h => hname (List.length_eq_zero.mp h)
    simp only [NewLevel, h0, hbig, if_false, if_true]
  · intro L hnew
    have hL := NewLevel_some_eq codes name w h l L hnew
    subst hL
    refine ⟨?_, ?_, rfl, ?_, ?_, ?_, rfl, rfl, ?_, rfl, rfl⟩
    · intro b hb
      exact (List.mem_replicate.mp hb).2
    · intro hvol x y z
      unfold Level.GetBlock
      split
      · rename_i hin
        have hidx := Index_eq (Level.mk none name w h l (List.replicate (umul (umul w h) l) 0)
          ⟨F64.div (F64.ofNat w) 2, F64.div (F64.mul (F64.ofNat h) 3) 4,
            F64.div (F64.ofNat l) 2, 0, 0⟩
          ⟨[], codes.BlockBedrock, codes.BlockActiveWater, h / 2, uadd h 2, 0⟩ WeatherSunny)
          x y z hin.1 hin.2.1 hin.2.2 hvol
        have hlt := flat_index_lt w h l x y z hin.1 hin.2.1 hin.2.2
        simp only at hidx ⊢
        rw [hidx, List.getElem?_replicate, if_pos (by rw [umul3_eq w h l hvol]; exact hlt)]
        rfl
      · rfl
    · intro hw
      exact spawn_half w hw
    · intro hh
      exact spawn_three_quarters h hh
    · intro hl
      exact spawn_half l hl
    · intro hh
      show uadd h 2 = h + 2
      unfold uadd
      exact Nat.mod_eq_of_lt hh
/-- Witness of C12: the level "flat" 16x16x16. -/
theorem NewLevel_fields_witness :
    (∀ x y z, (flat16 ⟨7, 8⟩).GetBlock x y z = .ok BlockAir)
    ∧ (flat16 ⟨7, 8⟩).Spawn.X = ((16 : Nat) : ℚ) / 2
    ∧ (flat16 ⟨7, 8⟩).Spawn.Y = ((16 : Nat) : ℚ) * 3 / 4
    ∧ (flat16 ⟨7, 8⟩).Appearance.CloudLevel = 16 + 2 :=
  ⟨((NewLevel_fields 2147483648 ⟨7, 8⟩ [102, 108, 97, 116] 16 16 16).2.2.2 (flat16 ⟨7, 8⟩) rfl).2.1
      (by norm_num [UINT]),
    ((NewLevel_fields 2147483648 ⟨7, 8⟩ [102, 108, 97, 116] 16 16 16).2.2.2 (flat16 ⟨7, 8⟩) rfl).2.2.2.1
      (by norm_num),
    ((NewLevel_fields 2147483648 ⟨7, 8⟩ [102, 108, 97, 116] 16 16 16).2.2.2 (flat16 ⟨7, 8⟩) rfl).2.2.2.2.1
      (by norm_num),
    ((NewLevel_fields 2147483648 ⟨7, 8⟩ [102, 108, 97, 116] 16 16 16).2.2.2 (flat16 ⟨7, 8⟩)
      rfl).2.2.2.2.2.2.2.2.1 (by norm_num [UINT])⟩

theorem ofNat_two_pow_60_succ : F64.ofNat (2 ^ 60 + 1) = (2 : ℚ) ^ 60 := by
  unfold F64.ofNat
  have := F64.round_eq_of_bounds (((2 ^ 60 + 1 : Nat) : ℚ)) 60 (2 ^ 52) (by norm_num)
    (by rw [abs_of_pos (by positivity)]; norm_num)
    (by rw [abs_of_pos (by positivity)]; norm_num)
    (by norm_num) (by norm_num)
  rw [this]
  norm_num

/-- C12 fails as stated: with `w = h = 2^32`, `l = 1` the volume wraps to 0,
`NewLevel` returns a level without blocks and `GetBlock(0, 0, 0)` on it panics;
with `w = 2^60 + 1`, `h = l = 0` the spawn X is `2^59`, not `w/2`. -/
theorem NewLevel_overflow :
    (∀ makeLimit, ∃ L, NewLevel makeLimit ⟨7, 8⟩ [97] 4294967296 4294967296 1 = .ok (some L)
      ∧ L.GetBlock 0 0 0 = .panic)
    ∧ (∀ makeLimit, ∃ L, NewLevel makeLimit ⟨7, 8⟩ [97] (2 ^ 60 + 1) 0 0 = .ok (some L)
      ∧ L.Spawn.X ≠ ((2 ^ 60 + 1 : Nat) : ℚ) / 2) := by
  have hv1 : umul (umul 4294967296 4294967296) 1 = 0 := by norm_num [umul, UINT]
  have hv2 : umul (umul (2 ^ 60 + 1) 0) 0 = 0 := by norm_num [umul, UINT]
  constructor
  · intro makeLimit
    refine ⟨_, NewLevel_returns makeLimit ⟨7, 8⟩ [97] 4294967296 4294967296 1 (by decide)
      (by rw [hv1]; decide) (by rw [hv1]; exact Nat.zero_le _), ?_⟩
    rfl
  · intro makeLimit
    refine ⟨_, NewLevel_returns makeLimit ⟨7, 8⟩ [97] (2 ^ 60 + 1) 0 0 (by decide)
      (by rw [hv2]; decide) (by rw [hv2]; exact Nat.zero_le _), ?_⟩
    show F64.div (F64.ofNat (2 ^ 60 + 1)) 2 ≠ _
    rw [ofNat_two_pow_60_succ]
    unfold F64.div
    have h59 : F64.round ((2 : ℚ) ^ 60 / 2) = (2 : ℚ) ^ 59 := by
      have : (2 : ℚ) ^ 60 / 2 = (2 : ℚ) ^ 59 := by norm_num
      rw [this]
      exact F64.isF64_of_int_mul_zpow _ 1 59 (by norm_num) (by norm_num) (by norm_num)
    rw [h59]
    norm_num

/-- C13: when the weather differs, `SetWeather` first appends exactly one
notice, carrying the new value, to every client the server of the level lists
on this level and to no other client, the level still holding its old weather,
and then sets `level.Weather`; when the weather is the same it sends nothing and
changes nothing; so a second `SetWeather` with the same value is a no-op. -/
theorem SetWeather_notifies (level : Level) (self : Nat) (srv : Server) (w : Nat) :
    (w ≠ level.Weather →
      level.SetWeatherTrace self srv w =
        [(level, ⟨srv.clients.map (fun c =>
            if level.Server ≠ none ∧ c.level = self
            then { c with sent := c.sent ++ [Notice.weather w] } else c)⟩),
         ({ level with Weather := w }, ⟨srv.clients.map (fun c =>
            if level.Server ≠ none ∧ c.level = self
            then { c with sent := c.sent ++ [Notice.weather w] } else c)⟩)]
      ∧ level.SetWeather self srv w =
         ({ level with Weather := w }, ⟨srv.clients.map (fun c =>
            if level.Server ≠ none ∧ c.level = self
            then { c with sent := c.sent ++ [Notice.weather w] } else c)⟩)
      ∧ (level.SetWeather self srv w).1.Weather = w)
    ∧ (w = level.Weather →
      level.SetWeatherTrace self srv w = [] ∧ level.SetWeather self srv w = (level, srv))
    ∧ (level.SetWeather self srv w).1.SetWeather self (level.SetWeather self srv w).2 w
        = level.SetWeather self srv w := by
  have hmap : level.ForEachClient self srv (fun client => client.sendWeather w)
      = ⟨srv.clients.map (fun c =>
          if level.Server ≠ none ∧ c.level = self
          then { c with sent := c.sent ++ [Notice.weather w] } else c)⟩ := by
    unfold Level.ForEachClient
    split
    · rename_i hnil
      have : srv.clients.map (fun c =>
          if level.Server ≠ none ∧ c.level = self
          then { c with sent := c.sent ++ [Notice.weather w] } else c) = srv.clients := by
        simp [hnil]
      rw [this]
    · rename_i hsome
      unfold Server.ForEachClient Client.sendWeather
      simp only [hsome, ne_eq, not_false_eq_true, true_and]
  have hsame : ∀ (l : Level) (s : Server), w = l.Weather → l.SetWeatherTrace self s w = []
      ∧ l.SetWeather self s w = (l, s) := by
    intro l s h
    have ht : l.SetWeatherTrace self s w = [] := by
      unfold Level.SetWeatherTrace
      rw [if_neg (by simpa using h)]
    exact ⟨ht, by unfold Level.SetWeather; rw [ht]; rfl⟩
  have hdiff : w ≠ level.Weather → level.SetWeatherTrace self srv w =
        [(level, ⟨srv.clients.map (fun c =>
            if level.Server ≠ none ∧ c.level = self
            then { c with sent := c.sent ++ [Notice.weather w] } else c)⟩),
         ({ level with Weather := w }, ⟨srv.clients.map (fun c =>
            if level.Server ≠ none ∧ c.level = self
            then { c with sent := c.sent ++ [Notice.weather w] } else c)⟩)] := by
    intro h
    unfold Level.SetWeatherTrace
    rw [if_pos h]
    simp only [hmap]
  refine ⟨?_, hsame level srv, ?_⟩
  · intro h
    have ht := hdiff h
    refine ⟨ht, ?_, ?_⟩
    · unfold Level.SetWeather; rw [ht]; rfl
    · unfold Level.SetWeather; rw [ht]; rfl
  · by_cases h : w = level.Weather
    · rw [(hsame level srv h).2]
      exact (hsame level srv h).2
    · have h2 : (level.SetWeather self srv w).1.Weather = w := by
        unfold Level.SetWeather; rw [hdiff h]; rfl
      exact (hsame _ _ h2.symm).2

/-- Witness of C13: the sunny level "flat" with one client on it and one
elsewhere, `SetWeather(Raining)` twice. -/
theorem SetWeather_notifies_witness :
    flatAttached.SetWeather 0 twoClients WeatherRaining =
      ({ flatAttached with Weather := WeatherRaining },
        ⟨[⟨0, [Notice.weather WeatherRaining]⟩, ⟨1, []⟩]⟩)
    ∧ (flatAttached.SetWeather 0 twoClients WeatherRaining).1.SetWeather 0
        (flatAttached.SetWeather 0 twoClients WeatherRaining).2 WeatherRaining
      = flatAttached.SetWeather 0 twoClients WeatherRaining :=
  ⟨((SetWeather_notifies flatAttached 0 twoClients WeatherRaining).1 (by decide)).2.1,
    (SetWeather_notifies flatAttached 0 twoClients WeatherRaining).2.2⟩

/-! ## Wire codec: coordinates, deltas, entity ids -/

theorem be16_wrap (v : ℤ) : be16 (wrap 16 v) = be16 v := by
  unfold be16 wrap
  have : ((v + 2 ^ (16 - 1)) % 2 ^ 16 - 2 ^ (16 - 1)) % 65536 = v % 65536 := by
    norm_num
    omega
  rw [this]

theorem be16_natCast (n : Nat) : be16 (n : ℤ) = [n % 65536 / 256, n % 256] := by
  unfold be16
  have h : ((n : ℤ) % 65536).toNat = n % 65536 := by omega
  simp only [h]
  congr 1
  congr 1
  omega

/-- C18: `levelFinalize` appends exactly 7 bytes and `setBlock` exactly 8, for
all arguments; each coordinate field is the big-endian encoding of the
argument mod 65536, and for arguments below 32768 it reads back, as a signed
16-bit integer, as the argument. -/
theorem levelFinalize_setBlock_layout (p : Packet) (x y z block : Nat) :
    (p.levelFinalize x y z).buf = p.buf ++ [0x04, x % 65536 / 256, x % 256,
        y % 65536 / 256, y % 256, z % 65536 / 256, z % 256]
    ∧ (p.levelFinalize x y z).buf.length = p.buf.length + 7
    ∧ (p.setBlock x y z block).buf = p.buf ++ [0x06, x % 65536 / 256, x % 256,
        y % 65536 / 256, y % 256, z % 65536 / 256, z % 256, block]
    ∧ (p.setBlock x y z block).buf.length = p.buf.length + 8
    ∧ (∀ n : Nat, (n % 65536 / 256) * 256 + n % 256 = n % 65536
        ∧ n % 65536 / 256 < 256 ∧ n % 256 < 256)
    ∧ (∀ n : Nat, readInt16 [n % 65536 / 256, n % 256] = wrap 16 (n : ℤ))
    ∧ (∀ n : Nat, n < 32768 → readInt16 [n % 65536 / 256, n % 256] = (n : ℤ)) := by
  have h1 : (p.levelFinalize x y z).buf = p.buf ++ [0x04, x % 65536 / 256, x % 256,
        y % 65536 / 256, y % 256, z % 65536 / 256, z % 256] := by
    unfold Packet.levelFinalize
    simp only [be16_wrap, be16_natCast, List.append_assoc, List.cons_append, List.nil_append]
  have h2 : (p.setBlock x y z block).buf = p.buf ++ [0x06, x % 65536 / 256, x % 256,
        y % 65536 / 256, y % 256, z % 65536 / 256, z % 256, block] := by
    unfold Packet.setBlock
    simp only [be16_wrap, be16_natCast, List.append_assoc, List.cons_append, List.nil_append]
  refine ⟨h1, ?_, h2, ?_, ?_, ?_, ?_⟩
  · rw [h1]; simp
  · rw [h2]; simp
  · intro n; omega
  · intro n
    unfold readInt16 wrap
    simp only
    norm_num
    split <;> omega
  · intro n hn
    unfold readInt16
    simp only
    split <;> omega

/-- Witness of C18: the dimension 300 reads back from its two bytes. -/
theorem levelFinalize_setBlock_layout_witness :
    readInt16 [300 % 65536 / 256, 300 % 256] = ((300 : Nat) : ℤ) :=
  (levelFinalize_setBlock_layout ⟨[]⟩ 300 16 16 1).2.2.2.2.2.2 300 (by norm_num)

namespace F64

end F64

/-- C15 fails as stated: for an entity whose stored id is 255 every encoder
called without `self` writes the id byte 255. -/
theorem entity_id_255_emitted :
    field (Packet.addEntity conv0 ⟨[]⟩ entity255 false false) 1 1 = [255]
    ∧ field (Packet.teleport conv0 ⟨[]⟩ entity255 false false) 1 1 = [255]
    ∧ field (Packet.removeEntity ⟨[]⟩ entity255 false) 1 1 = [255]
    ∧ field (Packet.positionUpdate conv0 ⟨[]⟩ entity255) 1 1 = [255]
    ∧ field (Packet.positionOrientationUpdate conv0 ⟨[]⟩ entity255) 1 1 = [255]
    ∧ field (Packet.orientationUpdate conv0 ⟨[]⟩ entity255) 1 1 = [255] :=
  ⟨rfl, rfl, rfl, rfl, rfl, rfl⟩

/-- C15: for an entity whose stored id is at most 254, the entity-ID byte
written by `addEntity`, `teleport` and `removeEntity` with `self = false` and by
`positionUpdate`, `positionOrientationUpdate` and `orientationUpdate` is the
stored id, hence at most 254. -/
theorem entity_id_in_range (cv : Conv) (p : Packet) (e : Entity) (extPos : Bool)
    (hid : e.id ≤ 254) :
    (∀ b ∈ field (p.addEntity cv e false extPos) (p.buf.length + 1) 1, b = e.id ∧ b ≤ 254)
    ∧ (∀ b ∈ field (p.teleport cv e false extPos) (p.buf.length + 1) 1, b = e.id ∧ b ≤ 254)
    ∧ (∀ b ∈ field (p.removeEntity e false) (p.buf.length + 1) 1, b = e.id ∧ b ≤ 254)
    ∧ (∀ b ∈ field (p.positionUpdate cv e) (p.buf.length + 1) 1, b = e.id ∧ b ≤ 254)
    ∧ (∀ b ∈ field (p.positionOrientationUpdate cv e) (p.buf.length + 1) 1,
        b = e.id ∧ b ≤ 254)
    ∧ (∀ b ∈ field (p.orientationUpdate cv e) (p.buf.length + 1) 1, b = e.id ∧ b ≤ 254)
    ∧ field (p.addEntity cv e false extPos) (p.buf.length + 1) 1 ≠ []
    ∧ field (p.teleport cv e false extPos) (p.buf.length + 1) 1 ≠ []
    ∧ field (p.removeEntity e false) (p.buf.length + 1) 1 ≠ []
    ∧ field (p.positionUpdate cv e) (p.buf.length + 1) 1 ≠ []
    ∧ field (p.positionOrientationUpdate cv e) (p.buf.length + 1) 1 ≠ []
    ∧ field (p.orientationUpdate cv e) (p.buf.length + 1) 1 ≠ [] := by
  have h1 : field (p.addEntity cv e false extPos) (p.buf.length + 1) 1 = [e.id] := by
    rw [show p.addEntity cv e false extPos = ⟨(p.addEntity cv e false extPos).buf⟩ from rfl,
      addEntity_buf, field_append]; rfl
  have h2 : field (p.teleport cv e false extPos) (p.buf.length + 1) 1 = [e.id] := by
    rw [show p.teleport cv e false extPos = ⟨(p.teleport cv e false extPos).buf⟩ from rfl,
      teleport_buf, field_append]; rfl
  have h3 : field (p.removeEntity e false) (p.buf.length + 1) 1 = [e.id] := by
    show field ⟨p.buf ++ [0x0c, e.id]⟩ _ _ = _
    rw [field_append]; rfl
  have h4 : field (p.positionUpdate cv e) (p.buf.length + 1) 1 = [e.id] := by
    show field ⟨p.buf ++ [0x0a, e.id, _, _, _]⟩ _ _ = _
    rw [field_append]; rfl
  have h5 : field (p.positionOrientationUpdate cv e) (p.buf.length + 1) 1 = [e.id] := by
    show field ⟨p.buf ++ [0x09, e.id, _, _, _, _, _]⟩ _ _ = _
    rw [field_append]; rfl
  have h6 : field (p.orientationUpdate cv e) (p.buf.length + 1) 1 = [e.id] := by
    show field ⟨p.buf ++ [0x0b, e.id, _, _]⟩ _ _ = _
    rw [field_append]; rfl
  have hb : ∀ b ∈ [e.id], b = e.id ∧ b ≤ 254 := by
    intro b hmem
    rw [List.mem_singleton.mp hmem]
    exact ⟨rfl, hid⟩
  rw [h1, h2, h3, h4, h5, h6]
  exact ⟨hb, hb, hb, hb, hb, hb, by simp, by simp, by simp, by simp, by simp, by simp⟩

/-- Witness of C15: the entity with id 5. -/
theorem entity_id_in_range_witness :
    (∀ b ∈ field (Packet.removeEntity ⟨[]⟩ entity0 false) (([] : List Nat).length + 1) 1,
      b = entity0.id ∧ b ≤ 254)
    ∧ field (Packet.removeEntity ⟨[]⟩ entity0 false) (([] : List Nat).length + 1) 1 ≠ [] :=
  ⟨(entity_id_in_range conv0 ⟨[]⟩ entity0 false (by decide)).2.2.1,
    (entity_id_in_range conv0 ⟨[]⟩ entity0 false (by decide)).2.2.2.2.2.2.2.2.1⟩

/-! ## Level stream: number of chunks -/

theorem chunkLength_levelDataChunk (blocks : List Nat) (percent : Nat)
    (hn : blocks.length ≤ 1024) :
    field (Packet.levelDataChunk ⟨[]⟩ blocks percent) 1 2
      = [blocks.length / 256, blocks.length % 256] := by
  have h := levelDataChunk_buf ⟨[]⟩ blocks percent hn
  unfold field
  rw [h]
  rfl

theorem readInt16_chunkLength (n : Nat) (h0 : 0 < n) (h1 : n ≤ 1024) :
    readInt16 [n / 256, n % 256] ≠ 0 := by
  unfold readInt16
  simp only
  split <;> omega

theorem Write_count (s : levelStream) (p : List Nat) (hbuf : s.buf.length = 1024)
    (h0 : 0 ≤ s.index) (h1 : s.index < 1024) :
    ∃ s1 out, s.Write p = .ok (s1, (p.length : ℤ)) ∧ s1.player.sent = s.player.sent ++ out
      ∧ out.length = (s.index.toNat + p.length) / 1024
      ∧ s1.index = ((s.index.toNat + p.length) % 1024 : Nat)
      ∧ s1.buf.length = 1024
      ∧ (∀ q ∈ out, field q 1 2 = [4, 0]) := by
  have hinv : StreamInv s.player.sent (s.buf.take s.index.toNat) s :=
    ⟨hbuf, h0, h1, [], by simp, by simp, by simp⟩
  obtain ⟨s1, hw, hlen, hi0, hi1, out, hsent, hfull, hD⟩ := Write_inv s.player.sent p s _ hinv
  have hmap : ∀ c ∈ out.map chunkData, c.length = 1024 := by
    intro c hc
    obtain ⟨q, hq, rfl⟩ := List.mem_map.mp hc
    obtain ⟨d, percent, hd, rfl⟩ := hfull q hq
    rw [chunkData_full _ _ hd]
    exact hd
  have hflat := length_flatten_uniform 1024 (out.map chunkData) hmap
  rw [List.length_map] at hflat
  have hcount := congrArg List.length hD
  simp only [List.length_append, List.length_take, hflat, hbuf, hlen] at hcount
  refine ⟨s1, out, hw, hsent, by omega, by omega, hlen, ?_⟩
  intro q hq
  obtain ⟨c, percent, hc, rfl⟩ := hfull q hq
  rw [chunkLength_levelDataChunk c percent (by omega), hc]

/-- C14: on a fresh stream the `Write` calls emit `N / 1024` chunks, each with
`ChunkLength` 1024, and leave `N mod 1024` bytes buffered; `Close` emits one
more chunk, with `ChunkLength` `N mod 1024`, exactly when that remainder is not
zero; in all `ceil(N / 1024)` chunks, none with `ChunkLength` 0. A single
`Write` of `p` at index `i` emits `(i + len(p)) / 1024` chunks, one each time
the buffer is full. -/
theorem levelStream_chunk_count (s0 : levelStream) (writes : List (Nat × List Nat))
    (hidx : s0.index = 0) (hbuf : s0.buf.length = 1024) :
    (∃ s1 s2 out1 out2, s0.writeAll writes = .ok s1 ∧ s1.Close = .ok s2
      ∧ s1.player.sent = s0.player.sent ++ out1 ∧ s2.player.sent = s1.player.sent ++ out2
      ∧ out1.length = (writes.map Prod.snd).flatten.length / 1024
      ∧ s1.index = (((writes.map Prod.snd).flatten.length % 1024 : Nat) : ℤ)
      ∧ out2.length = (if (writes.map Prod.snd).flatten.length % 1024 = 0 then 0 else 1)
      ∧ (out1 ++ out2).length = ((writes.map Prod.snd).flatten.length + 1023) / 1024
      ∧ (∀ q ∈ out1, field q 1 2 = [4, 0])
      ∧ (∀ q ∈ out2, field q 1 2 = [(writes.map Prod.snd).flatten.length % 1024 / 256,
          (writes.map Prod.snd).flatten.length % 1024 % 256])
      ∧ (∀ q ∈ out1 ++ out2, readInt16 (field q 1 2) ≠ 0))
    ∧ ∀ (s : levelStream) (p : List Nat), s.buf.length = 1024 → 0 ≤ s.index → s.index < 1024 →
        ∃ s1 out, s.Write p = .ok (s1, (p.length : ℤ))
          ∧ s1.player.sent = s.player.sent ++ out
          ∧ out.length = (s.index.toNat + p.length) / 1024
          ∧ s1.index = (((s.index.toNat + p.length) % 1024 : Nat) : ℤ) := by
  constructor
  · have hinv0 : StreamInv s0.player.sent [] s0 :=
      ⟨hbuf, by omega, by omega, [], by simp, by simp, by simp [hidx]⟩
    obtain ⟨s1, hw, hlen, hi0, hi1, out, hsent, hfull, hD⟩ :=
      writeAll_inv s0.player.sent writes s0 [] hinv0
    rw [List.nil_append] at hD
    have hmap : ∀ c ∈ out.map chunkData, c.length = 1024 := by
      intro c hc
      obtain ⟨q, hq, rfl⟩ := List.mem_map.mp hc
      obtain ⟨d, percent, hd, rfl⟩ := hfull q hq
      rw [chunkData_full _ _ hd]
      exact hd
    have hflat := length_flatten_uniform 1024 (out.map chunkData) hmap
    rw [List.length_map] at hflat
    have htk : (s1.buf.take s1.index.toNat).length = s1.index.toNat := by
      rw [List.length_take]; omega
    have hN : (writes.map Prod.snd).flatten.length = 1024 * out.length + s1.index.toNat := by
      rw [hD, List.length_append, hflat, htk]
    have hlen1 : ∀ q ∈ out, field q 1 2 = [4, 0] := by
      intro q hq
      obtain ⟨c, percent, hc, rfl⟩ := hfull q hq
      rw [chunkLength_levelDataChunk c percent (by omega), hc]
    have hrem : (writes.map Prod.snd).flatten.length % 1024 = s1.index.toNat := by
      rw [hN]; omega
    by_cases hpos : s1.index > 0
    · have hsend := send_ok s1 hi0 (by rw [hlen]; omega)
      have hlast : field (Packet.levelDataChunk ⟨[]⟩ (s1.buf.take s1.index.toNat) s1.percent)
          1 2 = [s1.index.toNat / 256, s1.index.toNat % 256] := by
        rw [chunkLength_levelDataChunk _ _ (by rw [htk]; omega), htk]
      refine ⟨s1, { s1 with
          player := s1.player.sendPacket
            (Packet.levelDataChunk ⟨[]⟩ (s1.buf.take s1.index.toNat) s1.percent)
          index := 0 },
        out, [Packet.levelDataChunk ⟨[]⟩ (s1.buf.take s1.index.toNat) s1.percent],
        hw, ?_, hsent, rfl, ?_, ?_, ?_, ?_, hlen1, ?_, ?_⟩
      · unfold levelStream.Close
        rw [if_pos hpos, hsend]
      · rw [hN]; omega
      · omega
      · rw [if_neg (by omega)]; rfl
      · rw [List.length_append, List.length_singleton, hN]; omega
      · intro q hq
        rw [List.mem_singleton.mp hq, hlast, hrem]
      · intro q hq
        rcases List.mem_append.mp hq with hq | hq
        · rw [hlen1 q hq]; decide
        · rw [List.mem_singleton.mp hq, hlast]
          exact readInt16_chunkLength _ (by omega) (by omega)
    · refine ⟨s1, s1, out, [], hw, ?_, hsent, by simp, ?_, ?_, ?_, ?_, hlen1, ?_, ?_⟩
      · unfold levelStream.Close
        rw [if_neg hpos]
      · rw [hN]; omega
      · omega
      · rw [if_pos (by omega)]; rfl
      · rw [List.append_nil, hN]; omega
      · intro q hq; simp at hq
      · intro q hq
        rw [List.append_nil] at hq
        rw [hlen1 q hq]; decide
  · intro s p hb h0 h1
    obtain ⟨s1, out, hw, hsent, hcount, hindex, _, _⟩ := Write_count s p hb h0 h1
    exact ⟨s1, out, hw, hsent, hcount, hindex⟩

/-- Witness of C14: the bytes 1, 2, 3 and then 4 written to a fresh stream. -/
theorem levelStream_chunk_count_witness :
    ∃ s1 s2 out1 out2, freshStream.writeAll [(10, [1, 2, 3]), (20, [4])] = .ok s1
      ∧ s1.Close = .ok s2
      ∧ s1.player.sent = freshStream.player.sent ++ out1
      ∧ s2.player.sent = s1.player.sent ++ out2
      ∧ (out1 ++ out2).length
        = (([(10, [1, 2, 3]), (20, [4])].map Prod.snd).flatten.length + 1023) / 1024
      ∧ (∀ q ∈ out1 ++ out2, readInt16 (field q 1 2) ≠ 0) :=
  match (levelStream_chunk_count freshStream [(10, [1, 2, 3]), (20, [4])] rfl
      (List.length_replicate _ _)).1 with
  | ⟨s1, s2, out1, out2, h1, h2, h3, h4, _, _, _, h5, _, _, h6⟩ =>
    ⟨s1, s2, out1, out2, h1, h2, h3, h4, h5, h6⟩

/-! ## Wire codec: tags -/

/-- C16: every encoder applied to an empty packet writes a non-empty byte
sequence whose first byte is the tag constant of its message type; the
declared tag constants are pairwise distinct and lie in 0x00..0x2b. -/
theorem encoders_start_with_tag (cv : Conv) (e : Entity) (self extPos lock operator : Bool)
    (s1 s2 blocks : List Nat) (indices : List ℤ) (percent x y z block size prop id dir : Nat)
    (msgType value data distance : ℤ) (entry : ExtEntry) (box : AABB) (color : RGBA)
    (config : HackConfig) (level : Level) :
    (Packet.motd ⟨[]⟩ operator s1 s2).buf.head? = some packetTypeIdentification
    ∧ (Packet.ping ⟨[]⟩).buf.head? = some packetTypePing
    ∧ (Packet.levelInitialize ⟨[]⟩).buf.head? = some packetTypeLevelInitialize
    ∧ (Packet.levelInitializeExt ⟨[]⟩ size).buf.head? = some packetTypeLevelInitialize
    ∧ (Packet.levelDataChunk ⟨[]⟩ blocks percent).buf.head? = some packetTypeLevelDataChunk
    ∧ (Packet.levelFinalize ⟨[]⟩ x y z).buf.head? = some packetTypeLevelFinalize
    ∧ (Packet.setBlock ⟨[]⟩ x y z block).buf.head? = some packetTypeSetBlock
    ∧ (Packet.addEntity cv ⟨[]⟩ e self extPos).buf.head? = some packetTypeAddEntity
    ∧ (Packet.teleport cv ⟨[]⟩ e self extPos).buf.head? = some packetTypePlayerTeleport
    ∧ (Packet.positionOrientationUpdate cv ⟨[]⟩ e).buf.head?
        = some packetTypePositionOrientationUpdate
    ∧ (Packet.positionUpdate cv ⟨[]⟩ e).buf.head? = some packetTypePositionUpdate
    ∧ (Packet.orientationUpdate cv ⟨[]⟩ e).buf.head? = some packetTypeOrientationUpdate
    ∧ (Packet.removeEntity ⟨[]⟩ e self).buf.head? = some packetTypeRemoveEntity
    ∧ (Packet.message ⟨[]⟩ msgType s1).buf.head? = some packetTypeMessage
    ∧ (Packet.kick ⟨[]⟩ s1).buf.head? = some packetTypeKick
    ∧ (Packet.userType ⟨[]⟩ operator).buf.head? = some packetTypeSetPermission
    ∧ (Packet.extInfo ⟨[]⟩ s1).buf.head? = some packetTypeExtInfo
    ∧ (Packet.extEntry ⟨[]⟩ entry).buf.head? = some packetTypeExtEntry
    ∧ (Packet.clickDistance ⟨[]⟩ distance).buf.head? = some packetTypeSetClickDistance
    ∧ (Packet.customBlockSupportLevel ⟨[]⟩ block).buf.head?
        = some packetTypeCustomBlockSupportLevel
    ∧ (Packet.holdThis ⟨[]⟩ block lock).buf.head? = some packetTypeHoldThis
    ∧ (Packet.extAddPlayerName ⟨[]⟩ e self).buf.head? = some packetTypeExtAddPlayerName
    ∧ (Packet.extRemovePlayerName ⟨[]⟩ e self).buf.head? = some packetTypeExtRemovePlayerName
    ∧ (Packet.makeSelection ⟨[]⟩ msgType s1 box color).buf.head? = some packetTypeMakeSelection
    ∧ (Packet.removeSelection ⟨[]⟩ msgType).buf.head? = some packetTypeRemoveSelection
    ∧ (Packet.changeModel ⟨[]⟩ e self).buf.head? = some packetTypeChangeModel
    ∧ (Packet.envWeatherType ⟨[]⟩ level).buf.head? = some packetTypeEnvSetWeatherType
    ∧ (Packet.hackControl ⟨[]⟩ config).buf.head? = some packetTypeHackControl
    ∧ (Packet.extAddEntity2 cv ⟨[]⟩ e self extPos).buf.head? = some packetTypeExtAddEntity2
    ∧ (Packet.bulkBlockUpdate ⟨[]⟩ indices blocks).buf.head? = some packetTypeBulkBlockUpdate
    ∧ (Packet.mapEnvUrl ⟨[]⟩ s1).buf.head? = some packetTypeSetMapEnvUrl
    ∧ (Packet.mapEnvProperty ⟨[]⟩ id value).buf.head? = some packetTypeSetMapEnvProperty
    ∧ (Packet.entityProperty ⟨[]⟩ e self prop value).buf.head?
        = some packetTypeSetEntityProperty
    ∧ (Packet.twoWayPing ⟨[]⟩ dir data).buf.head? = some packetTypeTwoWayPing
    ∧ packetTypes.length = 35
    ∧ packetTypes.Nodup
    ∧ ∀ t ∈ packetTypes, t ≤ 0x2b := by
  refine ⟨rfl, rfl, rfl, rfl, rfl, rfl, rfl, ?_, ?_, rfl, rfl, rfl, rfl, rfl, rfl, rfl, rfl, rfl,
    rfl, rfl, rfl, rfl, rfl, rfl, rfl, rfl, rfl, rfl, ?_, rfl, rfl, rfl, rfl, rfl, rfl,
    by decide, by decide⟩
  · rw [addEntity_buf]; rfl
  · rw [teleport_buf]; rfl
  · rw [extAddEntity2_buf]; rfl

/-! ## Wire codec: extension handshake -/

theorem trimString_padString_self (s : List Nat) (hlen : s.length ≤ 64)
    (hlast : ∀ h : s ≠ [], s.getLast h ≠ 32) : trimString (padString s) = s := by
  rw [padString_of_le s hlen]
  unfold trimString
  rw [rdropWhile_append_replicate _ 32 (by simp) s _, List.rdropWhile_eq_self_iff]
  intro hl
  simpa using hlast hl

theorem be32_wrap (v : ℤ) : be32 (wrap 32 v) = be32 v := by
  unfold be32 wrap
  have : ((v + 2 ^ (32 - 1)) % 2 ^ 32 - 2 ^ (32 - 1)) % 4294967296 = v % 4294967296 := by
    norm_num
    omega
  rw [this]

theorem be32_length (v : ℤ) : (be32 v).length = 4 := rfl

theorem be16_length (v : ℤ) : (be16 v).length = 2 := rfl

theorem extEntry_fields (p : Packet) (entry : ExtEntry) :
    (p.extEntry entry).buf.length = p.buf.length + 69
    ∧ field (p.extEntry entry) (p.buf.length + 1) 64 = padString entry.Name
    ∧ field (p.extEntry entry) (p.buf.length + 65) 4 = be32 entry.Version := by
  have hbuf : (p.extEntry entry).buf
      = p.buf ++ ([packetTypeExtEntry] ++ (padString entry.Name ++ be32 entry.Version)) := by
    unfold Packet.extEntry
    simp only [be32_wrap, List.append_assoc]
  refine ⟨?_, ?_, ?_⟩
  · rw [hbuf]
    simp only [List.length_append, List.length_singleton, padString_length, be32_length]
  · rw [show p.extEntry entry = ⟨(p.extEntry entry).buf⟩ from rfl, hbuf, field_append]
    show List.take 64 (padString entry.Name ++ be32 entry.Version) = _
    exact List.take_left' (padString_length _)
  · rw [show p.extEntry entry = ⟨(p.extEntry entry).buf⟩ from rfl, hbuf, field_append]
    have h65 : List.drop 65 ([packetTypeExtEntry] ++ (padString entry.Name ++ be32 entry.Version))
        = be32 entry.Version := by
      show List.drop 64 (padString entry.Name ++ be32 entry.Version) = _
      exact List.drop_left' (padString_length _)
    rw [h65]
    rfl

/-- C17: the catalog `Extensions` has 18 = `CpeCount` entries with pairwise
distinct names, each of at most 64 bytes and not ending in a space, and
positive versions; `extInfo` appends 67 bytes whose last two are the big-endian
count 18; for every catalog entry `extEntry` appends 69 bytes whose name field
trims to the name of the entry and whose last four bytes read as its
version. -/
theorem extension_catalog (p : Packet) (ServerSoftware : List Nat) :
    Extensions.length = 18 ∧ CpeCount = 18
    ∧ (Extensions.map (fun entry => entry.Name)).Nodup
    ∧ (∀ entry ∈ Extensions, entry.Name.length ≤ 64 ∧ entry.Name.getLast? ≠ some 32
        ∧ 0 < entry.Version)
    ∧ (p.extInfo ServerSoftware).buf.length = p.buf.length + 67
    ∧ field (p.extInfo ServerSoftware) (p.buf.length + 65) 2 = [0, 18]
    ∧ readInt16 (field (p.extInfo ServerSoftware) (p.buf.length + 65) 2) = 18
    ∧ (∀ entry ∈ Extensions,
        (p.extEntry entry).buf.length = p.buf.length + 69
        ∧ trimString (field (p.extEntry entry) (p.buf.length + 1) 64) = entry.Name
        ∧ readInt32 (field (p.extEntry entry) (p.buf.length + 65) 4) = entry.Version) := by
  have hinfo : (p.extInfo ServerSoftware).buf
      = p.buf ++ ([packetTypeExtInfo] ++ (padString ServerSoftware ++ [0, 18])) := by
    unfold Packet.extInfo
    simp only [List.append_assoc]
    rfl
  have hcount : field (p.extInfo ServerSoftware) (p.buf.length + 65) 2 = [0, 18] := by
    rw [show p.extInfo ServerSoftware = ⟨(p.extInfo ServerSoftware).buf⟩ from rfl, hinfo,
      field_append]
    have h65 : List.drop 65 ([packetTypeExtInfo] ++ (padString ServerSoftware ++ [0, 18]))
        = [0, 18] := by
      show List.drop 64 (padString ServerSoftware ++ [0, 18]) = _
      exact List.drop_left' (padString_length _)
    rw [h65]
    rfl
  have hcat : ∀ entry ∈ Extensions, entry.Name.length ≤ 64 ∧ entry.Name.getLast? ≠ some 32
      ∧ 0 < entry.Version ∧ entry.Version < 2147483648 := by decide
  refine ⟨rfl, rfl, by decide, ?_, ?_, hcount, ?_, ?_⟩
  · intro entry hmem
    exact ⟨(hcat entry hmem).1, (hcat entry hmem).2.1, (hcat entry hmem).2.2.1⟩
  · rw [hinfo]
    simp only [List.length_append, List.length_singleton, padString_length, List.length_cons,
      List.length_nil]
  · rw [hcount]
    rfl
  · intro entry hmem
    obtain ⟨hlen, hlast, hpos, hlt⟩ := hcat entry hmem
    obtain ⟨h1, h2, h3⟩ := extEntry_fields p entry
    refine ⟨h1, ?_, ?_⟩
    · rw [h2]
      apply trimString_padString_self _ hlen
      intro hne hl
      apply hlast
      rw [List.getLast?_eq_getLast _ hne, hl]
    · rw [h3]
      exact readInt32_be32 _ (by omega) hlt

/-- Witness of C17: the entry "ExtPlayerList", version 2. -/
theorem extension_catalog_witness :
    (Packet.extEntry ⟨[]⟩ ⟨ascii "ExtPlayerList", 2⟩).buf.length = ([] : List Nat).length + 69
    ∧ trimString (field (Packet.extEntry ⟨[]⟩ ⟨ascii "ExtPlayerList", 2⟩)
        (([] : List Nat).length + 1) 64) = ascii "ExtPlayerList"
    ∧ readInt32 (field (Packet.extEntry ⟨[]⟩ ⟨ascii "ExtPlayerList", 2⟩)
        (([] : List Nat).length + 65) 4) = 2 :=
  (extension_catalog ⟨[]⟩ [103, 111]).2.2.2.2.2.2.2 ⟨ascii "ExtPlayerList", 2⟩ (by decide)

/-! ## Wire codec: oversized strings, bulk updates of any length -/

theorem padString_of_ge (s : List Nat) (hlen : 64 ≤ s.length) : padString s = s.take 64 := by
  unfold padString
  have h1 : copy (List.replicate 64 0) s = s.take 64 := by
    unfold copy
    rw [List.length_replicate, List.drop_replicate, show 64 - s.length = 0 by omega]
    simp
  simp only [h1]
  rw [if_neg (by omega)]

/-- C23: `padString` returns exactly 64 bytes for every string and the first 64
bytes of a string longer than 64 bytes; so the packets of `message`, `kick`,
`motd`, `addEntity`, `extAddEntity2`, `changeModel`, `extAddPlayerName`,
`extInfo`, `extEntry`, `makeSelection` and `mapEnvUrl` have a fixed length
whatever the lengths of their strings. -/
theorem padString_total (cv : Conv) (p : Packet) (s s2 : List Nat) (e : Entity)
    (self extPos operator : Bool) (msgType : ℤ) (entry : ExtEntry) (box : AABB)
    (color : RGBA) :
    (padString s).length = 64
    ∧ (64 < s.length → padString s = s.take 64)
    ∧ (p.message msgType s).buf.length = p.buf.length + 66
    ∧ (p.kick s).buf.length = p.buf.length + 65
    ∧ (p.motd operator s s2).buf.length = p.buf.length + 131
    ∧ (p.addEntity cv e self extPos).buf.length
        = p.buf.length + 68 + (if extPos then 12 else 6)
    ∧ (p.extAddEntity2 cv e self extPos).buf.length
        = p.buf.length + 132 + (if extPos then 12 else 6)
    ∧ (p.changeModel e self).buf.length = p.buf.length + 66
    ∧ (p.extAddPlayerName e self).buf.length = p.buf.length + 196
    ∧ (p.extInfo s).buf.length = p.buf.length + 67
    ∧ (p.extEntry entry).buf.length = p.buf.length + 69
    ∧ (p.makeSelection msgType s box color).buf.length = p.buf.length + 86
    ∧ (p.mapEnvUrl s).buf.length = p.buf.length + 65 := by
  have hpos := position_length cv ⟨[]⟩ e.location extPos
  simp only [List.length_nil, Nat.zero_add] at hpos
  refine ⟨padString_length s, fun h => padString_of_ge s (by omega), ?_, ?_, ?_, ?_, ?_, ?_, ?_,
    ?_, ?_, ?_, ?_⟩
  · simp only [Packet.message, List.length_append, List.length_cons, List.length_nil,
      padString_length]
  · simp only [Packet.kick, List.length_append, List.length_cons, List.length_nil,
      padString_length]
  · simp only [Packet.motd, List.length_append, List.length_cons, List.length_nil,
      padString_length]
  · rw [addEntity_buf]
    simp only [List.length_append, List.length_cons, List.length_nil, padString_length, hpos]
    omega
  · rw [extAddEntity2_buf]
    simp only [List.length_append, List.length_cons, List.length_nil, padString_length, hpos]
    omega
  · simp only [Packet.changeModel, List.length_append, List.length_cons, List.length_nil,
      padString_length]
  · simp only [Packet.extAddPlayerName, List.length_append, List.length_cons, List.length_nil,
      padString_length, be16_length]
  · simp only [Packet.extInfo, List.length_append, List.length_cons, List.length_nil,
      padString_length, be16_length]
  · simp only [Packet.extEntry, List.length_append, List.length_cons, List.length_nil,
      padString_length, be32_length]
  · simp only [Packet.makeSelection, List.length_append, List.length_cons, List.length_nil,
      padString_length, be16_length]
  · simp only [Packet.mapEnvUrl, List.length_append, List.length_cons, List.length_nil,
      padString_length]

/-- Witness of C23: a string of 65 bytes is cut to its first 64 bytes. -/
theorem padString_total_witness :
    padString string65 = string65.take 64 ∧ (padString string65).length = 64 :=
  ⟨(padString_total conv0 ⟨[]⟩ string65 [] entity0 false false false 0 ⟨[], 1⟩
      ⟨0, 0, 0, 0, 0, 0⟩ ⟨0, 0, 0, 0⟩).2.1
      (by show 64 < (List.replicate 65 97).length; rw [List.length_replicate]; norm_num),
    (padString_total conv0 ⟨[]⟩ string65 [] entity0 false false false 0 ⟨[], 1⟩
      ⟨0, 0, 0, 0, 0, 0⟩ ⟨0, 0, 0, 0⟩).1⟩

theorem length_flatMap_be32 (l : List ℤ) : (l.flatMap be32).length = 4 * l.length := by
  induction l with
  | nil => rfl
  | cons a l ih =>
    rw [List.flatMap_cons, List.length_append, ih, be32_length, List.length_cons]
    omega

theorem copy_replicate {α : Type} (n : Nat) (a : α) (src : List α) :
    copy (List.replicate n a) src = src.take n ++ List.replicate (n - src.length) a := by
  unfold copy
  rw [List.length_replicate, List.drop_replicate]

/-- C24: for slices of any lengths `bulkBlockUpdate` appends exactly 1282 bytes:
the tag 0x26, the count byte `len(indices) mod 256`, 256 big-endian 32-bit
slots holding the first 256 indices and then zeros, and 256 bytes holding the
first 256 blocks and then zeros; the count byte does not depend on `blocks`. -/
theorem bulkBlockUpdate_layout (p : Packet) (indices : List ℤ) (blocks : List Nat) :
    (p.bulkBlockUpdate indices blocks).buf
      = p.buf ++ [0x26, indices.length % 256]
        ++ (indices.take 256 ++ List.replicate (256 - indices.length) 0).flatMap be32
        ++ (blocks.take 256 ++ List.replicate (256 - blocks.length) 0)
    ∧ (p.bulkBlockUpdate indices blocks).buf.length = p.buf.length + 1282
    ∧ ((indices.take 256 ++ List.replicate (256 - indices.length) 0).flatMap be32).length = 1024
    ∧ (blocks.take 256 ++ List.replicate (256 - blocks.length) 0).length = 256
    ∧ (∀ i v, indices[i]? = some v → i < 256 →
        (indices.take 256 ++ List.replicate (256 - indices.length) (0 : ℤ))[i]? = some v)
    ∧ (∀ i, indices.length ≤ i → i < 256 →
        (indices.take 256 ++ List.replicate (256 - indices.length) (0 : ℤ))[i]? = some 0)
    ∧ (∀ i v, blocks[i]? = some v → i < 256 →
        (blocks.take 256 ++ List.replicate (256 - blocks.length) 0)[i]? = some v)
    ∧ (∀ i, blocks.length ≤ i → i < 256 →
        (blocks.take 256 ++ List.replicate (256 - blocks.length) 0)[i]? = some 0)
    ∧ (∀ blocks2 : List Nat, field (p.bulkBlockUpdate indices blocks2) (p.buf.length + 1) 1
        = [indices.length % 256]) := by
  have hbuf : (p.bulkBlockUpdate indices blocks).buf
      = p.buf ++ [0x26, indices.length % 256]
        ++ (indices.take 256 ++ List.replicate (256 - indices.length) 0).flatMap be32
        ++ (blocks.take 256 ++ List.replicate (256 - blocks.length) 0) := by
    unfold Packet.bulkBlockUpdate
    simp only [copy_replicate]
  have hslots : ∀ {α : Type} (l : List α) (a : α),
      (l.take 256 ++ List.replicate (256 - l.length) a).length = 256 := by
    intro α l a
    rw [List.length_append, List.length_take, List.length_replicate]
    omega
  have hget : ∀ {α : Type} (l : List α) (a : α) (i : Nat) (v : α), l[i]? = some v → i < 256 →
      (l.take 256 ++ List.replicate (256 - l.length) a)[i]? = some v := by
    intro α l a i v hv hi
    have hil : i < l.length := (List.getElem?_eq_some_iff.mp hv).1
    rw [List.getElem?_append_left (by rw [List.length_take]; omega), List.getElem?_take_of_lt hi]
    exact hv
  have hzero : ∀ {α : Type} (l : List α) (a : α) (i : Nat), l.length ≤ i → i < 256 →
      (l.take 256 ++ List.replicate (256 - l.length) a)[i]? = some a := by
    intro α l a i hle hi
    have htl : (l.take 256).length = l.length := by rw [List.length_take]; omega
    rw [List.getElem?_append_right (by omega), htl, List.getElem?_replicate,
      if_pos (by omega)]
  refine ⟨hbuf, ?_, ?_, hslots blocks 0, hget indices 0, hzero indices 0, hget blocks 0,
    hzero blocks 0, fun blocks2 => bulkBlockUpdate_count p indices blocks2⟩
  · rw [hbuf]
    simp only [List.length_append, length_flatMap_be32, hslots, List.length_cons,
      List.length_nil]
  · rw [length_flatMap_be32, hslots]

/-- Witness of C24: of three indices and one block, slot 2 holds the third
index and block slot 1 is zero. -/
theorem bulkBlockUpdate_layout_witness :
    (([7, 8, 9] : List ℤ).take 256 ++ List.replicate (256 - 3) (0 : ℤ))[2]? = some 9
    ∧ (([1] : List Nat).take 256 ++ List.replicate (256 - 1) 0)[1]? = some 0 :=
  ⟨(bulkBlockUpdate_layout ⟨[]⟩ [7, 8, 9] [1]).2.2.2.2.1 2 9 rfl (by decide),
    (bulkBlockUpdate_layout ⟨[]⟩ [7, 8, 9] [1]).2.2.2.2.2.2.2.1 1 (by decide) (by decide)⟩

/-- C25: every level `NewLevel` returns satisfies
`len(Blocks) == Width*Height*Length` (the product in `uint` arithmetic, and
the exact product when it is below 2^64); `SetBlock` keeps it and changes no field
but `Blocks`; `SetWeather` keeps it and changes no field but `Weather`; the
level `Clone` returns satisfies it whenever the source does. -/
theorem wellFormed_preserved (makeLimit : Nat) (codes : BlockCodes) (name : List Nat)
    (w h l : Nat) (level : Level) (self : Nat) (srv : Server) :
    (∀ L, NewLevel makeLimit codes name w h l = .ok (some L) →
        L.wellFormed ∧ (w * h * l < UINT → L.Blocks.length = L.Width * L.Height * L.Length))
    ∧ (∀ x y z b broadcast L1 srv1,
        level.SetBlock self srv x y z b broadcast = .ok (L1, srv1) →
        L1 = { level with Blocks := L1.Blocks } ∧ (level.wellFormed → L1.wellFormed))
    ∧ (∀ weather,
        (level.SetWeather self srv weather).1
          = { level with Weather := (level.SetWeather self srv weather).1.Weather }
        ∧ (level.wellFormed → (level.SetWeather self srv weather).1.wellFormed))
    ∧ (∀ name2 C, level.Clone name2 = some C → level.wellFormed → C.wellFormed) := by
  refine ⟨?_, ?_, ?_, ?_⟩
  · intro L hnew
    obtain ⟨_, hW, hH, hLn, hB⟩ := NewLevel_some codes name w h l L hnew
    refine ⟨?_, fun hvol => ?_⟩
    · unfold Level.wellFormed
      rw [hB, List.length_replicate, hW, hH, hLn]
    · rw [hB, List.length_replicate, hW, hH, hLn, umul3_eq w h l hvol]
  · intro x y z b broadcast L1 srv1 hset
    unfold Level.SetBlock at hset
    split at hset
    · split at hset
      · have hL1 : L1 = { level with Blocks := level.Blocks.set (level.Index x y z) b } := by
          cases broadcast <;>
            simp only [Bool.false_eq_true, if_false, if_true, Outcome.ok.injEq,
              Prod.mk.injEq] at hset <;> exact hset.1.symm
        subst hL1
        refine ⟨rfl, ?_⟩
        intro hwf
        unfold Level.wellFormed at hwf ⊢
        simp only [List.length_set]
        exact hwf
      · simp at hset
    · simp only [Outcome.ok.injEq, Prod.mk.injEq] at hset
      rw [← hset.1]
      exact ⟨rfl, fun h => h⟩
  · intro weather
    have hcases : (level.SetWeather self srv weather).1 = level
        ∨ (level.SetWeather self srv weather).1 = { level with Weather := weather } := by
      unfold Level.SetWeather Level.SetWeatherTrace
      split
      · right; rfl
      · left; rfl
    rcases hcases with h | h
    · rw [h]
      exact ⟨rfl, fun hw => hw⟩
    · rw [h]
      exact ⟨rfl, fun hw => hw⟩
  · intro name2 C hclone hwf
    unfold Level.Clone at hclone
    split at hclone
    · simp at hclone
    · simp only [Option.some.injEq] at hclone
      subst hclone
      unfold Level.wellFormed at hwf ⊢
      simp only [copy_replicate_self]
      exact hwf

/-- Witness of C25: the level "flat" 16x16x16 and its clone named "b". -/
theorem wellFormed_preserved_witness :
    (flat16 ⟨7, 8⟩).wellFormed
    ∧ ∀ C, (flat16 ⟨7, 8⟩).Clone [98] = some C → C.wellFormed :=
  ⟨((wellFormed_preserved 2147483648 ⟨7, 8⟩ [102, 108, 97, 116] 16 16 16 (flat16 ⟨7, 8⟩) 0 ⟨[]⟩).1
      (flat16 ⟨7, 8⟩) rfl).1,
    fun C hC =>
      (wellFormed_preserved 2147483648 ⟨7, 8⟩ [102, 108, 97, 116] 16 16 16 (flat16 ⟨7, 8⟩) 0 ⟨[]⟩).2.2.2
        [98] C hC
        ((wellFormed_preserved 2147483648 ⟨7, 8⟩ [102, 108, 97, 116] 16 16 16 (flat16 ⟨7, 8⟩) 0 ⟨[]⟩).1
          (flat16 ⟨7, 8⟩) rfl).1⟩

/-! ## Level stream: the loop against the byte-at-a-time behaviour -/

theorem copyAt_nil {α : Type} (dst : List α) (i : Nat) (hi : i ≤ dst.length) :
    copyAt dst i [] = dst := by
  rw [copyAt_eq dst [] i (by simpa using hi)]
  simp

theorem copyAt_cons {α : Type} (dst : List α) (i : Nat) (x : α) (rest : List α)
    (hi : i + 1 + rest.length ≤ dst.length) :
    copyAt (dst.set i x) (i + 1) rest = copyAt dst i (x :: rest) := by
  rw [copyAt_eq _ rest (i + 1) (by rw [List.length_set]; exact hi),
    copyAt_eq dst (x :: rest) i (by rw [List.length_cons]; omega)]
  have hset : dst.set i x = dst.take i ++ x :: dst.drop (i + 1) :=
    List.set_eq_take_cons_drop x (by omega)
  have htl : (dst.take i).length = i := by rw [List.length_take]; omega
  have h1 : (dst.set i x).take (i + 1) = dst.take i ++ [x] := by
    rw [hset, List.take_append_eq_append_take, htl, List.take_of_length_le (by omega)]
    simp
  have h2 : (dst.set i x).drop (i + 1 + rest.length) = dst.drop (i + (x :: rest).length) := by
    rw [List.drop_set_of_lt x dst (by omega), List.length_cons]
    congr 1
    omega
  rw [h1, h2]
  simp

theorem feed_block : ∀ (src : List Nat) (s : levelStream) (i : Nat),
    s.buf.length = 1024 → s.index = (i : ℤ) → i < 1024 → i + src.length ≤ 1024 →
    s.feed src =
      if i + src.length = 1024 then
        { player := s.player.sendPacket
            (Packet.levelDataChunk ⟨[]⟩ ((copyAt s.buf i src).take 1024) s.percent),
          buf := copyAt s.buf i src, index := 0, percent := s.percent }
      else
        { player := s.player, buf := copyAt s.buf i src,
          index := ((i + src.length : Nat) : ℤ), percent := s.percent } := by
  intro src
  induction src with
  | nil =>
    intro s i hlen hi hi1 _
    rw [if_neg (by simp; omega), copyAt_nil _ _ (by omega)]
    cases s
    simp only [levelStream.feed, List.foldl_nil, List.length_nil, Nat.add_zero] at *
    rw [hi]
  | cons x rest ih =>
    intro s i hlen hi hi1 hfit
    rw [List.length_cons] at hfit
    have hfeed : s.feed (x :: rest) = (s.put x).feed rest := rfl
    rw [hfeed]
    have hcons := copyAt_cons s.buf i x rest (by omega)
    by_cases hfull : i + 1 = 1024
    · have hrest : rest = [] := List.length_eq_zero.mp (by omega)
      subst hrest
      rw [if_pos (by simp; omega), ← hcons, copyAt_nil _ _ (by rw [List.length_set]; omega)]
      show (s.put x) = _
      unfold levelStream.put
      simp only [hi]
      rw [if_pos (by omega)]
      have h1 : ((i : ℤ) + 1).toNat = 1024 := by omega
      simp only [h1, Int.toNat_ofNat]
    · have hput : s.put x
          = { player := s.player, buf := s.buf.set i x, index := ((i + 1 : Nat) : ℤ),
              percent := s.percent } := by
        unfold levelStream.put
        simp only [hi]
        rw [if_neg (by omega)]
        simp only [Int.toNat_ofNat]
        rfl
      rw [hput, ih _ (i + 1) (by show (s.buf.set i x).length = 1024; rw [List.length_set, hlen])
        rfl (by omega) (by omega)]
      simp only [hcons, List.length_cons]
      have harith : i + 1 + rest.length = i + (rest.length + 1) := by omega
      rw [harith]

theorem feed_append (s : levelStream) (a b : List Nat) : s.feed (a ++ b) = (s.feed a).feed b := by
  unfold levelStream.feed
  rw [List.foldl_append]

theorem writeLoop_feed (p : List Nat) :
    ∀ (fuel : Nat) (s : levelStream) (o c : Nat),
      s.buf.length = 1024 → 0 ≤ s.index → s.index < 1024 → o + c = p.length → c < fuel →
      levelStream.writeLoop fuel s p (o : ℤ) (c : ℤ) = .ok (s.feed (p.drop o)) := by
  intro fuel
  induction fuel with
  | zero => intro s o c _ _ _ _ hc; omega
  | succ fuel ih =>
    intro s o c hlen hi0 hi1 hoc hc
    rcases Nat.eq_zero_or_pos c with hc0 | hcpos
    · subst hc0
      have : p.drop o = [] := List.drop_of_length_le (by omega)
      rw [this]
      simp [levelStream.writeLoop, levelStream.feed]
    · obtain ⟨i, hi⟩ : ∃ i : Nat, s.index = (i : ℤ) := ⟨s.index.toNat, by omega⟩
      have hi1n : i < 1024 := by omega
      obtain ⟨sz, hsz⟩ : ∃ sz : Nat, sz = min (1024 - i) c := ⟨_, rfl⟩
      have hsize : min (1024 - s.index) (c : ℤ) = (sz : ℤ) := by omega
      have hszpos : 0 < sz := by omega
      have hszle : sz ≤ c := by omega
      have hcount : (c : ℤ) > 0 := by omega
      have hcond : 0 ≤ s.index ∧ s.index ≤ (s.buf.length : ℤ) ∧ 0 ≤ (o : ℤ)
          ∧ (o : ℤ) ≤ (o : ℤ) + (sz : ℤ) ∧ (o : ℤ) + (sz : ℤ) ≤ (p.length : ℤ) := by
        rw [hlen]; omega
      unfold levelStream.writeLoop
      rw [if_pos hcount]
      simp only [hsize]
      rw [if_pos hcond]
      have hosz : (o : ℤ) + (sz : ℤ) = ((o + sz : Nat) : ℤ) := by push_cast; rfl
      have hcsz : (c : ℤ) - (sz : ℤ) = ((c - sz : Nat) : ℤ) := by omega
      have hosz2 : (i : ℤ) + (sz : ℤ) = ((i + sz : Nat) : ℤ) := by push_cast; rfl
      rw [hosz, hcsz, hi]
      simp only [Int.toNat_ofNat]
      have hsrc : ((p.drop o).take sz).length = sz := by
        rw [List.length_take, List.length_drop]; omega
      have hfit : i + ((p.drop o).take sz).length ≤ s.buf.length := by rw [hsrc, hlen]; omega
      have hblen := length_copyAt s.buf ((p.drop o).take sz) i hfit
      have hsplit : s.feed (p.drop o) = (s.feed ((p.drop o).take sz)).feed (p.drop (o + sz)) := by
        rw [← feed_append, ← List.drop_drop, List.take_append_drop]
      have hblock := feed_block ((p.drop o).take sz) s i hlen hi hi1n (by rw [hsrc]; omega)
      rw [hsrc] at hblock
      rw [hsplit, hblock]
      by_cases hfull : i + sz = 1024
      · have hfullz : (i : ℤ) + (sz : ℤ) = 1024 := by omega
        rw [if_pos hfullz, if_pos hfull]
        have hsend := send_ok
          { player := s.player, buf := copyAt s.buf i ((p.drop o).take sz),
            index := (i : ℤ) + (sz : ℤ), percent := s.percent }
          (by show (0 : ℤ) ≤ (i : ℤ) + (sz : ℤ); omega)
          (by show (i : ℤ) + (sz : ℤ) ≤ ((copyAt s.buf i ((p.drop o).take sz)).length : ℤ)
              rw [hblen, hlen]; omega)
        rw [hsend]
        simp only [hosz2, Int.toNat_ofNat, hfull]
        exact ih _ (o + sz) (c - sz) (by show (copyAt _ _ _).length = 1024; rw [hblen, hlen])
          (by show (0 : ℤ) ≤ 0; omega) (by show (0 : ℤ) < 1024; omega) (by omega) (by omega)
      · have hfullz : ¬ ((i : ℤ) + (sz : ℤ) = 1024) := by omega
        rw [if_neg hfullz, if_neg hfull, hosz2]
        exact ih _ (o + sz) (c - sz) (by show (copyAt _ _ _).length = 1024; rw [hblen, hlen])
          (by show (0 : ℤ) ≤ ((i + sz : Nat) : ℤ); omega)
          (by show ((i + sz : Nat) : ℤ) < 1024; omega) (by omega) (by omega)

theorem Write_feed (s : levelStream) (p : List Nat) (hbuf : s.buf.length = 1024)
    (h0 : 0 ≤ s.index) (h1 : s.index < 1024) :
    s.Write p = .ok (s.feed p, (p.length : ℤ)) := by
  have h := writeLoop_feed p (p.length + 1) s 0 p.length hbuf h0 h1 (by omega) (by omega)
  unfold levelStream.Write
  have hz : ((0 : Nat) : ℤ) = 0 := rfl
  rw [hz] at h
  rw [h]
  rfl
theorem put_percent (s : levelStream) (x : Nat) : (s.put x).percent = s.percent := by
  unfold levelStream.put
  simp only
  split <;> rfl

theorem feed_percent (p : List Nat) : ∀ s : levelStream, (s.feed p).percent = s.percent := by
  induction p with
  | nil => intro s; rfl
  | cons x rest ih =>
    intro s
    have hfeed : s.feed (x :: rest) = (s.put x).feed rest := rfl
    rw [hfeed, ih, put_percent]

theorem feed_valid (s : levelStream) (p : List Nat) (hbuf : s.buf.length = 1024)
    (h0 : 0 ≤ s.index) (h1 : s.index < 1024) :
    (s.feed p).buf.length = 1024 ∧ 0 ≤ (s.feed p).index ∧ (s.feed p).index < 1024
      ∧ (s.feed p).index = (s.index + p.length) % 1024 := by
  obtain ⟨s1, out, hw, _, _, hidx, hlen, _⟩ := Write_count s p hbuf h0 h1
  rw [Write_feed s p hbuf h0 h1] at hw
  simp only [Outcome.ok.injEq, Prod.mk.injEq, and_true] at hw
  rw [hw]
  refine ⟨hlen, ?_, ?_, ?_⟩ <;> omega

theorem Close_index (s : levelStream) (hbuf : s.buf.length = 1024)
    (h0 : 0 ≤ s.index) (h1 : s.index < 1024) :
    ∃ s2, s.Close = .ok s2 ∧ s2.index = 0 := by
  unfold levelStream.Close
  by_cases hpos : s.index > 0
  · rw [if_pos hpos, send_ok s h0 (by rw [hbuf]; omega)]
    exact ⟨_, rfl, rfl⟩
  · rw [if_neg hpos]
    exact ⟨s, rfl, by omega⟩

/-- C21: from a stream (its buffer the array of 1024 bytes) with
`0 <= index < 1024`, for every input `p`, each
iteration of the loop of `Write` takes at least one byte, the loop ends within
any budget above `len(p)` without slicing out of range, `Write` returns
`len(p)`, and afterwards `0 <= index < 1024` with
`index == (old index + len(p)) mod 1024`; `Close` leaves `index == 0`. -/
theorem Write_keeps_index (s : levelStream) (p : List Nat) (hbuf : s.buf.length = 1024)
    (h0 : 0 ≤ s.index) (h1 : s.index < 1024) :
    (∀ count : ℤ, 0 < count → 1 ≤ min (1024 - s.index) count)
    ∧ ∃ s1, s.Write p = .ok (s1, (p.length : ℤ))
        ∧ (∀ fuel, p.length < fuel →
            levelStream.writeLoop fuel s p 0 (p.length : ℤ) = .ok s1)
        ∧ s1.buf.length = 1024 ∧ 0 ≤ s1.index ∧ s1.index < 1024
        ∧ s1.index = (s.index + p.length) % 1024
        ∧ (∃ s2, s1.Close = .ok s2 ∧ s2.index = 0)
        ∧ ∃ s3, s.Close = .ok s3 ∧ s3.index = 0 := by
  obtain ⟨hv1, hv2, hv3, hv4⟩ := feed_valid s p hbuf h0 h1
  refine ⟨fun count hc => by omega, s.feed p, Write_feed s p hbuf h0 h1, ?_, hv1, hv2, hv3, hv4,
    Close_index _ hv1 hv2 hv3, Close_index s hbuf h0 h1⟩
  intro fuel hfuel
  have h := writeLoop_feed p fuel s 0 p.length hbuf h0 h1 (by omega) hfuel
  have hz : ((0 : Nat) : ℤ) = 0 := rfl
  rw [hz] at h
  rw [h]
  rfl

/-- Witness of C21: 2000 bytes written to the stream holding 3 bytes. -/
theorem Write_keeps_index_witness :
    ∃ s1, stream3.Write (List.replicate 2000 7) = .ok (s1, 2000) ∧ s1.index = 979 :=
  match (Write_keeps_index stream3 (List.replicate 2000 7)
      (by show ([1, 2, 3] ++ List.replicate 1021 9).length = 1024
          rw [List.length_append, List.length_replicate]; rfl)
      (by show (0 : ℤ) ≤ 3; omega) (by show (3 : ℤ) < 1024; omega)).2 with
  | ⟨s1, hw, _, _, _, _, hidx, _⟩ =>
    ⟨s1, by rw [hw, List.length_replicate]; rfl, by
      rw [hidx, List.length_replicate]; decide⟩

/-- C22: the chunks do not depend on how the byte stream is split: from a
stream (its buffer the array of 1024 bytes) with `0 <= index < 1024`,
`Write(a)` followed by `Write(b)` keeps the
percent and ends in the very state `Write(a ++ b)` ends in, so the packets
sent, the buffered bytes and the index are the same. -/
theorem Write_split (s : levelStream) (a b : List Nat) (hbuf : s.buf.length = 1024)
    (h0 : 0 ≤ s.index) (h1 : s.index < 1024) :
    ∃ s1 s2 s3, s.Write a = .ok (s1, (a.length : ℤ)) ∧ s1.percent = s.percent
      ∧ s1.Write b = .ok (s2, (b.length : ℤ))
      ∧ s.Write (a ++ b) = .ok (s3, ((a ++ b).length : ℤ))
      ∧ s3 = s2
      ∧ s3.player.sent = s2.player.sent
      ∧ s3.index = s2.index
      ∧ s3.buf.take s3.index.toNat = s2.buf.take s2.index.toNat := by
  obtain ⟨hv1, hv2, hv3, _⟩ := feed_valid s a hbuf h0 h1
  have heq : s.feed (a ++ b) = (s.feed a).feed b := feed_append s a b
  refine ⟨s.feed a, (s.feed a).feed b, s.feed (a ++ b), Write_feed s a hbuf h0 h1,
    feed_percent a s, Write_feed _ b hv1 hv2 hv3, Write_feed s (a ++ b) hbuf h0 h1, heq, ?_, ?_, ?_⟩
  · rw [heq]
  · rw [heq]
  · rw [heq]

/-- Witness of C22: 1500 bytes and then 1000 bytes written to the stream
holding 3 bytes. -/
theorem Write_split_witness :
    ∃ s1 s2, stream3.Write (List.replicate 1500 7) = .ok (s1, 1500)
      ∧ s1.Write (List.replicate 1000 8) = .ok (s2, 1000)
      ∧ stream3.Write (List.replicate 1500 7 ++ List.replicate 1000 8) = .ok (s2, 2500) :=
  match Write_split stream3 (List.replicate 1500 7) (List.replicate 1000 8)
      (by show ([1, 2, 3] ++ List.replicate 1021 9).length = 1024
          rw [List.length_append, List.length_replicate]; rfl)
      (by show (0 : ℤ) ≤ 3; omega) (by show (3 : ℤ) < 1024; omega) with
  | ⟨s1, s2, s3, ha, _, hb, hab, heq, _⟩ =>
    ⟨s1, s2, by rw [ha, List.length_replicate]; rfl, by rw [hb, List.length_replicate]; rfl, by
      rw [hab, heq, List.length_append, List.length_replicate, List.length_replicate]; rfl⟩

/-! ## Level commands: lookups that fail -/

/-- C26: `handleCopyLvl` and `handleUnload` send exactly one message in every
case. `handleCopyLvl` leaves the registry as it was, unless the message has
exactly two fields, the level named by the first is found and no level named by
the second exists: then the registry is the result of `AddLevel` on the clone
of the source named by the second field. `handleUnload` leaves the registry as
it was, unless the message has one field naming a level that is found and is
not the main level: then the registry is the result of `UnloadLevel` on it. -/
theorem lookup_failures_abort {R : Type} (ops : LevelRegistry R)
    (Fields : List Nat → List (List Nat)) (sender : CommandSender R) (command : Command)
    (message : List Nat) :
    (∃ m, (handleCopyLvl ops Fields sender command message).messages = sender.messages ++ [m])
    ∧ ((handleCopyLvl ops Fields sender command message).server = sender.server
        ∨ ∃ a0 a1 ptr src, Fields message = [a0, a1]
            ∧ ops.FindLevel sender.server a0 = some (ptr, src)
            ∧ ops.FindLevel sender.server a1 = none
            ∧ (handleCopyLvl ops Fields sender command message).server
                = ops.AddLevel sender.server (src.Clone a1))
    ∧ (∀ a0 a1 ptr src, Fields message = [a0, a1] →
        ops.FindLevel sender.server a0 = some (ptr, src) →
        ops.FindLevel sender.server a1 = none →
        handleCopyLvl ops Fields sender command message
          = { server := ops.AddLevel sender.server (src.Clone a1),
              messages := sender.messages
                ++ [ascii "Level " ++ a0 ++ ascii " has been copied to " ++ a1] })
    ∧ ((Fields message).length ≠ 2 →
        (handleCopyLvl ops Fields sender command message).server = sender.server)
    ∧ (∀ a0 a1, Fields message = [a0, a1] → ops.FindLevel sender.server a0 = none →
        (handleCopyLvl ops Fields sender command message).server = sender.server)
    ∧ (∀ a0 a1 found, Fields message = [a0, a1] → ops.FindLevel sender.server a1 = some found →
        (handleCopyLvl ops Fields sender command message).server = sender.server)
    ∧ (∃ m, (handleUnload ops Fields sender command message).messages = sender.messages ++ [m])
    ∧ ((handleUnload ops Fields sender command message).server = sender.server
        ∨ ∃ a0 level fields, Fields message = [a0]
            ∧ ops.FindLevel sender.server a0 = some (level, fields)
            ∧ ops.MainLevel sender.server ≠ some level
            ∧ (handleUnload ops Fields sender command message).server
                = ops.UnloadLevel sender.server level)
    ∧ (∀ a0 level fields, Fields message = [a0] →
        ops.FindLevel sender.server a0 = some (level, fields) →
        ops.MainLevel sender.server ≠ some level →
        handleUnload ops Fields sender command message
          = { server := ops.UnloadLevel sender.server level,
              messages := sender.messages ++ [ascii "Level " ++ a0 ++ ascii " unloaded"] })
    ∧ ((Fields message).length ≠ 1 →
        (handleUnload ops Fields sender command message).server = sender.server)
    ∧ (∀ a0, Fields message = [a0] → ops.FindLevel sender.server a0 = none →
        (handleUnload ops Fields sender command message).server = sender.server)
    ∧ (∀ a0 level fields, Fields message = [a0] →
        ops.FindLevel sender.server a0 = some (level, fields) →
        ops.MainLevel sender.server = some level →
        (handleUnload ops Fields sender command message).server = sender.server) := by
  have hcopy : ∀ a0 a1, Fields message = [a0, a1] →
      handleCopyLvl ops Fields sender command message
        = match ops.FindLevel sender.server a0 with
          | none => sender.SendMessage (ascii "Level " ++ a0 ++ ascii " not found")
          | some (_, src) =>
            match ops.FindLevel sender.server a1 with
            | some _ => sender.SendMessage (ascii "Level " ++ a1 ++ ascii " already exists")
            | none =>
              CommandSender.SendMessage
                { sender with server := ops.AddLevel sender.server (src.Clone a1) }
                (ascii "Level " ++ a0 ++ ascii " has been copied to " ++ a1) := by
    intro a0 a1 hF
    unfold handleCopyLvl
    simp only [hF, List.length_cons, List.length_nil]
    rfl
  have hcopy2 : (Fields message).length ≠ 2 →
      handleCopyLvl ops Fields sender command message
        = sender.SendMessage (ascii "Usage: " ++ command.Name ++ ascii " <src> <dest>") := by
    intro hlen
    unfold handleCopyLvl
    simp only [if_pos hlen]
  have hunload : ∀ a0, Fields message = [a0] →
      handleUnload ops Fields sender command message
        = match ops.FindLevel sender.server a0 with
          | none => sender.SendMessage (ascii "Level " ++ a0 ++ ascii " not found")
          | some (level, _) =>
            if some level = ops.MainLevel sender.server then
              sender.SendMessage (ascii "Level " ++ a0 ++ ascii " is the main level")
            else
              CommandSender.SendMessage
                { sender with server := ops.UnloadLevel sender.server level }
                (ascii "Level " ++ a0 ++ ascii " unloaded") := by
    intro a0 hF
    unfold handleUnload
    simp only [hF, List.length_cons, List.length_nil]
    rfl
  have hunload2 : (Fields message).length ≠ 1 →
      handleUnload ops Fields sender command message
        = sender.SendMessage (ascii "Usage: " ++ command.Name ++ ascii " <level>") := by
    intro hlen
    unfold handleUnload
    simp only [if_pos hlen]
  have hlen2 : (Fields message).length = 2 → ∃ a0 a1, Fields message = [a0, a1] := by
    intro h
    match hm : Fields message, h with
    | [a0, a1], _ => exact ⟨a0, a1, rfl⟩
  have hlen1 : (Fields message).length = 1 → ∃ a0, Fields message = [a0] := by
    intro h
    match hm : Fields message, h with
    | [a0], _ => exact ⟨a0, rfl⟩
  refine ⟨?_, ?_, ?_, ?_, ?_, ?_, ?_, ?_, ?_, ?_, ?_, ?_⟩
  · by_cases hlen : (Fields message).length = 2
    · obtain ⟨a0, a1, hF⟩ := hlen2 hlen
      rw [hcopy a0 a1 hF]
      cases h0 : ops.FindLevel sender.server a0 with
      | none => exact ⟨_, rfl⟩
      | some found =>
        cases h1 : ops.FindLevel sender.server a1 with
        | none => exact ⟨_, rfl⟩
        | some found1 => exact ⟨_, rfl⟩
    · rw [hcopy2 hlen]
      exact ⟨_, rfl⟩
  · by_cases hlen : (Fields message).length = 2
    · obtain ⟨a0, a1, hF⟩ := hlen2 hlen
      rw [hcopy a0 a1 hF]
      cases h0 : ops.FindLevel sender.server a0 with
      | none => exact Or.inl rfl
      | some found =>
        cases h1 : ops.FindLevel sender.server a1 with
        | none => exact Or.inr ⟨a0, a1, found.1, found.2, hF, h0, h1, rfl⟩
        | some found1 => exact Or.inl rfl
    · rw [hcopy2 hlen]
      exact Or.inl rfl
  · intro a0 a1 ptr src hF h0 h1
    rw [hcopy a0 a1 hF, h0, h1]
    rfl
  · intro hlen
    rw [hcopy2 hlen]
    rfl
  · intro a0 a1 hF h0
    rw [hcopy a0 a1 hF, h0]
    rfl
  · intro a0 a1 found hF h1
    rw [hcopy a0 a1 hF]
    cases h0 : ops.FindLevel sender.server a0 with
    | none => rfl
    | some found0 => rw [h1]; rfl
  · by_cases hlen : (Fields message).length = 1
    · obtain ⟨a0, hF⟩ := hlen1 hlen
      rw [hunload a0 hF]
      cases h0 : ops.FindLevel sender.server a0 with
      | none => exact ⟨_, rfl⟩
      | some found =>
        by_cases hmain : some found.1 = ops.MainLevel sender.server
        · simp only [if_pos hmain]; exact ⟨_, rfl⟩
        · simp only [if_neg hmain]; exact ⟨_, rfl⟩
    · rw [hunload2 hlen]
      exact ⟨_, rfl⟩
  · by_cases hlen : (Fields message).length = 1
    · obtain ⟨a0, hF⟩ := hlen1 hlen
      rw [hunload a0 hF]
      cases h0 : ops.FindLevel sender.server a0 with
      | none => exact Or.inl rfl
      | some found =>
        by_cases hmain : some found.1 = ops.MainLevel sender.server
        · simp only [if_pos hmain]; exact Or.inl rfl
        · simp only [if_neg hmain]
          exact Or.inr ⟨a0, found.1, found.2, hF, h0, fun h => hmain h.symm, rfl⟩
    · rw [hunload2 hlen]
      exact Or.inl rfl
  · intro a0 level fields hF h0 hmain
    rw [hunload a0 hF, h0]
    simp only [if_neg (fun h : some level = ops.MainLevel sender.server => hmain h.symm)]
    rfl
  · intro hlen
    rw [hunload2 hlen]
    rfl
  · intro a0 hF h0
    rw [hunload a0 hF, h0]
    rfl
  · intro a0 level fields hF h0 hmain
    rw [hunload a0 hF, h0]
    simp only [if_pos hmain.symm]
    rfl

/-- Witness of C26: on a registry holding "flat" (the main level) and "b", the
message "flat c" adds a clone of "flat" named "c", and the message "flat" does
not unload the main level. -/
theorem lookup_failures_abort_witness :
    (handleCopyLvl listRegistry (spaceFields []) sender0 ⟨[]⟩ [102, 108, 97, 116, 32, 99]).server
      = listRegistry.AddLevel sender0.server ((flat16 ⟨7, 8⟩).Clone [99])
    ∧ (handleUnload listRegistry (spaceFields []) sender0 ⟨[]⟩ [102, 108, 97, 116]).server
      = sender0.server :=
  ⟨congrArg CommandSender.server
      ((lookup_failures_abort listRegistry (spaceFields []) sender0 ⟨[]⟩
        [102, 108, 97, 116, 32, 99]).2.2.1 [102, 108, 97, 116] [99] 0 (flat16 ⟨7, 8⟩)
        (by decide) rfl rfl),
    (lookup_failures_abort listRegistry (spaceFields []) sender0 ⟨[]⟩
        [102, 108, 97, 116]).2.2.2.2.2.2.2.2.2.2.2 [102, 108, 97, 116] 0 (flat16 ⟨7, 8⟩)
        (by decide) rfl rfl⟩

end gomcc
